import Mathlib

/-!
BadgerDB buffer manager (`src/BufMgr/src/buffer.cpp`).

A shallow embedding of `BufMgr`: the frame table, the frame pool, the
page-identity index, the clock hand and the clock-sweep allocation, together
with the public operations `readPage`, `unPinPage`, `flushFile`, `allocPage`
and `disposePage`.

Conventions.
* Arrays (`bufDescTable`, `bufPool`) are total maps from frame numbers.
* `std::uint32_t` arithmetic is written with an explicit `% 2 ^ 32`.
* A C++ exception is a returned `Except.error`; the manager state at the
  moment of the throw is returned next to it.
* The `while (true)` loop of `allocBuf` takes a fuel argument; `none` means
  that the fuel ran out before the loop left.
* The calls issued to the Page Store are recorded, oldest first, in the
  `trace` component of the state.
-/

namespace badgerdb

/-- Identity of a `File` object (the `File*` pointer value, never null). -/
abbrev File := Nat

/-- Page number inside a file (`PageId`). -/
abbrev PageId := Nat

/-- Frame number (`FrameId`). -/
abbrev FrameId := Nat

/-- Modelled from the spec: the `Page` class is not part of the sources. A
page carries its own page number (`page_number()`) and its contents. -/
structure Page where
  number : PageId
  data : Nat
deriving DecidableEq, Repr, Inhabited

/-- Exceptions that leave the manager. `InvalidPage` stands for a failure of
the Page Store while reading a page; the others are the exception classes
named in `buffer.cpp`. -/
inductive Error where
  | BufferExceeded
  | PageNotPinned (file : Option File) (pageNo : PageId) (frameNo : FrameId)
  | PagePinned (file : File) (pageNo : PageId) (frameNo : FrameId)
  | BadBuffer (frameNo : FrameId) (dirty valid refbit : Bool)
  | HashNotFound (file : File) (pageNo : PageId)
  | InvalidPage (file : File) (pageNo : PageId)
deriving DecidableEq, Repr

/-- One call issued to the Page Store. -/
inductive StoreCall where
  | readPage (file : File) (pageNo : PageId)
  | writePage (file : Option File) (page : Page)
  | allocatePage (file : File)
  | deletePage (file : File) (pageNo : PageId)
deriving DecidableEq, Repr

/-- Modelled from the spec: the Page Store (`File`) is an external
collaborator whose code is not part of the sources. Section 6 of the
specification gives `readPage(pageNumber) -> PageBytes` and
`allocatePage() -> PageBytes-with-new-number`; what it answers may depend on
the calls it has received so far. A read answers `none` when the store fails;
`writePage` and `deletePage` return nothing and are only recorded. -/
structure PageStore where
  readPage : List StoreCall → File → PageId → Option Page
  allocatePage : List StoreCall → File → Page

/-- Frame descriptor `BufDesc`. The class is declared in `buffer.h`, which is
not part of the sources; the fields are the ones `buffer.cpp` accesses.
`file` is the owning file pointer, `none` being the null pointer. -/
structure BufDesc where
  file : Option File
  pageNo : PageId
  frameNo : FrameId
  pinCnt : Int
  dirty : Bool
  valid : Bool
  refbit : Bool
deriving DecidableEq, Repr

/-- Modelled from the spec: `BufDesc::Set` is declared in the missing
`buffer.h`. Section 4.2: "set descriptor fields (file, page number,
valid=true, pin count=1, reference flag=true, dirty=false)". -/
def BufDesc.Set (d : BufDesc) (file : File) (pageNo : PageId) : BufDesc :=
  { d with file := some file, pageNo := pageNo, pinCnt := 1, dirty := false,
           valid := true, refbit := true }

/-- Modelled from the spec: `BufDesc::Clear` is declared in the missing
`buffer.h`. Section 4.5: "clear the frame descriptor (valid=false, pin
count=0, dirty=false, reference flag=false)"; section 3: the owning file
identity is "nullable/empty when frame is free". -/
def BufDesc.Clear (d : BufDesc) : BufDesc :=
  { d with file := none, pinCnt := 0, dirty := false, valid := false, refbit := false }

/-- Modelled from the spec: the default constructor of `BufDesc` is declared
in the missing `buffer.h`; a frame that was never used is free (section 3,
lifecycle of a frame), that is, cleared. -/
def BufDesc.init : BufDesc :=
  { file := none, pageNo := 0, frameNo := 0, pinCnt := 0, dirty := false,
    valid := false, refbit := false }

/-- Modelled from the spec: the page-identity index `BufHashTbl` is not part
of the sources. Section 2: it "maps (file-identity, page-number) →
frame-index; supports insert, remove, and lookup-or-fail". -/
structure BufHashTbl where
  map : File → PageId → Option FrameId

/-- Modelled from the spec: the index holding no entry. -/
def BufHashTbl.empty : BufHashTbl := ⟨fun _ _ => none⟩

/-- Modelled from the spec: `lookup(file, pageNumber) -> frameId`, failing
with HashNotFound (`none`) if absent. -/
def BufHashTbl.lookup (h : BufHashTbl) (file : File) (pageNo : PageId) : Option FrameId :=
  h.map file pageNo

/-- Modelled from the spec: `insert(file, pageNumber, frameId)`. -/
def BufHashTbl.insert (h : BufHashTbl) (file : File) (pageNo : PageId) (frameNo : FrameId) :
    BufHashTbl :=
  ⟨fun f p => if f = file ∧ p = pageNo then some frameNo else h.map f p⟩

/-- Modelled from the spec: `remove(file, pageNumber)`, failing with
HashNotFound (`none`) if absent. -/
def BufHashTbl.remove (h : BufHashTbl) (file : File) (pageNo : PageId) : Option BufHashTbl :=
  match h.map file pageNo with
  | some _ => some ⟨fun f p => if f = file ∧ p = pageNo then none else h.map f p⟩
  | none => none

/-- State of a `BufMgr` object, together with the trace of the calls it has
issued to the Page Store. -/
structure BufMgr where
  numBufs : Nat
  clockHand : FrameId
  bufDescTable : FrameId → BufDesc
  bufPool : FrameId → Page
  hashTable : BufHashTbl
  trace : List StoreCall

/-- Assignment `bufDescTable[i] = d`. -/
def BufMgr.setDesc (s : BufMgr) (i : FrameId) (d : BufDesc) : BufMgr :=
  { s with bufDescTable := Function.update s.bufDescTable i d }

/-- Assignment `bufPool[i] = p`. -/
def BufMgr.setPool (s : BufMgr) (i : FrameId) (p : Page) : BufMgr :=
  { s with bufPool := Function.update s.bufPool i p }

/-- Record one call to the Page Store. -/
def BufMgr.call (s : BufMgr) (c : StoreCall) : BufMgr :=
  { s with trace := s.trace ++ [c] }

/-- Constructor `BufMgr::BufMgr(bufs)` (lines 19-35): every descriptor gets
its frame number and `valid = false`, the index is empty and the clock hand
is `bufs - 1` in 32-bit unsigned arithmetic. -/
def BufMgr.new (bufs : Nat) : BufMgr :=
  { numBufs := bufs
    clockHand := (bufs + 2 ^ 32 - 1) % 2 ^ 32
    bufDescTable := fun i =>
      if i < bufs then { BufDesc.init with frameNo := i, valid := false } else BufDesc.init
    bufPool := fun _ => default
    hashTable := BufHashTbl.empty
    trace := [] }

/-- Method `advanceClock` (lines 52-55): `clockHand = (clockHand + 1) % numBufs`. -/
def advanceClock (s : BufMgr) : BufMgr :=
  { s with clockHand := (s.clockHand + 1) % 2 ^ 32 % s.numBufs }

/-- The `while (true)` loop of `allocBuf` (lines 61-93). The second argument
is the manager state, the third the local counter `pin_statistic`. -/
def allocBufLoop : Nat → BufMgr → Nat → Option (Except Error FrameId × BufMgr)
  | 0, _, _ => none
  | fuel + 1, s, pin_statistic =>
    let d := s.bufDescTable s.clockHand
    if !d.valid then
      some (.ok s.clockHand, s)
    else if d.refbit then
      allocBufLoop fuel (advanceClock (s.setDesc s.clockHand { d with refbit := false }))
        pin_statistic
    else if d.pinCnt = 0 then
      let s1 :=
        if d.dirty then
          (s.call (.writePage d.file (s.bufPool s.clockHand))).setDesc s.clockHand
            { d with dirty := false }
        else s
      let s2 :=
        match d.file with
        | some file =>
          match s1.hashTable.remove file d.pageNo with
          | some h => { s1 with hashTable := h }
          | none => s1
        | none => s1
      some (.ok s.clockHand, s2)
    else
      let pin_statistic1 := (pin_statistic + 1) % 2 ^ 32
      if pin_statistic1 = s.numBufs then
        some (.error .BufferExceeded, s)
      else
        allocBufLoop fuel (advanceClock s) pin_statistic1

/-- Method `allocBuf` (lines 57-94). -/
def allocBuf (fuel : Nat) (s : BufMgr) : Option (Except Error FrameId × BufMgr) :=
  allocBufLoop fuel (advanceClock s) 0

/-- Method `readPage` (lines 97-112). The returned frame number stands for the
pointer `bufPool + frameNo`. -/
def readPage (fuel : Nat) (store : PageStore) (s : BufMgr) (file : File) (pageNo : PageId) :
    Option (Except Error FrameId × BufMgr) :=
  match s.hashTable.lookup file pageNo with
  | some frameNo =>
    let d := s.bufDescTable frameNo
    some (.ok frameNo, s.setDesc frameNo { d with refbit := true, pinCnt := d.pinCnt + 1 })
  | none =>
    match allocBuf fuel s with
    | none => none
    | some (.error e, s1) => some (.error e, s1)
    | some (.ok frameNo, s1) =>
      let s2 := s1.call (.readPage file pageNo)
      match store.readPage s1.trace file pageNo with
      | none => some (.error (.InvalidPage file pageNo), s2)
      | some pg =>
        let s3 := s2.setPool frameNo pg
        let s4 := { s3 with hashTable := s3.hashTable.insert file pageNo frameNo }
        some (.ok frameNo, s4.setDesc frameNo ((s4.bufDescTable frameNo).Set file pageNo))

/-- Method `unPinPage` (lines 115-133). -/
def unPinPage (s : BufMgr) (file : File) (pageNo : PageId) (dirty : Bool) :
    Except Error Unit × BufMgr :=
  match s.hashTable.lookup file pageNo with
  | none => (.ok (), s)
  | some frameNo =>
    let d := s.bufDescTable frameNo
    if d.pinCnt > 0 then
      let s1 := s.setDesc frameNo { d with pinCnt := d.pinCnt - 1 }
      if dirty then
        (.ok (), s1.setDesc frameNo { s1.bufDescTable frameNo with dirty := true })
      else (.ok (), s1)
    else
      (.error (.PageNotPinned d.file d.pageNo frameNo), s)

/-- The `for` loop of `flushFile` (lines 137-150) over the frame numbers still
to be visited. -/
def flushFileLoop (file : File) : List FrameId → BufMgr → Except Error Unit × BufMgr
  | [], s => (.ok (), s)
  | i :: rest, s =>
    let d := s.bufDescTable i
    if d.file = some file then
      if d.pinCnt > 0 then
        (.error (.PagePinned file d.pageNo i), s)
      else if !d.valid then
        (.error (.BadBuffer i d.dirty d.valid d.refbit), s)
      else
        let s1 :=
          if d.dirty then
            (s.call (.writePage d.file (s.bufPool i))).setDesc i { d with dirty := false }
          else s
        match s1.hashTable.remove file (s1.bufDescTable i).pageNo with
        | none => (.error (.HashNotFound file (s1.bufDescTable i).pageNo), s1)
        | some h =>
          let s2 := { s1 with hashTable := h }
          flushFileLoop file rest (s2.setDesc i (s2.bufDescTable i).Clear)
    else
      flushFileLoop file rest s

/-- Method `flushFile` (lines 135-151). -/
def flushFile (s : BufMgr) (file : File) : Except Error Unit × BufMgr :=
  flushFileLoop file (List.range s.numBufs) s

/-- Method `allocPage` (lines 153-163); returns the new page number and the
frame whose pool slot holds the new page. -/
def allocPage (fuel : Nat) (store : PageStore) (s : BufMgr) (file : File) :
    Option (Except Error (PageId × FrameId) × BufMgr) :=
  let newPage := store.allocatePage s.trace file
  let s0 := s.call (.allocatePage file)
  let pageNo := newPage.number
  match allocBuf fuel s0 with
  | none => none
  | some (.error e, s1) => some (.error e, s1)
  | some (.ok frameNo, s1) =>
    let s2 := { s1 with hashTable := s1.hashTable.insert file pageNo frameNo }
    let s3 := s2.setPool frameNo newPage
    some (.ok (pageNo, frameNo), s3.setDesc frameNo ((s3.bufDescTable frameNo).Set file pageNo))

/-- Method `disposePage` (lines 165-176). -/
def disposePage (s : BufMgr) (file : File) (pageNo : PageId) : Except Error Unit × BufMgr :=
  let s1 :=
    match s.hashTable.lookup file pageNo with
    | some frameNo =>
      match s.hashTable.remove file pageNo with
      | some h =>
        let s2 := { s with hashTable := h }
        s2.setDesc frameNo (s2.bufDescTable frameNo).Clear
      | none => s
    | none => s
  (.ok (), s1.call (.deletePage file pageNo))


/-- Number of frames below `n` whose reference flag is set. -/
def refbitCount (tbl : FrameId → BufDesc) : Nat → Nat
  | 0 => 0
  | n + 1 => refbitCount tbl n + (if (tbl n).refbit then 1 else 0)

/-- One call of a public operation of the manager. -/
inductive Op where
  | readPage (file : File) (pageNo : PageId)
  | unPinPage (file : File) (pageNo : PageId) (dirty : Bool)
  | allocPage (file : File)
  | disposePage (file : File) (pageNo : PageId)
  | flushFile (file : File)
deriving DecidableEq, Repr

/-- State of the manager after one call, whether the call returned or threw;
`none` when the fuel ran out. -/
def Op.run (fuel : Nat) (store : PageStore) (s : BufMgr) : Op → Option BufMgr
  | .readPage file pageNo => (badgerdb.readPage fuel store s file pageNo).map Prod.snd
  | .unPinPage file pageNo dirty => some (badgerdb.unPinPage s file pageNo dirty).2
  | .allocPage file => (badgerdb.allocPage fuel store s file).map Prod.snd
  | .disposePage file pageNo => some (badgerdb.disposePage s file pageNo).2
  | .flushFile file => some (badgerdb.flushFile s file).2

/-- State of the manager after a sequence of calls. -/
def runOps (fuel : Nat) (store : PageStore) : List Op → BufMgr → Option BufMgr
  | [], s => some s
  | op :: ops, s => (op.run fuel store s).bind (runOps fuel store ops)

/-- Consecutive releases of one page, one for each dirty hint of the list;
`none` as soon as a release throws. -/
def unPinAll (s : BufMgr) (file : File) (pageNo : PageId) : List Bool → Option BufMgr
  | [] => some s
  | dirty :: rest =>
    match unPinPage s file pageNo dirty with
    | (.ok _, s') => unPinAll s' file pageNo rest
    | (.error _, _) => none

/-- No frame has a negative pin count. -/
def NonNegPins (s : BufMgr) : Prop :=
  ∀ i, 0 ≤ (s.bufDescTable i).pinCnt

/-- Index and frame table agree: the index maps `(file, pageNo)` to frame `f`
exactly when `f` is a valid frame of the pool whose descriptor names
`(file, pageNo)`. -/
def IndexConsistent (s : BufMgr) : Prop :=
  ∀ file pageNo f, s.hashTable.lookup file pageNo = some f ↔
    (f < s.numBufs ∧ (s.bufDescTable f).valid = true ∧
      (s.bufDescTable f).file = some file ∧ (s.bufDescTable f).pageNo = pageNo)

/-- A frame of the pool that is not valid names no file (section 4.6 of the
specification calls a descriptor that "claims ownership without being valid"
inconsistent). -/
def FreeFramesUnowned (s : BufMgr) : Prop :=
  ∀ i, i < s.numBufs → (s.bufDescTable i).valid = false → (s.bufDescTable i).file = none

/-- Index and frame table are consistent. -/
def Consistent (s : BufMgr) : Prop :=
  IndexConsistent s ∧ FreeFramesUnowned s

/-- Closed form of the state after one iteration of the loop of `flushFile`
that runs to its end (frame `i` owned by `file`, not pinned, valid, present in
the index): the page is written back if dirty, its index entry is removed and
the descriptor is cleared. `flushFileLoop_cons_owned` shows that the loop
computes it. -/
def flushOne (file : File) (i : FrameId) (s : BufMgr) : BufMgr :=
  { s with
    bufDescTable := Function.update s.bufDescTable i (s.bufDescTable i).Clear
    hashTable :=
      ⟨fun f p => if f = file ∧ p = (s.bufDescTable i).pageNo then none else s.hashTable.map f p⟩
    trace := s.trace ++
      (if (s.bufDescTable i).dirty then [StoreCall.writePage (some file) (s.bufPool i)]
       else []) }

/-- The write-backs `flushFile` issues for the frames of list `l`: one for each
frame owned by `file` that is dirty, in the order of `l`. -/
def flushWrites (file : File) (s : BufMgr) (l : List FrameId) : List StoreCall :=
  (l.filter fun i => decide ((s.bufDescTable i).file = some file) && (s.bufDescTable i).dirty).map
    fun i => StoreCall.writePage (some file) (s.bufPool i)

/-! ## Concrete states used to exercise the theorems -/

/-- A descriptor of a valid frame holding page `pageNo` of file `7`. -/
def demoDesc (pageNo : PageId) (frameNo : FrameId) (pinCnt : Int) (dirty refbit : Bool) :
    BufDesc :=
  { file := some 7, pageNo := pageNo, frameNo := frameNo, pinCnt := pinCnt, dirty := dirty,
    valid := true, refbit := refbit }

/-- A pool of two frames holding pages 1 and 3 of file `7`, both indexed, with
the clock hand on frame 1; the arguments give the descriptor of each frame. -/
def demoState (d0 d1 : BufDesc) : BufMgr :=
  { numBufs := 2
    clockHand := 1
    bufDescTable := fun i => if i = 0 then d0 else d1
    bufPool := fun i => if i = 0 then ⟨1, 101⟩ else ⟨3, 103⟩
    hashTable := (BufHashTbl.empty.insert 7 1 0).insert 7 3 1
    trace := [] }

/-- Frame 0 pinned and recently used, frame 1 unpinned, dirty and recently
used: the sweep clears both reference flags, counts frame 0 once and evicts
frame 1. -/
def evictState : BufMgr :=
  demoState (demoDesc 1 0 1 false true) (demoDesc 3 1 0 true true)

/-- State of `evictState` after `allocBuf`. -/
def evictPost : BufMgr :=
  match allocBuf 4 evictState with
  | some (_, s') => s'
  | none => evictState

/-- A Page Store in which every read succeeds. -/
def demoStore : PageStore :=
  ⟨fun _ _ p => some ⟨p, 100 + p⟩, fun t _ => ⟨t.length, 0⟩⟩

/-- Calls on a fresh pool of two frames after which frame 0 is pinned with its
reference flag cleared and frame 1 is unpinned with its reference flag set. -/
def doubleCountOps : List Op :=
  [.readPage 7 1, .readPage 7 2, .unPinPage 7 2 false, .readPage 7 3, .unPinPage 7 3 false]

/-- State reached from a fresh pool of two frames by `doubleCountOps`. -/
def doubleCountState : BufMgr :=
  (runOps 4 demoStore doubleCountOps (BufMgr.new 2)).getD (BufMgr.new 2)

/-- Both frames valid and pinned. -/
def pinnedState : BufMgr :=
  demoState (demoDesc 1 0 1 false true) (demoDesc 3 1 2 false false)

/-- State of `evictState` after fetching page 5 of file 7. -/
def fetchPost : BufMgr :=
  match readPage 4 demoStore evictState 7 5 with
  | some (_, s') => s'
  | none => evictState

/-- Two frames: frame 0 holds page 1 of file 7, unpinned and dirty; frame 1
holds page 3 of file 8, pinned. Both are indexed. -/
def flushState : BufMgr :=
  { numBufs := 2
    clockHand := 1
    bufDescTable := fun i =>
      if i = 0 then demoDesc 1 0 0 true false
      else { demoDesc 3 1 1 false true with file := some 8 }
    bufPool := fun i => if i = 0 then ⟨1, 101⟩ else ⟨3, 103⟩
    hashTable := (BufHashTbl.empty.insert 7 1 0).insert 8 3 1
    trace := [] }

/-- Three frames of file 7, all indexed: frame 0 (page 1) unpinned and dirty,
frame 1 (page 2) pinned, frame 2 (page 3) unpinned and dirty. -/
def pinnedFlushState : BufMgr :=
  { numBufs := 3
    clockHand := 2
    bufDescTable := fun i =>
      if i = 0 then demoDesc 1 0 0 true false
      else if i = 1 then demoDesc 2 1 1 false true
      else demoDesc 3 2 0 true false
    bufPool := fun i => ⟨i + 1, 100 + i⟩
    hashTable := ((BufHashTbl.empty.insert 7 1 0).insert 7 2 1).insert 7 3 2
    trace := [] }

/-- One frame that names file 7 without being valid; the index is empty. -/
def badFlushState : BufMgr :=
  { numBufs := 1
    clockHand := 0
    bufDescTable := fun i => { demoDesc 1 i 0 true false with valid := false }
    bufPool := fun _ => ⟨1, 101⟩
    hashTable := BufHashTbl.empty
    trace := [] }

/-- A Page Store whose read of page 9 fails. -/
def failingStore : PageStore :=
  ⟨fun _ _ p => if p = 9 then none else some ⟨p, 100 + p⟩, fun t _ => ⟨t.length, 0⟩⟩

/-- Calls on a fresh pool of two frames that end with a fetch whose read fails
after `allocBuf` has chosen frame 0 as the victim. -/
def staleOps : List Op :=
  [.readPage 7 1, .readPage 7 2, .unPinPage 7 1 false, .readPage 7 9]

/-- State reached from a fresh pool of two frames by `staleOps`. -/
def staleState : BufMgr :=
  (runOps 4 failingStore staleOps (BufMgr.new 2)).getD (BufMgr.new 2)

/-- State of `evictState` after `allocPage` on file 7. -/
def allocPost : BufMgr :=
  match allocPage 4 demoStore evictState 7 with
  | some (_, s') => s'
  | none => evictState

/-- State of `pinnedState` after the failing `allocBuf`. -/
def pinnedPost : BufMgr :=
  match allocBuf 4 pinnedState with
  | some (_, s') => s'
  | none => pinnedState

/-- Every read of the Page Store succeeds. -/
def ReadsSucceed (store : PageStore) : Prop :=
  ∀ t file pageNo, store.readPage t file pageNo ≠ none

/-- Side condition of one call: the page number `allocatePage` hands out is
not resident for that file. It is `True` for the other calls. -/
def FreshAlloc (store : PageStore) (s : BufMgr) : Op → Prop
  | .allocPage file => s.hashTable.lookup file (store.allocatePage s.trace file).number = none
  | _ => True

/-- States reached from a freshly constructed manager with `bufs` frames by a
sequence of public calls, each of which returned or threw, where every
`allocPage` got a page number that was not resident. -/
inductive Reachable (fuel : Nat) (store : PageStore) (bufs : Nat) : BufMgr → Prop where
  | init : Reachable fuel store bufs (BufMgr.new bufs)
  | step (s s' : BufMgr) (op : Op) : Reachable fuel store bufs s → FreshAlloc store s op →
      op.run fuel store s = some s' → Reachable fuel store bufs s'

/-- Index and frame table agree on all frames but `f`, to which no index entry
points: the state between the return of `allocBuf` and the refill of `f`. -/
def ConsistentExcept (s : BufMgr) (f : FrameId) : Prop :=
  f < s.numBufs ∧
  ∀ file pageNo i, s.hashTable.lookup file pageNo = some i ↔
    (i ≠ f ∧ i < s.numBufs ∧ (s.bufDescTable i).valid = true ∧
      (s.bufDescTable i).file = some file ∧ (s.bufDescTable i).pageNo = pageNo)

/-- State before the failing fetch: a fresh pool of two frames after fetching
pages 1 and 2 of file 7 and releasing page 1. -/
def preStaleState : BufMgr :=
  (runOps 4 demoStore [.readPage 7 1, .readPage 7 2, .unPinPage 7 1 false]
    (BufMgr.new 2)).getD (BufMgr.new 2)

/-- State of `preStaleState` after the fetch of page 9, whose read fails. -/
def stalePost : BufMgr :=
  match readPage 4 failingStore preStaleState 7 9 with
  | some (_, s') => s'
  | none => preStaleState

/-- Closed form of the state after a fetch of `(file, pageNo)` that misses the
index and finds the frame next to the clock hand not valid: the hand has moved
to that frame, the read is recorded, the page `pg` sits in the pool slot, the
index has the new entry and the descriptor is set. `readPage_next_invalid`
shows that `readPage` computes it. -/
def installed (s : BufMgr) (file : File) (pageNo : PageId) (pg : Page) : BufMgr :=
  let s1 := advanceClock s
  let s2 := s1.call (.readPage file pageNo)
  let s3 := s2.setPool s1.clockHand pg
  let s4 := { s3 with hashTable := s3.hashTable.insert file pageNo s1.clockHand }
  s4.setDesc s1.clockHand ((s4.bufDescTable s1.clockHand).Set file pageNo)

/-- The pages fetched by a sequence of calls, in the order of the calls. -/
def fetchedPages : List Op → List (File × PageId)
  | [] => []
  | .readPage file pageNo :: rest => (file, pageNo) :: fetchedPages rest
  | _ :: rest => fetchedPages rest

/-- The call is a fetch or a release. -/
def FetchOrRelease : Op → Prop
  | .readPage _ _ => True
  | .unPinPage _ _ _ => True
  | _ => False

/-- State of a pool of `N` frames that has been filled, from frame 0 on, with
the pages of the list `pages` and nothing else: the `k`-th page sits in frame
`k` and is indexed there, the frames from `pages.length` on are not valid, the
index holds no other entry, the only Page Store calls were the reads of these
pages, and the clock hand is on the frame filled last. -/
def FillInv (N : Nat) (pages : List (File × PageId)) (s : BufMgr) : Prop :=
  s.numBufs = N ∧
  s.clockHand = (pages.length + N - 1) % N ∧
  (∀ (k : Nat) file pageNo, pages[k]? = some (file, pageNo) →
    s.hashTable.lookup file pageNo = some k ∧ (s.bufDescTable k).valid = true ∧
    (s.bufDescTable k).file = some file ∧ (s.bufDescTable k).pageNo = pageNo) ∧
  (∀ file pageNo, (file, pageNo) ∉ pages → s.hashTable.lookup file pageNo = none) ∧
  (∀ k : Nat, pages.length ≤ k → (s.bufDescTable k).valid = false) ∧
  s.trace = pages.map fun x => StoreCall.readPage x.1 x.2

/-- Two fetches of distinct pages with a dirty release in between. -/
def fillOps : List Op :=
  [.readPage 7 1, .unPinPage 7 1 true, .readPage 7 2]

/-! ## Basic facts about the state updates -/

@[simp] theorem advanceClock_numBufs (s : BufMgr) : (advanceClock s).numBufs = s.numBufs := rfl
@[simp] theorem advanceClock_bufDescTable (s : BufMgr) :
    (advanceClock s).bufDescTable = s.bufDescTable := rfl
@[simp] theorem advanceClock_bufPool (s : BufMgr) : (advanceClock s).bufPool = s.bufPool := rfl
@[simp] theorem advanceClock_hashTable (s : BufMgr) :
    (advanceClock s).hashTable = s.hashTable := rfl
@[simp] theorem advanceClock_trace (s : BufMgr) : (advanceClock s).trace = s.trace := rfl

theorem advanceClock_lt (s : BufMgr) (hn : 0 < s.numBufs) :
    (advanceClock s).clockHand < (advanceClock s).numBufs :=
  Nat.mod_lt _ hn

@[simp] theorem setDesc_numBufs (s : BufMgr) (i : FrameId) (d : BufDesc) :
    (s.setDesc i d).numBufs = s.numBufs := rfl
@[simp] theorem setDesc_clockHand (s : BufMgr) (i : FrameId) (d : BufDesc) :
    (s.setDesc i d).clockHand = s.clockHand := rfl
@[simp] theorem setDesc_bufPool (s : BufMgr) (i : FrameId) (d : BufDesc) :
    (s.setDesc i d).bufPool = s.bufPool := rfl
@[simp] theorem setDesc_hashTable (s : BufMgr) (i : FrameId) (d : BufDesc) :
    (s.setDesc i d).hashTable = s.hashTable := rfl
@[simp] theorem setDesc_trace (s : BufMgr) (i : FrameId) (d : BufDesc) :
    (s.setDesc i d).trace = s.trace := rfl
@[simp] theorem setDesc_same (s : BufMgr) (i : FrameId) (d : BufDesc) :
    (s.setDesc i d).bufDescTable i = d := by
  simp [BufMgr.setDesc]
theorem setDesc_other (s : BufMgr) (i j : FrameId) (d : BufDesc) (h : j ≠ i) :
    (s.setDesc i d).bufDescTable j = s.bufDescTable j := by
  simp [BufMgr.setDesc, Function.update, h]
theorem setDesc_apply (s : BufMgr) (i j : FrameId) (d : BufDesc) :
    (s.setDesc i d).bufDescTable j = if j = i then d else s.bufDescTable j := by
  by_cases h : j = i
  · subst h; simp
  · simp [setDesc_other _ _ _ _ h, h]

@[simp] theorem call_numBufs (s : BufMgr) (c : StoreCall) : (s.call c).numBufs = s.numBufs := rfl
@[simp] theorem call_clockHand (s : BufMgr) (c : StoreCall) :
    (s.call c).clockHand = s.clockHand := rfl
@[simp] theorem call_bufDescTable (s : BufMgr) (c : StoreCall) :
    (s.call c).bufDescTable = s.bufDescTable := rfl
@[simp] theorem call_bufPool (s : BufMgr) (c : StoreCall) : (s.call c).bufPool = s.bufPool := rfl
@[simp] theorem call_hashTable (s : BufMgr) (c : StoreCall) :
    (s.call c).hashTable = s.hashTable := rfl
@[simp] theorem call_trace (s : BufMgr) (c : StoreCall) : (s.call c).trace = s.trace ++ [c] := rfl

@[simp] theorem setPool_numBufs (s : BufMgr) (i : FrameId) (p : Page) :
    (s.setPool i p).numBufs = s.numBufs := rfl
@[simp] theorem setPool_clockHand (s : BufMgr) (i : FrameId) (p : Page) :
    (s.setPool i p).clockHand = s.clockHand := rfl
@[simp] theorem setPool_bufDescTable (s : BufMgr) (i : FrameId) (p : Page) :
    (s.setPool i p).bufDescTable = s.bufDescTable := rfl
@[simp] theorem setPool_hashTable (s : BufMgr) (i : FrameId) (p : Page) :
    (s.setPool i p).hashTable = s.hashTable := rfl
@[simp] theorem setPool_trace (s : BufMgr) (i : FrameId) (p : Page) :
    (s.setPool i p).trace = s.trace := rfl
@[simp] theorem setPool_same (s : BufMgr) (i : FrameId) (p : Page) :
    (s.setPool i p).bufPool i = p := by
  simp [BufMgr.setPool]

theorem remove_lookup_self (h h1 : BufHashTbl) (file : File) (pageNo : PageId)
    (hr : h.remove file pageNo = some h1) : h1.lookup file pageNo = none := by
  unfold BufHashTbl.remove at hr
  split at hr
  · injection hr with hr
    subst hr
    simp [BufHashTbl.lookup]
  · cases hr

/-! ## The clock sweep -/

/-- Whatever the loop of `allocBuf` does, it changes no frame's `valid`,
`pinCnt`, `file`, `pageNo` or `frameNo`, nor the pool size. -/
theorem allocBufLoop_frame (fuel : Nat) :
    ∀ (s : BufMgr) (pin : Nat) (r : Except Error FrameId) (s' : BufMgr),
      allocBufLoop fuel s pin = some (r, s') →
      s'.numBufs = s.numBufs ∧ s'.bufPool = s.bufPool ∧
      ∀ i, (s'.bufDescTable i).valid = (s.bufDescTable i).valid ∧
        (s'.bufDescTable i).pinCnt = (s.bufDescTable i).pinCnt ∧
        (s'.bufDescTable i).file = (s.bufDescTable i).file ∧
        (s'.bufDescTable i).pageNo = (s.bufDescTable i).pageNo ∧
        (s'.bufDescTable i).frameNo = (s.bufDescTable i).frameNo := by
  induction fuel with
  | zero => intro s pin r s' h; simp [allocBufLoop] at h
  | succ n ih =>
    intro s pin r s' h
    simp only [allocBufLoop] at h
    split_ifs at h with hv hr hp hd hf
    · simp at h; obtain ⟨-, rfl⟩ := h; simp
    · obtain ⟨h1, h2, h3⟩ := ih _ _ _ _ h
      refine ⟨by simpa using h1, by simpa using h2, fun i => ?_⟩
      have := h3 i
      simp only [advanceClock_bufDescTable, setDesc_apply] at this
      split_ifs at this with hi
      · subst hi; simpa using this
      · exact this
    · simp only [Option.some.injEq, Prod.mk.injEq] at h
      obtain ⟨-, rfl⟩ := h
      refine ⟨?_, ?_, fun i => ?_⟩
      · split <;> [split; skip] <;> simp
      · split <;> [split; skip] <;> simp
      · split <;> [split; skip] <;>
          (simp only [setDesc_apply, call_bufDescTable]; split_ifs with hi <;> simp [hi])
    · simp only [Option.some.injEq, Prod.mk.injEq] at h
      obtain ⟨-, rfl⟩ := h
      refine ⟨?_, ?_, fun i => ?_⟩ <;> (split <;> [split; skip] <;> simp)
    · simp at h; obtain ⟨-, rfl⟩ := h; simp
    · obtain ⟨h1, h2, h3⟩ := ih _ _ _ _ h
      exact ⟨by simpa using h1, by simpa using h2, by simpa using h3⟩

/-- What a successful run of the loop of `allocBuf` returns: the frame under
the clock hand, which was either not valid or valid with no pin; in the second
case its reference and dirty flags are false afterwards and the index has no
entry for the page it names. -/
theorem allocBufLoop_ok (fuel : Nat) :
    ∀ (s : BufMgr) (pin : Nat) (f : FrameId) (s' : BufMgr),
      s.clockHand < s.numBufs →
      allocBufLoop fuel s pin = some (.ok f, s') →
      f < s.numBufs ∧ s'.clockHand = f ∧
      ((s.bufDescTable f).valid = false ∨
        ((s.bufDescTable f).valid = true ∧ (s.bufDescTable f).pinCnt = 0 ∧
          (s'.bufDescTable f).refbit = false ∧ (s'.bufDescTable f).dirty = false ∧
          ∀ file, (s.bufDescTable f).file = some file →
            s'.hashTable.lookup file (s.bufDescTable f).pageNo = none)) := by
  induction fuel with
  | zero => intro s pin f s' _ h; simp [allocBufLoop] at h
  | succ n ih =>
    intro s pin f s' hc h
    have hn : 0 < s.numBufs := Nat.lt_of_le_of_lt (Nat.zero_le _) hc
    simp only [allocBufLoop] at h
    split_ifs at h with hv hr hp hd hf
    · simp only [Option.some.injEq, Prod.mk.injEq, Except.ok.injEq] at h
      obtain ⟨rfl, rfl⟩ := h
      exact ⟨hc, rfl, Or.inl (by simpa using hv)⟩
    · obtain ⟨h1, h2, h3⟩ := ih _ _ _ _ (advanceClock_lt (s.setDesc _ _) hn) h
      refine ⟨by simpa using h1, h2, ?_⟩
      simp only [advanceClock_bufDescTable, setDesc_apply] at h3
      split_ifs at h3 with hi
      · subst hi; simpa using h3
      · exact h3
    · simp only [Option.some.injEq, Prod.mk.injEq, Except.ok.injEq] at h
      obtain ⟨rfl, rfl⟩ := h
      refine ⟨hc, ?_, Or.inr ⟨by simpa using hv, hp, ?_, ?_, ?_⟩⟩
      · split <;> [split; skip] <;> simp
      · split <;> [split; skip] <;> simp [hr]
      · split <;> [split; skip] <;> simp
      · intro file hfile
        simp only [hfile]
        split
        · next h1 hrem => exact remove_lookup_self _ _ _ _ hrem
        · next hrem =>
          simp only [BufHashTbl.remove] at hrem
          split at hrem
          · cases hrem
          · next hnone => simpa [BufHashTbl.lookup] using hnone
    · simp only [Option.some.injEq, Prod.mk.injEq, Except.ok.injEq] at h
      obtain ⟨rfl, rfl⟩ := h
      simp only [Bool.not_eq_true] at hd
      refine ⟨hc, ?_, Or.inr ⟨by simpa using hv, hp, ?_, ?_, ?_⟩⟩
      · split <;> [split; skip] <;> simp
      · split <;> [split; skip] <;> simp [hr]
      · split <;> [split; skip] <;> simp [hd]
      · intro file hfile
        simp only [hfile]
        split
        · next h1 hrem => exact remove_lookup_self _ _ _ _ hrem
        · next hrem =>
          simp only [BufHashTbl.remove] at hrem
          split at hrem
          · cases hrem
          · next hnone => simpa [BufHashTbl.lookup] using hnone
    · simp at h
    · obtain ⟨h1, h2, h3⟩ := ih _ _ _ _ (advanceClock_lt s hn) h
      exact ⟨by simpa using h1, h2, by simpa using h3⟩
theorem refbitCount_le (tbl : FrameId → BufDesc) (n : Nat) : refbitCount tbl n ≤ n := by
  induction n with
  | zero => simp [refbitCount]
  | succ n ih =>
    simp only [refbitCount]
    split_ifs <;> omega

theorem refbitCount_update_ge (tbl : FrameId → BufDesc) (d : BufDesc) (n h : Nat) (hh : n ≤ h) :
    refbitCount (Function.update tbl h d) n = refbitCount tbl n := by
  induction n with
  | zero => simp [refbitCount]
  | succ n ih =>
    have hne : n ≠ h := by omega
    simp only [refbitCount, Function.update_noteq hne]
    rw [ih (by omega)]

theorem refbitCount_clear (tbl : FrameId → BufDesc) (d : BufDesc) (n h : Nat) (hh : h < n)
    (hset : (tbl h).refbit = true) (hd : d.refbit = false) :
    refbitCount (Function.update tbl h d) n + 1 = refbitCount tbl n := by
  induction n with
  | zero => omega
  | succ n ih =>
    simp only [refbitCount]
    by_cases hn : h = n
    · subst hn
      rw [refbitCount_update_ge _ _ _ _ (le_refl _)]
      simp [hset, hd]
    · have hne : n ≠ h := fun e => hn e.symm
      rw [Function.update_noteq hne]
      have := ih (by omega)
      omega

/-- The loop of `allocBuf` leaves after at most
`(numBufs - pin_statistic) + refbitCount` iterations. -/
theorem allocBufLoop_terminates (fuel : Nat) :
    ∀ (s : BufMgr) (pin : Nat), s.clockHand < s.numBufs → s.numBufs < 2 ^ 32 →
      pin < s.numBufs →
      (s.numBufs - pin) + refbitCount s.bufDescTable s.numBufs ≤ fuel →
      ∃ r s', allocBufLoop fuel s pin = some (r, s') := by
  induction fuel with
  | zero => intro s pin _ _ hp hf; omega
  | succ n ih =>
    intro s pin hc h32 hp hf
    have hn : 0 < s.numBufs := by omega
    simp only [allocBufLoop]
    split_ifs with hv hr hz hd hq
    · exact ⟨_, _, rfl⟩
    · apply ih _ _ (advanceClock_lt (s.setDesc _ _) hn) h32 hp
      have := refbitCount_clear s.bufDescTable
        { s.bufDescTable s.clockHand with refbit := false } s.numBufs s.clockHand hc hr rfl
      simp only [advanceClock_numBufs, setDesc_numBufs, advanceClock_bufDescTable,
        BufMgr.setDesc]
      dsimp only at this ⊢
      omega
    · exact ⟨_, _, rfl⟩
    · exact ⟨_, _, rfl⟩
    · exact ⟨_, _, rfl⟩
    · have h1 : (pin + 1) % 2 ^ 32 = pin + 1 := Nat.mod_eq_of_lt (by omega)
      rw [h1] at hq ⊢
      apply ih _ _ (advanceClock_lt s hn) h32 (by simp only [advanceClock_numBufs]; omega)
      simp only [advanceClock_numBufs, advanceClock_bufDescTable]
      omega

/-- More fuel does not change what the loop of `allocBuf` returns. -/
theorem allocBufLoop_mono (fuel : Nat) :
    ∀ (s : BufMgr) (pin : Nat) (r : Except Error FrameId × BufMgr) (k : Nat),
      allocBufLoop fuel s pin = some r → allocBufLoop (fuel + k) s pin = some r := by
  induction fuel with
  | zero => intro s pin r k h; simp [allocBufLoop] at h
  | succ n ih =>
    intro s pin r k h
    rw [show n + 1 + k = (n + k) + 1 by omega]
    simp only [allocBufLoop] at h ⊢
    split_ifs at h ⊢ with hv hr hz hd hq
    · exact h
    · exact ih _ _ _ _ h
    · exact h
    · exact h
    · exact h
    · exact ih _ _ _ _ h

/-- The only exception the loop of `allocBuf` throws is BufferExceeded. -/
theorem allocBufLoop_error (fuel : Nat) :
    ∀ (s : BufMgr) (pin : Nat) (e : Error) (s' : BufMgr),
      allocBufLoop fuel s pin = some (.error e, s') → e = .BufferExceeded := by
  induction fuel with
  | zero => intro s pin e s' h; simp [allocBufLoop] at h
  | succ n ih =>
    intro s pin e s' h
    simp only [allocBufLoop] at h
    split_ifs at h with hv hr hz hd hq
    · simp at h
    · exact ih _ _ _ _ h
    · simp at h
    · simp at h
    · simp only [Option.some.injEq, Prod.mk.injEq, Except.error.injEq] at h
      exact h.1.symm
    · exact ih _ _ _ _ h

/-- With `0 < numBufs < 2 ^ 32`, fuel `2 * numBufs` is enough for `allocBuf`. -/
theorem allocBuf_terminates (fuel : Nat) (s : BufMgr) (hn : 0 < s.numBufs)
    (h32 : s.numBufs < 2 ^ 32) (hf : 2 * s.numBufs ≤ fuel) :
    ∃ r s', allocBuf fuel s = some (r, s') := by
  unfold allocBuf
  apply allocBufLoop_terminates fuel _ _ (advanceClock_lt s hn) h32 hn
  have := refbitCount_le s.bufDescTable s.numBufs
  simp only [advanceClock_numBufs, advanceClock_bufDescTable]
  omega

/-- C1: if `allocBuf` returns frame `f` in a state with `numBufs > 0`, then
`f < numBufs`, frame `f` was not a pinned valid frame on entry, and afterwards
frame `f` is either not valid, or valid with `pinCnt = 0`, `refbit = false`,
`dirty = false` and no index entry for the page it names. -/
theorem allocBuf_returns_unpinned_frame (fuel : Nat) (s s' : BufMgr) (f : FrameId)
    (hn : 0 < s.numBufs) (h : allocBuf fuel s = some (.ok f, s')) :
    f < s.numBufs ∧
    ¬ ((s.bufDescTable f).valid = true ∧ 0 < (s.bufDescTable f).pinCnt) ∧
    ((s'.bufDescTable f).valid = false ∨
      ((s'.bufDescTable f).valid = true ∧ (s'.bufDescTable f).pinCnt = 0 ∧
        (s'.bufDescTable f).refbit = false ∧ (s'.bufDescTable f).dirty = false ∧
        ∀ file, (s'.bufDescTable f).file = some file →
          s'.hashTable.lookup file (s'.bufDescTable f).pageNo = none)) := by
  unfold allocBuf at h
  obtain ⟨h1, -, h3⟩ := allocBufLoop_ok fuel _ _ _ _ (advanceClock_lt s hn) h
  obtain ⟨-, -, hfr⟩ := allocBufLoop_frame fuel _ _ _ _ h
  obtain ⟨fv, fp, ff, fn, -⟩ := hfr f
  simp only [advanceClock_numBufs, advanceClock_bufDescTable] at h1 h3 fv fp ff fn
  refine ⟨h1, ?_, ?_⟩
  · rcases h3 with h3 | ⟨-, h3, -⟩
    · simp [h3]
    · simp [h3]
  · rw [fv, fp, ff, fn]
    exact h3

/-- Witness for C1: in `evictState` the sweep returns frame 1. -/
theorem allocBuf_returns_unpinned_frame_witness :
    0 < evictState.numBufs ∧ allocBuf 4 evictState = some (.ok 1, evictPost) ∧
    (1 < evictState.numBufs ∧
    ¬ ((evictState.bufDescTable 1).valid = true ∧ 0 < (evictState.bufDescTable 1).pinCnt) ∧
    ((evictPost.bufDescTable 1).valid = false ∨
      ((evictPost.bufDescTable 1).valid = true ∧ (evictPost.bufDescTable 1).pinCnt = 0 ∧
        (evictPost.bufDescTable 1).refbit = false ∧ (evictPost.bufDescTable 1).dirty = false ∧
        ∀ file, (evictPost.bufDescTable 1).file = some file →
          evictPost.hashTable.lookup file (evictPost.bufDescTable 1).pageNo = none))) :=
  ⟨by decide, rfl, allocBuf_returns_unpinned_frame 4 evictState evictPost 1 (by decide) rfl⟩

/-- C2: evaluation of `allocBuf` in a state reached from a fresh pool of two
frames by `doubleCountOps`: frame 1 is valid with `pinCnt = 0`, and `allocBuf`
fails with BufferExceeded all the same, because the sweep counts the pinned
frame 0 twice. -/
theorem allocBuf_BufferExceeded_with_unpinned_frame :
    runOps 4 demoStore doubleCountOps (BufMgr.new 2) = some doubleCountState ∧
    doubleCountState.numBufs = 2 ∧
    (doubleCountState.bufDescTable 1).valid = true ∧
    (doubleCountState.bufDescTable 1).pinCnt = 0 ∧
    ∀ k, (allocBuf (3 + k) doubleCountState).map Prod.fst = some (.error .BufferExceeded) := by
  refine ⟨rfl, rfl, by decide, by decide, fun k => ?_⟩
  have h : allocBuf 3 doubleCountState =
      some (.error .BufferExceeded, ((allocBuf 3 doubleCountState).getD
        (.ok 0, doubleCountState)).2) := rfl
  unfold allocBuf at h ⊢
  rw [allocBufLoop_mono 3 _ _ _ k h]
  rfl

/-- C3: in a state with `0 < numBufs` (a 32-bit value) whose frames are all
valid with `pinCnt > 0`, `allocBuf` fails with BufferExceeded, and so do
`readPage` of a page that is not in the index and `allocPage`. -/
theorem all_pinned_BufferExceeded (fuel : Nat) (store : PageStore) (s : BufMgr)
    (hn : 0 < s.numBufs) (h32 : s.numBufs < 2 ^ 32)
    (hall : ∀ i, i < s.numBufs → (s.bufDescTable i).valid = true ∧ 0 < (s.bufDescTable i).pinCnt)
    (hf : 2 * s.numBufs ≤ fuel) :
    (∃ s', allocBuf fuel s = some (.error .BufferExceeded, s')) ∧
    (∀ file pageNo, s.hashTable.lookup file pageNo = none →
      ∃ s', readPage fuel store s file pageNo = some (.error .BufferExceeded, s')) ∧
    (∀ file, ∃ s', allocPage fuel store s file = some (.error .BufferExceeded, s')) := by
  have key : ∀ t : BufMgr, t.numBufs = s.numBufs → t.bufDescTable = s.bufDescTable →
      ∃ s', allocBuf fuel t = some (.error .BufferExceeded, s') := by
    intro t hnum htbl
    obtain ⟨r, s', h⟩ := allocBuf_terminates fuel t (hnum ▸ hn) (hnum ▸ h32) (hnum ▸ hf)
    cases r with
    | error e =>
      have he : e = .BufferExceeded := allocBufLoop_error fuel _ _ _ _ h
      exact ⟨s', by rw [h, he]⟩
    | ok f =>
      exfalso
      obtain ⟨h1, -, h3⟩ := allocBufLoop_ok fuel _ _ _ _ (advanceClock_lt t (hnum ▸ hn)) h
      simp only [advanceClock_numBufs, advanceClock_bufDescTable, hnum, htbl] at h1 h3
      obtain ⟨hv, hp⟩ := hall f h1
      rcases h3 with h3 | ⟨-, h3, -⟩
      · rw [hv] at h3; cases h3
      · omega
  refine ⟨key s rfl rfl, fun file pageNo hl => ?_, fun file => ?_⟩
  · obtain ⟨s', h⟩ := key s rfl rfl
    exact ⟨s', by simp only [readPage, hl, h]⟩
  · obtain ⟨s', h⟩ := key (s.call (.allocatePage file)) rfl rfl
    exact ⟨s', by simp only [allocPage, h]⟩

/-- Witness for C3: `pinnedState` has two frames, both valid and pinned. -/
theorem all_pinned_BufferExceeded_witness :
    (∃ s', allocBuf 4 pinnedState = some (.error .BufferExceeded, s')) ∧
    (∀ file pageNo, pinnedState.hashTable.lookup file pageNo = none →
      ∃ s', readPage 4 demoStore pinnedState file pageNo = some (.error .BufferExceeded, s')) ∧
    (∀ file, ∃ s', allocPage 4 demoStore pinnedState file = some (.error .BufferExceeded, s')) :=
  all_pinned_BufferExceeded 4 demoStore pinnedState (by decide) (by decide) (by decide)
    (by decide)

/-- C4: when the index maps `(file, pageNo)` to frame `f`, `readPage` returns
frame `f`, sets its `refbit` and adds one to its `pinCnt`; the other fields of
frame `f`, the other descriptors, the index, the clock hand, the pool and the
trace of Page Store calls are unchanged. A second fetch returns `f` again and
the pin count has grown by 2. -/
theorem readPage_hit (fuel : Nat) (store : PageStore) (s : BufMgr) (file : File)
    (pageNo : PageId) (f : FrameId) (h : s.hashTable.lookup file pageNo = some f) :
    ∃ s' s'', readPage fuel store s file pageNo = some (.ok f, s') ∧
      s'.bufDescTable f =
        { s.bufDescTable f with refbit := true, pinCnt := (s.bufDescTable f).pinCnt + 1 } ∧
      (∀ i, i ≠ f → s'.bufDescTable i = s.bufDescTable i) ∧
      s'.hashTable = s.hashTable ∧ s'.clockHand = s.clockHand ∧ s'.bufPool = s.bufPool ∧
      s'.trace = s.trace ∧ s'.numBufs = s.numBufs ∧
      readPage fuel store s' file pageNo = some (.ok f, s'') ∧
      (s''.bufDescTable f).pinCnt = (s.bufDescTable f).pinCnt + 2 ∧
      (s''.bufDescTable f).refbit = true ∧
      s''.hashTable = s.hashTable ∧ s''.bufPool = s.bufPool ∧ s''.trace = s.trace := by
  have step : ∀ t : BufMgr, t.hashTable.lookup file pageNo = some f →
      readPage fuel store t file pageNo = some (.ok f, t.setDesc f
        { t.bufDescTable f with refbit := true, pinCnt := (t.bufDescTable f).pinCnt + 1 }) := by
    intro t ht
    simp only [readPage, ht]
  refine ⟨_, _, step s h, by simp, fun i hi => setDesc_other _ _ _ _ hi,
    rfl, rfl, rfl, rfl, rfl, step _ h, ?_, ?_, rfl, rfl, rfl⟩
  · simp only [setDesc_same]; omega
  · simp

/-- Witness for C4: page 1 of file 7 is resident in frame 0 of `pinnedState`. -/
theorem readPage_hit_witness :
    pinnedState.hashTable.lookup 7 1 = some 0 ∧
    ∃ s' s'', readPage 0 demoStore pinnedState 7 1 = some (.ok 0, s') ∧
      s'.bufDescTable 0 =
        { pinnedState.bufDescTable 0 with
          refbit := true, pinCnt := (pinnedState.bufDescTable 0).pinCnt + 1 } ∧
      (∀ i, i ≠ 0 → s'.bufDescTable i = pinnedState.bufDescTable i) ∧
      s'.hashTable = pinnedState.hashTable ∧ s'.clockHand = pinnedState.clockHand ∧
      s'.bufPool = pinnedState.bufPool ∧
      s'.trace = pinnedState.trace ∧ s'.numBufs = pinnedState.numBufs ∧
      readPage 0 demoStore s' 7 1 = some (.ok 0, s'') ∧
      (s''.bufDescTable 0).pinCnt = (pinnedState.bufDescTable 0).pinCnt + 2 ∧
      (s''.bufDescTable 0).refbit = true ∧
      s''.hashTable = pinnedState.hashTable ∧ s''.bufPool = pinnedState.bufPool ∧
      s''.trace = pinnedState.trace :=
  ⟨rfl, readPage_hit 0 demoStore pinnedState 7 1 0 rfl⟩

/-- C5: when `(file, pageNo)` is not in the index and `readPage` returns frame
`f`, then `f` is the frame `allocBuf` returned, the Page Store answered the
read of `pageNo` with a page that now sits in pool slot `f`, the index maps
`(file, pageNo)` to `f`, and the descriptor of `f` has `file = file`,
`pageNo = pageNo`, `valid = true`, `pinCnt = 1`, `refbit = true`,
`dirty = false`. -/
theorem readPage_miss (fuel : Nat) (store : PageStore) (s s' : BufMgr) (file : File)
    (pageNo : PageId) (f : FrameId) (hl : s.hashTable.lookup file pageNo = none)
    (h : readPage fuel store s file pageNo = some (.ok f, s')) :
    ∃ s1 pg, allocBuf fuel s = some (.ok f, s1) ∧
      store.readPage s1.trace file pageNo = some pg ∧
      s'.trace = s1.trace ++ [.readPage file pageNo] ∧
      s'.bufPool f = pg ∧
      s'.hashTable.lookup file pageNo = some f ∧
      (s'.bufDescTable f).file = some file ∧ (s'.bufDescTable f).pageNo = pageNo ∧
      (s'.bufDescTable f).valid = true ∧ (s'.bufDescTable f).pinCnt = 1 ∧
      (s'.bufDescTable f).refbit = true ∧ (s'.bufDescTable f).dirty = false := by
  simp only [readPage, hl] at h
  split at h
  · cases h
  · simp at h
  · next frameNo s1 ha =>
    split at h
    · simp at h
    · next pg hpg =>
      simp only [Option.some.injEq, Prod.mk.injEq, Except.ok.injEq] at h
      obtain ⟨rfl, rfl⟩ := h
      exact ⟨s1, pg, ha, hpg, by simp, by simp, by simp [BufHashTbl.lookup, BufHashTbl.insert],
        by simp [BufDesc.Set], by simp [BufDesc.Set], by simp [BufDesc.Set],
        by simp [BufDesc.Set], by simp [BufDesc.Set], by simp [BufDesc.Set]⟩

/-- Witness for C5: page 5 of file 7 is not resident in `evictState`; the
fetch evicts frame 1. -/
theorem readPage_miss_witness :
    evictState.hashTable.lookup 7 5 = none ∧
    readPage 4 demoStore evictState 7 5 = some (.ok 1, fetchPost) ∧
    ∃ s1 pg, allocBuf 4 evictState = some (.ok 1, s1) ∧
      demoStore.readPage s1.trace 7 5 = some pg ∧
      fetchPost.trace = s1.trace ++ [.readPage 7 5] ∧
      fetchPost.bufPool 1 = pg ∧
      fetchPost.hashTable.lookup 7 5 = some 1 ∧
      (fetchPost.bufDescTable 1).file = some 7 ∧ (fetchPost.bufDescTable 1).pageNo = 5 ∧
      (fetchPost.bufDescTable 1).valid = true ∧ (fetchPost.bufDescTable 1).pinCnt = 1 ∧
      (fetchPost.bufDescTable 1).refbit = true ∧ (fetchPost.bufDescTable 1).dirty = false :=
  ⟨rfl, rfl, readPage_miss 4 demoStore evictState fetchPost 7 5 1 rfl rfl⟩

/-- C6: when the index maps `(file, pageNo)` to frame `f` and `pinCnt > 0`,
`unPinPage` returns normally, takes one off the `pinCnt` of `f` and sets its
dirty flag to the old flag or the hint; the other fields of `f`, the other
descriptors, the index, the clock hand, the pool and the trace of Page Store
calls are unchanged. -/
theorem unPinPage_pinned (s : BufMgr) (file : File) (pageNo : PageId) (dirty : Bool)
    (f : FrameId) (hl : s.hashTable.lookup file pageNo = some f)
    (hp : 0 < (s.bufDescTable f).pinCnt) :
    ∃ s', unPinPage s file pageNo dirty = (.ok (), s') ∧
      s'.bufDescTable f =
        { s.bufDescTable f with
          pinCnt := (s.bufDescTable f).pinCnt - 1,
          dirty := (s.bufDescTable f).dirty || dirty } ∧
      (dirty = false → (s'.bufDescTable f).dirty = (s.bufDescTable f).dirty) ∧
      (∀ i, i ≠ f → s'.bufDescTable i = s.bufDescTable i) ∧
      s'.hashTable = s.hashTable ∧ s'.clockHand = s.clockHand ∧ s'.bufPool = s.bufPool ∧
      s'.trace = s.trace ∧ s'.numBufs = s.numBufs := by
  cases dirty with
  | true =>
    have e : unPinPage s file pageNo true = (.ok (),
        (s.setDesc f { s.bufDescTable f with pinCnt := (s.bufDescTable f).pinCnt - 1 }).setDesc f
          { (s.setDesc f { s.bufDescTable f with
              pinCnt := (s.bufDescTable f).pinCnt - 1 }).bufDescTable f with dirty := true }) := by
      simp only [unPinPage, hl, hp, if_true]
    refine ⟨_, e, by simp, by simp, fun i hi => ?_, rfl, rfl, rfl, rfl, rfl⟩
    rw [setDesc_other _ _ _ _ hi, setDesc_other _ _ _ _ hi]
  | false =>
    have e : unPinPage s file pageNo false = (.ok (),
        s.setDesc f { s.bufDescTable f with pinCnt := (s.bufDescTable f).pinCnt - 1 }) := by
      simp only [unPinPage, hl, hp, if_true]
      rfl
    refine ⟨_, e, by simp, by simp, fun i hi => ?_, rfl, rfl, rfl, rfl, rfl⟩
    rw [setDesc_other _ _ _ _ hi]

/-- Witness for C6: page 3 of file 7 sits in frame 1 of `pinnedState` with two
pins. -/
theorem unPinPage_pinned_witness :
    pinnedState.hashTable.lookup 7 3 = some 1 ∧ 0 < (pinnedState.bufDescTable 1).pinCnt ∧
    ∃ s', unPinPage pinnedState 7 3 true = (.ok (), s') ∧
      s'.bufDescTable 1 =
        { pinnedState.bufDescTable 1 with
          pinCnt := (pinnedState.bufDescTable 1).pinCnt - 1,
          dirty := (pinnedState.bufDescTable 1).dirty || true } ∧
      (true = false → (s'.bufDescTable 1).dirty = (pinnedState.bufDescTable 1).dirty) ∧
      (∀ i, i ≠ 1 → s'.bufDescTable i = pinnedState.bufDescTable i) ∧
      s'.hashTable = pinnedState.hashTable ∧ s'.clockHand = pinnedState.clockHand ∧
      s'.bufPool = pinnedState.bufPool ∧
      s'.trace = pinnedState.trace ∧ s'.numBufs = pinnedState.numBufs :=
  ⟨rfl, by decide, unPinPage_pinned pinnedState 7 3 true 1 rfl (by decide)⟩

/-- C8: when `(file, pageNo)` is not in the index, `unPinPage` returns normally
for either value of the dirty hint and leaves the whole state as it was. -/
theorem unPinPage_unmapped (s : BufMgr) (file : File) (pageNo : PageId) (dirty : Bool)
    (hl : s.hashTable.lookup file pageNo = none) :
    unPinPage s file pageNo dirty = (.ok (), s) := by
  simp only [unPinPage, hl]

/-- Witness for C8: page 9 of file 7 is not resident in `pinnedState`. -/
theorem unPinPage_unmapped_witness :
    pinnedState.hashTable.lookup 7 9 = none ∧
    unPinPage pinnedState 7 9 true = (.ok (), pinnedState) :=
  ⟨rfl, unPinPage_unmapped pinnedState 7 9 true rfl⟩

/-! ## Pin counts -/

theorem unPinPage_eq_of_pinned (s : BufMgr) (file : File) (pageNo : PageId) (dirty : Bool)
    (f : FrameId) (hl : s.hashTable.lookup file pageNo = some f)
    (hp : 0 < (s.bufDescTable f).pinCnt) :
    unPinPage s file pageNo dirty = (.ok (), s.setDesc f
      { s.bufDescTable f with
        pinCnt := (s.bufDescTable f).pinCnt - 1,
        dirty := (s.bufDescTable f).dirty || dirty }) := by
  cases dirty with
  | true =>
    simp only [unPinPage, hl, hp, if_true, Bool.or_true, setDesc_same]
    simp [BufMgr.setDesc]
  | false =>
    simp only [unPinPage, hl, hp, if_true, Bool.or_false]
    rfl

theorem unPinPage_eq_of_unpinned (s : BufMgr) (file : File) (pageNo : PageId) (dirty : Bool)
    (f : FrameId) (hl : s.hashTable.lookup file pageNo = some f)
    (hp : ¬ 0 < (s.bufDescTable f).pinCnt) :
    unPinPage s file pageNo dirty =
      (.error (.PageNotPinned (s.bufDescTable f).file (s.bufDescTable f).pageNo f), s) := by
  simp only [unPinPage, hl, gt_iff_lt, hp, if_false]

theorem unPinAll_balance (file : File) (pageNo : PageId) (f : FrameId) (hints : List Bool) :
    ∀ s : BufMgr, s.hashTable.lookup file pageNo = some f →
      (s.bufDescTable f).pinCnt = hints.length →
      ∃ s', unPinAll s file pageNo hints = some s' ∧ (s'.bufDescTable f).pinCnt = 0 ∧
        s'.hashTable = s.hashTable := by
  induction hints with
  | nil => intro s _ hk; exact ⟨s, rfl, by simpa using hk, rfl⟩
  | cons d ds ih =>
    intro s hl hk
    have hp : 0 < (s.bufDescTable f).pinCnt := by rw [hk]; simp
    obtain ⟨s', h1, h2, h3⟩ := ih (s.setDesc f
      { s.bufDescTable f with
        pinCnt := (s.bufDescTable f).pinCnt - 1,
        dirty := (s.bufDescTable f).dirty || d }) hl (by
          simp only [setDesc_same, hk, List.length_cons]; push_cast; omega)
    exact ⟨s', by simp only [unPinAll, unPinPage_eq_of_pinned s file pageNo d f hl hp, h1], h2,
      h3⟩

theorem nonNegPins_new (bufs : Nat) : NonNegPins (BufMgr.new bufs) := by
  intro i
  simp only [BufMgr.new, BufDesc.init]
  split_ifs <;> simp

theorem nonNegPins_setDesc (s : BufMgr) (i : FrameId) (d : BufDesc) (h : NonNegPins s)
    (hd : 0 ≤ d.pinCnt) : NonNegPins (s.setDesc i d) := by
  intro j
  rw [setDesc_apply]
  split_ifs
  · exact hd
  · exact h j

theorem nonNegPins_of_table (s t : BufMgr) (h : NonNegPins s)
    (ht : ∀ i, (t.bufDescTable i).pinCnt = (s.bufDescTable i).pinCnt) : NonNegPins t := by
  intro i; rw [ht i]; exact h i

theorem nonNegPins_allocBuf (fuel : Nat) (s s' : BufMgr) (r : Except Error FrameId)
    (hs : NonNegPins s) (h : allocBuf fuel s = some (r, s')) : NonNegPins s' := by
  obtain ⟨-, -, hfr⟩ := allocBufLoop_frame fuel _ _ _ _ h
  exact nonNegPins_of_table s s' hs fun i => (hfr i).2.1

theorem nonNegPins_readPage (fuel : Nat) (store : PageStore) (s s' : BufMgr) (file : File)
    (pageNo : PageId) (r : Except Error FrameId) (hs : NonNegPins s)
    (h : readPage fuel store s file pageNo = some (r, s')) : NonNegPins s' := by
  simp only [readPage] at h
  split at h
  · next f hl =>
    simp only [Option.some.injEq, Prod.mk.injEq] at h
    obtain ⟨-, rfl⟩ := h
    exact nonNegPins_setDesc _ _ _ hs (by have := hs f; simp only; omega)
  · split at h
    · cases h
    · next e s1 ha =>
      simp only [Option.some.injEq, Prod.mk.injEq] at h
      obtain ⟨-, rfl⟩ := h
      exact nonNegPins_allocBuf fuel s _ _ hs ha
    · next frameNo s1 ha =>
      have h1 := nonNegPins_allocBuf fuel s _ _ hs ha
      split at h
      · simp only [Option.some.injEq, Prod.mk.injEq] at h
        obtain ⟨-, rfl⟩ := h
        exact nonNegPins_of_table s1 _ h1 fun i => rfl
      · simp only [Option.some.injEq, Prod.mk.injEq] at h
        obtain ⟨-, rfl⟩ := h
        apply nonNegPins_setDesc
        · exact nonNegPins_of_table s1 _ h1 fun i => rfl
        · simp [BufDesc.Set]

theorem nonNegPins_allocPage (fuel : Nat) (store : PageStore) (s s' : BufMgr) (file : File)
    (r : Except Error (PageId × FrameId)) (hs : NonNegPins s)
    (h : allocPage fuel store s file = some (r, s')) : NonNegPins s' := by
  simp only [allocPage] at h
  split at h
  · cases h
  · next e s1 ha =>
    simp only [Option.some.injEq, Prod.mk.injEq] at h
    obtain ⟨-, rfl⟩ := h
    exact nonNegPins_allocBuf fuel (s.call (.allocatePage file)) _ _
      (nonNegPins_of_table s _ hs fun i => rfl) ha
  · next frameNo s1 ha =>
    have h1 := nonNegPins_allocBuf fuel (s.call (.allocatePage file)) _ _
      (nonNegPins_of_table s _ hs fun i => rfl) ha
    simp only [Option.some.injEq, Prod.mk.injEq] at h
    obtain ⟨-, rfl⟩ := h
    apply nonNegPins_setDesc
    · exact nonNegPins_of_table s1 _ h1 fun i => rfl
    · simp [BufDesc.Set]

theorem nonNegPins_unPinPage (s : BufMgr) (file : File) (pageNo : PageId) (dirty : Bool)
    (hs : NonNegPins s) : NonNegPins (unPinPage s file pageNo dirty).2 := by
  cases hl : s.hashTable.lookup file pageNo with
  | none => simpa only [unPinPage, hl] using hs
  | some f =>
    by_cases hp : 0 < (s.bufDescTable f).pinCnt
    · rw [unPinPage_eq_of_pinned s file pageNo dirty f hl hp]
      exact nonNegPins_setDesc _ _ _ hs (by simp only; omega)
    · rw [unPinPage_eq_of_unpinned s file pageNo dirty f hl hp]
      exact hs

theorem nonNegPins_disposePage (s : BufMgr) (file : File) (pageNo : PageId)
    (hs : NonNegPins s) : NonNegPins (disposePage s file pageNo).2 := by
  simp only [disposePage]
  apply nonNegPins_of_table _ _ _ (fun i => rfl)
  split
  · split
    · apply nonNegPins_setDesc
      · exact nonNegPins_of_table s _ hs fun i => rfl
      · simp [BufDesc.Clear]
    · exact hs
  · exact hs

theorem nonNegPins_flushFileLoop (file : File) (l : List FrameId) :
    ∀ s : BufMgr, NonNegPins s → NonNegPins (flushFileLoop file l s).2 := by
  induction l with
  | nil => intro s hs; exact hs
  | cons i rest ih =>
    intro s hs
    simp only [flushFileLoop]
    split_ifs with ho hp hv hd
    · exact hs
    · exact hs
    · have h1 : NonNegPins ((s.call (.writePage (s.bufDescTable i).file (s.bufPool i))).setDesc i
          { s.bufDescTable i with dirty := false }) :=
        nonNegPins_setDesc _ _ _ (nonNegPins_of_table s _ hs fun i => rfl) (hs i)
      split
      · exact h1
      · apply ih
        apply nonNegPins_setDesc
        · exact nonNegPins_of_table _ _ h1 fun i => rfl
        · simp [BufDesc.Clear]
    · split
      · exact hs
      · apply ih
        apply nonNegPins_setDesc
        · exact nonNegPins_of_table _ _ hs fun i => rfl
        · simp [BufDesc.Clear]
    · exact ih s hs

theorem nonNegPins_run (fuel : Nat) (store : PageStore) (s s' : BufMgr) (op : Op)
    (hs : NonNegPins s) (h : op.run fuel store s = some s') : NonNegPins s' := by
  cases op with
  | readPage file pageNo =>
    simp only [Op.run, Option.map_eq_some', Prod.exists, exists_eq_right] at h
    obtain ⟨r, h⟩ := h
    exact nonNegPins_readPage fuel store s s' file pageNo r hs h
  | unPinPage file pageNo dirty =>
    simp only [Op.run, Option.some.injEq] at h
    subst h
    exact nonNegPins_unPinPage s file pageNo dirty hs
  | allocPage file =>
    simp only [Op.run, Option.map_eq_some', Prod.exists, exists_eq_right] at h
    obtain ⟨r, h⟩ := h
    exact nonNegPins_allocPage fuel store s s' file r hs h
  | disposePage file pageNo =>
    simp only [Op.run, Option.some.injEq] at h
    subst h
    exact nonNegPins_disposePage s file pageNo hs
  | flushFile file =>
    simp only [Op.run, Option.some.injEq] at h
    subst h
    exact nonNegPins_flushFileLoop file _ s hs

theorem nonNegPins_runOps (fuel : Nat) (store : PageStore) (ops : List Op) :
    ∀ s s' : BufMgr, NonNegPins s → runOps fuel store ops s = some s' → NonNegPins s' := by
  induction ops with
  | nil => intro s s' hs h; simp only [runOps, Option.some.injEq] at h; subst h; exact hs
  | cons op ops ih =>
    intro s s' hs h
    simp only [runOps, Option.bind_eq_some] at h
    obtain ⟨s1, h1, h2⟩ := h
    exact ih s1 s' (nonNegPins_run fuel store s s1 op hs h1) h2

/-! ## The pool size never changes, and every call returns -/

theorem allocBuf_numBufs (fuel : Nat) (s s' : BufMgr) (r : Except Error FrameId)
    (h : allocBuf fuel s = some (r, s')) : s'.numBufs = s.numBufs :=
  (allocBufLoop_frame fuel _ _ _ _ h).1

theorem readPage_numBufs (fuel : Nat) (store : PageStore) (s s' : BufMgr) (file : File)
    (pageNo : PageId) (r : Except Error FrameId)
    (h : readPage fuel store s file pageNo = some (r, s')) : s'.numBufs = s.numBufs := by
  simp only [readPage] at h
  split at h
  · simp only [Option.some.injEq, Prod.mk.injEq] at h
    obtain ⟨-, rfl⟩ := h
    rfl
  · split at h
    · cases h
    · next e s1 ha =>
      simp only [Option.some.injEq, Prod.mk.injEq] at h
      obtain ⟨-, rfl⟩ := h
      exact allocBuf_numBufs fuel s _ _ ha
    · next frameNo s1 ha =>
      have h1 := allocBuf_numBufs fuel s _ _ ha
      split at h <;>
        (simp only [Option.some.injEq, Prod.mk.injEq] at h
         obtain ⟨-, rfl⟩ := h
         exact h1)

theorem allocPage_numBufs (fuel : Nat) (store : PageStore) (s s' : BufMgr) (file : File)
    (r : Except Error (PageId × FrameId))
    (h : allocPage fuel store s file = some (r, s')) : s'.numBufs = s.numBufs := by
  simp only [allocPage] at h
  split at h
  · cases h
  · next e s1 ha =>
    simp only [Option.some.injEq, Prod.mk.injEq] at h
    obtain ⟨-, rfl⟩ := h
    exact allocBuf_numBufs fuel (s.call (.allocatePage file)) _ _ ha
  · next frameNo s1 ha =>
    have h1 := allocBuf_numBufs fuel (s.call (.allocatePage file)) _ _ ha
    simp only [Option.some.injEq, Prod.mk.injEq] at h
    obtain ⟨-, rfl⟩ := h
    exact h1

theorem unPinPage_numBufs (s : BufMgr) (file : File) (pageNo : PageId) (dirty : Bool) :
    (unPinPage s file pageNo dirty).2.numBufs = s.numBufs := by
  simp only [unPinPage]
  split
  · rfl
  · split_ifs <;> rfl

theorem disposePage_numBufs (s : BufMgr) (file : File) (pageNo : PageId) :
    (disposePage s file pageNo).2.numBufs = s.numBufs := by
  simp only [disposePage, call_numBufs]
  split
  · split <;> rfl
  · rfl

theorem flushFileLoop_numBufs (file : File) (l : List FrameId) :
    ∀ s : BufMgr, (flushFileLoop file l s).2.numBufs = s.numBufs := by
  induction l with
  | nil => intro s; rfl
  | cons i rest ih =>
    intro s
    simp only [flushFileLoop]
    split_ifs with ho hp hv hd
    · rfl
    · rfl
    · split
      · rfl
      · rw [ih]; rfl
    · split
      · rfl
      · rw [ih]; rfl
    · exact ih s

theorem run_numBufs (fuel : Nat) (store : PageStore) (s s' : BufMgr) (op : Op)
    (h : op.run fuel store s = some s') : s'.numBufs = s.numBufs := by
  cases op with
  | readPage file pageNo =>
    simp only [Op.run, Option.map_eq_some', Prod.exists, exists_eq_right] at h
    obtain ⟨r, h⟩ := h
    exact readPage_numBufs fuel store s s' file pageNo r h
  | unPinPage file pageNo dirty =>
    simp only [Op.run, Option.some.injEq] at h
    subst h
    exact unPinPage_numBufs s file pageNo dirty
  | allocPage file =>
    simp only [Op.run, Option.map_eq_some', Prod.exists, exists_eq_right] at h
    obtain ⟨r, h⟩ := h
    exact allocPage_numBufs fuel store s s' file r h
  | disposePage file pageNo =>
    simp only [Op.run, Option.some.injEq] at h
    subst h
    exact disposePage_numBufs s file pageNo
  | flushFile file =>
    simp only [Op.run, Option.some.injEq] at h
    subst h
    exact flushFileLoop_numBufs file _ s

/-- With `0 < numBufs < 2 ^ 32` and fuel `2 * numBufs`, every call returns or
throws: the fuel does not run out. -/
theorem run_total (fuel : Nat) (store : PageStore) (s : BufMgr) (op : Op)
    (hn : 0 < s.numBufs) (h32 : s.numBufs < 2 ^ 32) (hf : 2 * s.numBufs ≤ fuel) :
    ∃ s', op.run fuel store s = some s' := by
  cases op with
  | readPage file pageNo =>
    simp only [Op.run, readPage]
    split
    · exact ⟨_, rfl⟩
    · obtain ⟨r, s1, h⟩ := allocBuf_terminates fuel s hn h32 hf
      rw [h]
      cases r with
      | error e => exact ⟨_, rfl⟩
      | ok f =>
        simp only
        split <;> exact ⟨_, rfl⟩
  | unPinPage file pageNo dirty => exact ⟨_, rfl⟩
  | allocPage file =>
    simp only [Op.run, allocPage]
    obtain ⟨r, s1, h⟩ := allocBuf_terminates fuel (s.call (.allocatePage file)) hn h32 hf
    rw [h]
    cases r with
    | error e => exact ⟨_, rfl⟩
    | ok f => exact ⟨_, rfl⟩
  | disposePage file pageNo => exact ⟨_, rfl⟩
  | flushFile file => exact ⟨_, rfl⟩

theorem runOps_total (fuel : Nat) (store : PageStore) (ops : List Op) :
    ∀ s : BufMgr, 0 < s.numBufs → s.numBufs < 2 ^ 32 → 2 * s.numBufs ≤ fuel →
      ∃ s', runOps fuel store ops s = some s' := by
  induction ops with
  | nil => intro s _ _ _; exact ⟨s, rfl⟩
  | cons op ops ih =>
    intro s hn h32 hf
    obtain ⟨s1, h1⟩ := run_total fuel store s op hn h32 hf
    have hnum := run_numBufs fuel store s s1 op h1
    obtain ⟨s2, h2⟩ := ih s1 (hnum ▸ hn) (hnum ▸ h32) (hnum ▸ hf)
    exact ⟨s2, by simp only [runOps, h1, Option.some_bind, h2]⟩

/-- C7: when the index maps `(file, pageNo)` to a frame whose pin count is the
length `k` of a list of dirty hints, the `k` releases with these hints all
return normally and every further release fails with PageNotPinned and leaves
the whole state as it was; in particular, with `pinCnt = 0` the first release
already fails so. Moreover no sequence of calls on a fresh manager makes a pin
count negative, and with `0 < bufs < 2 ^ 32` every such sequence runs to its
end. -/
theorem pin_unpin_balance (s : BufMgr) (file : File) (pageNo : PageId) (f : FrameId)
    (hints : List Bool) (hl : s.hashTable.lookup file pageNo = some f)
    (hk : (s.bufDescTable f).pinCnt = hints.length) :
    ((s.bufDescTable f).pinCnt = 0 → ∀ dirty, unPinPage s file pageNo dirty =
      (.error (.PageNotPinned (s.bufDescTable f).file (s.bufDescTable f).pageNo f), s)) ∧
    (∃ s', unPinAll s file pageNo hints = some s' ∧ (s'.bufDescTable f).pinCnt = 0 ∧
      ∀ dirty, unPinPage s' file pageNo dirty =
        (.error (.PageNotPinned (s'.bufDescTable f).file (s'.bufDescTable f).pageNo f), s')) ∧
    (∀ fuel store bufs ops t, runOps fuel store ops (BufMgr.new bufs) = some t →
      ∀ i, 0 ≤ (t.bufDescTable i).pinCnt) ∧
    (∀ fuel store bufs ops, 0 < bufs → bufs < 2 ^ 32 → 2 * bufs ≤ fuel →
      ∃ t, runOps fuel store ops (BufMgr.new bufs) = some t) := by
  refine ⟨fun h0 dirty => ?_, ?_, ?_, ?_⟩
  · exact unPinPage_eq_of_unpinned s file pageNo dirty f hl (by omega)
  · obtain ⟨s', h1, h2, h3⟩ := unPinAll_balance file pageNo f hints s hl hk
    exact ⟨s', h1, h2, fun dirty =>
      unPinPage_eq_of_unpinned s' file pageNo dirty f (h3 ▸ hl) (by omega)⟩
  · intro fuel store bufs ops t h
    exact nonNegPins_runOps fuel store ops _ t (nonNegPins_new bufs) h
  · intro fuel store bufs ops hn h32 hf
    exact runOps_total fuel store ops (BufMgr.new bufs) hn h32 hf

/-- Witness for C7: page 3 of file 7 sits in frame 1 of `pinnedState` with two
pins; two releases succeed and the third fails. -/
theorem pin_unpin_balance_witness :
    pinnedState.hashTable.lookup 7 3 = some 1 ∧
    (pinnedState.bufDescTable 1).pinCnt = [true, false].length ∧
    (∃ s', unPinAll pinnedState 7 3 [true, false] = some s' ∧
      (s'.bufDescTable 1).pinCnt = 0 ∧
      ∀ dirty, unPinPage s' 7 3 dirty =
        (.error (.PageNotPinned (s'.bufDescTable 1).file (s'.bufDescTable 1).pageNo 1), s')) :=
  ⟨rfl, by decide, (pin_unpin_balance pinnedState 7 3 1 [true, false] rfl (by decide)).2.1⟩

/-! ## Flushing a file -/

theorem flushFileLoop_cons_skip (file : File) (i : FrameId) (rest : List FrameId) (s : BufMgr)
    (ho : (s.bufDescTable i).file ≠ some file) :
    flushFileLoop file (i :: rest) s = flushFileLoop file rest s := by
  simp only [flushFileLoop, ho, if_false]

theorem flushFileLoop_cons_owned (file : File) (i j : FrameId) (rest : List FrameId)
    (s : BufMgr) (ho : (s.bufDescTable i).file = some file)
    (hp : ¬ 0 < (s.bufDescTable i).pinCnt) (hv : (s.bufDescTable i).valid = true)
    (hl : s.hashTable.lookup file (s.bufDescTable i).pageNo = some j) :
    flushFileLoop file (i :: rest) s = flushFileLoop file rest (flushOne file i s) := by
  simp only [BufHashTbl.lookup] at hl
  cases hd : (s.bufDescTable i).dirty <;>
    simp [flushFileLoop, ho, hp, hv, hd, hl, BufHashTbl.remove, flushOne, BufMgr.setDesc,
      BufMgr.call, BufDesc.Clear]

theorem flushOne_desc_same (file : File) (i : FrameId) (s : BufMgr) :
    (flushOne file i s).bufDescTable i = (s.bufDescTable i).Clear := by
  simp [flushOne]

theorem flushOne_desc_other (file : File) (i k : FrameId) (s : BufMgr) (h : k ≠ i) :
    (flushOne file i s).bufDescTable k = s.bufDescTable k := by
  simp [flushOne, Function.update, h]

theorem flushOne_lookup (file : File) (i : FrameId) (s : BufMgr) (g : File) (p : PageId) :
    (flushOne file i s).hashTable.lookup g p =
      if g = file ∧ p = (s.bufDescTable i).pageNo then none else s.hashTable.lookup g p := rfl

theorem flushWrites_cons_owned (file : File) (s : BufMgr) (i : FrameId) (rest : List FrameId)
    (ho : (s.bufDescTable i).file = some file) :
    flushWrites file s (i :: rest) =
      (if (s.bufDescTable i).dirty then [StoreCall.writePage (some file) (s.bufPool i)]
       else []) ++ flushWrites file s rest := by
  cases hd : (s.bufDescTable i).dirty <;> simp [flushWrites, List.filter_cons, ho, hd]

theorem flushWrites_cons_skip (file : File) (s : BufMgr) (i : FrameId) (rest : List FrameId)
    (ho : (s.bufDescTable i).file ≠ some file) :
    flushWrites file s (i :: rest) = flushWrites file s rest := by
  simp [flushWrites, List.filter_cons, ho]

theorem flushWrites_congr (file : File) (s t : BufMgr) (l : List FrameId)
    (hd : ∀ i ∈ l, t.bufDescTable i = s.bufDescTable i) (hp : t.bufPool = s.bufPool) :
    flushWrites file t l = flushWrites file s l := by
  unfold flushWrites
  rw [hp]
  congr 1
  apply List.filter_congr
  intro i hi
  rw [hd i hi]

theorem flushWrites_append (file : File) (s : BufMgr) (l1 l2 : List FrameId) :
    flushWrites file s (l1 ++ l2) = flushWrites file s l1 ++ flushWrites file s l2 := by
  simp [flushWrites, List.filter_append]

/-- The loop of `flushFile` over frames that are pairwise distinct and, as far
as `file` owns them, not pinned, valid and indexed: it runs to its end, clears
exactly the frames of `file`, removes exactly their index entries and writes
back exactly the dirty ones. -/
theorem flushFileLoop_ok (file : File) (l : List FrameId) :
    ∀ s : BufMgr, l.Nodup →
      (∀ i ∈ l, (s.bufDescTable i).file = some file →
        ¬ 0 < (s.bufDescTable i).pinCnt ∧ (s.bufDescTable i).valid = true ∧
        s.hashTable.lookup file (s.bufDescTable i).pageNo = some i) →
      ∃ s', flushFileLoop file l s = (.ok (), s') ∧
        (∀ i ∈ l, (s.bufDescTable i).file = some file →
          s'.bufDescTable i = (s.bufDescTable i).Clear) ∧
        (∀ i, ¬ (i ∈ l ∧ (s.bufDescTable i).file = some file) →
          s'.bufDescTable i = s.bufDescTable i) ∧
        (∀ g p, s.hashTable.lookup g p = none → s'.hashTable.lookup g p = none) ∧
        (∀ i ∈ l, (s.bufDescTable i).file = some file →
          s'.hashTable.lookup file (s.bufDescTable i).pageNo = none) ∧
        (∀ g p, (∀ i ∈ l, (s.bufDescTable i).file = some file →
            ¬ (g = file ∧ p = (s.bufDescTable i).pageNo)) →
          s'.hashTable.lookup g p = s.hashTable.lookup g p) ∧
        s'.trace = s.trace ++ flushWrites file s l ∧
        s'.bufPool = s.bufPool ∧ s'.clockHand = s.clockHand ∧ s'.numBufs = s.numBufs := by
  induction l with
  | nil =>
    intro s _ _
    exact ⟨s, rfl, by simp, by simp, fun _ _ h => h, by simp, by simp, by simp [flushWrites],
      rfl, rfl, rfl⟩
  | cons i rest ih =>
    intro s hnd hall
    obtain ⟨hnot, hnd'⟩ := List.nodup_cons.mp hnd
    by_cases ho : (s.bufDescTable i).file = some file
    · obtain ⟨hp, hv, hl⟩ := hall i (List.mem_cons_self _ _) ho
      have hne : ∀ k ∈ rest, k ≠ i := fun k hk e => hnot (e ▸ hk)
      have hall1 : ∀ k ∈ rest, ((flushOne file i s).bufDescTable k).file = some file →
          ¬ 0 < ((flushOne file i s).bufDescTable k).pinCnt ∧
          ((flushOne file i s).bufDescTable k).valid = true ∧
          (flushOne file i s).hashTable.lookup file ((flushOne file i s).bufDescTable k).pageNo =
            some k := by
        intro k hk
        rw [flushOne_desc_other file i k s (hne k hk)]
        intro hok
        obtain ⟨hp', hv', hl'⟩ := hall k (List.mem_cons_of_mem _ hk) hok
        refine ⟨hp', hv', ?_⟩
        rw [flushOne_lookup, if_neg, hl']
        rintro ⟨-, hpe⟩
        rw [hpe, hl] at hl'
        exact hne k hk (Option.some.inj hl').symm
      obtain ⟨s', h0, h1, h2, h3, h4, h5, h6, h7, h8, h9⟩ := ih (flushOne file i s) hnd' hall1
      refine ⟨s', ?_, ?_, ?_, ?_, ?_, ?_, ?_, h7, h8, h9⟩
      · rw [flushFileLoop_cons_owned file i i rest s ho hp hv hl, h0]
      · intro k hk hok
        rcases List.mem_cons.mp hk with rfl | hk
        · rw [h2 k (fun h => hnot h.1), flushOne_desc_same]
        · rw [h1 k hk (by rw [flushOne_desc_other file i k s (hne k hk)]; exact hok),
            flushOne_desc_other file i k s (hne k hk)]
      · intro k hk
        have hki : k ≠ i := fun e => hk ⟨e ▸ List.mem_cons_self _ _, e ▸ ho⟩
        rw [h2 k (fun h => hk ⟨List.mem_cons_of_mem _ h.1, by
          rw [← flushOne_desc_other file i k s hki]; exact h.2⟩),
          flushOne_desc_other file i k s hki]
      · intro g p hgp
        apply h3
        rw [flushOne_lookup, hgp]
        simp
      · intro k hk hok
        rcases List.mem_cons.mp hk with rfl | hk
        · apply h3
          rw [flushOne_lookup]
          simp
        · have := h4 k hk (by rw [flushOne_desc_other file i k s (hne k hk)]; exact hok)
          rwa [flushOne_desc_other file i k s (hne k hk)] at this
      · intro g p hgp
        rw [h5 g p, flushOne_lookup, if_neg (hgp i (List.mem_cons_self _ _) ho)]
        intro k hk hok
        rw [flushOne_desc_other file i k s (hne k hk)] at hok ⊢
        exact hgp k (List.mem_cons_of_mem _ hk) hok
      · rw [h6, flushWrites_cons_owned file s i rest ho,
          flushWrites_congr file s (flushOne file i s) rest
            (fun k hk => flushOne_desc_other file i k s (hne k hk)) rfl]
        simp [flushOne]
    · have hall1 : ∀ k ∈ rest, (s.bufDescTable k).file = some file →
          ¬ 0 < (s.bufDescTable k).pinCnt ∧ (s.bufDescTable k).valid = true ∧
          s.hashTable.lookup file (s.bufDescTable k).pageNo = some k :=
        fun k hk => hall k (List.mem_cons_of_mem _ hk)
      obtain ⟨s', h0, h1, h2, h3, h4, h5, h6, h7, h8, h9⟩ := ih s hnd' hall1
      refine ⟨s', ?_, ?_, ?_, h3, ?_, ?_, ?_, h7, h8, h9⟩
      · rw [flushFileLoop_cons_skip file i rest s ho, h0]
      · intro k hk hok
        rcases List.mem_cons.mp hk with rfl | hk
        · exact absurd hok ho
        · exact h1 k hk hok
      · intro k hk
        exact h2 k fun h => hk ⟨List.mem_cons_of_mem _ h.1, h.2⟩
      · intro k hk hok
        rcases List.mem_cons.mp hk with rfl | hk
        · exact absurd hok ho
        · exact h4 k hk hok
      · intro g p hgp
        exact h5 g p fun k hk hok => hgp k (List.mem_cons_of_mem _ hk) hok
      · rw [h6, flushWrites_cons_skip file s i rest ho]

/-- The loop of `flushFile` over a list `l1 ++ l2` runs over `l1` and, unless
that throws, goes on over `l2`. -/
theorem flushFileLoop_append (file : File) (l1 l2 : List FrameId) :
    ∀ s : BufMgr, flushFileLoop file (l1 ++ l2) s =
      match flushFileLoop file l1 s with
      | (.ok _, s') => flushFileLoop file l2 s'
      | (.error e, s') => (.error e, s') := by
  induction l1 with
  | nil => intro s; rfl
  | cons i rest ih =>
    intro s
    simp only [List.cons_append, flushFileLoop]
    split_ifs with ho hp hv hd
    · rfl
    · rfl
    · split
      · rfl
      · exact ih _
    · split
      · rfl
      · exact ih _
    · exact ih s

theorem consistent_flushState : Consistent flushState := by
  constructor
  · intro file pageNo f
    constructor
    · intro h
      simp only [flushState, BufHashTbl.lookup, BufHashTbl.insert, BufHashTbl.empty] at h
      split_ifs at h with h1 h2
      · obtain ⟨rfl, rfl⟩ := h1
        cases h
        simp [flushState, demoDesc]
      · obtain ⟨rfl, rfl⟩ := h2
        cases h
        simp [flushState, demoDesc]
    · rintro ⟨hf, -, hfile, hpage⟩
      have hf2 : Nat.lt f 2 := hf
      have : f = 0 ∨ f = 1 := by
        rcases f with _ | _ | f
        · exact Or.inl rfl
        · exact Or.inr rfl
        · exact absurd hf2 (by simp [Nat.lt])
      rcases this with rfl | rfl
      · simp [flushState, demoDesc] at hfile hpage
        subst hfile hpage
        simp [flushState, BufHashTbl.lookup, BufHashTbl.insert, BufHashTbl.empty]
      · simp [flushState, demoDesc] at hfile hpage
        subst hfile hpage
        simp [flushState, BufHashTbl.lookup, BufHashTbl.insert, BufHashTbl.empty]
  · intro i hi hv
    have hi2 : Nat.lt i 2 := hi
    have : i = 0 ∨ i = 1 := by
      rcases i with _ | _ | i
      · exact Or.inl rfl
      · exact Or.inr rfl
      · exact absurd hi2 (by simp [Nat.lt])
    rcases this with rfl | rfl <;> simp [flushState, demoDesc] at hv

/-- C9: when index and frame table are consistent and no frame owned by `file`
is pinned, `flushFile` returns normally; afterwards no frame of the pool is
owned by `file`, each frame that was owned by it is cleared, the index has no
entry for `file`, the Page Store has received one write-back for each frame of
`file` that was dirty and nothing else, and the frames and index entries of the
other files are as they were. -/
theorem flushFile_unpinned (s : BufMgr) (file : File) (hc : Consistent s)
    (hp : ∀ i, i < s.numBufs → (s.bufDescTable i).file = some file →
      ¬ 0 < (s.bufDescTable i).pinCnt) :
    ∃ s', flushFile s file = (.ok (), s') ∧
      (∀ i, i < s.numBufs → (s'.bufDescTable i).file ≠ some file) ∧
      (∀ i, i < s.numBufs → (s.bufDescTable i).file = some file →
        (s'.bufDescTable i).valid = false ∧ (s'.bufDescTable i).pinCnt = 0 ∧
        (s'.bufDescTable i).dirty = false ∧ (s'.bufDescTable i).refbit = false ∧
        (s'.bufDescTable i).file = none) ∧
      (∀ p, s'.hashTable.lookup file p = none) ∧
      s'.trace = s.trace ++ flushWrites file s (List.range s.numBufs) ∧
      (∀ i, (s.bufDescTable i).file ≠ some file → s'.bufDescTable i = s.bufDescTable i) ∧
      (∀ g p, g ≠ file → s'.hashTable.lookup g p = s.hashTable.lookup g p) ∧
      s'.bufPool = s.bufPool ∧ s'.clockHand = s.clockHand ∧ s'.numBufs = s.numBufs := by
  obtain ⟨hidx, hfree⟩ := hc
  have hall : ∀ i ∈ List.range s.numBufs, (s.bufDescTable i).file = some file →
      ¬ 0 < (s.bufDescTable i).pinCnt ∧ (s.bufDescTable i).valid = true ∧
      s.hashTable.lookup file (s.bufDescTable i).pageNo = some i := by
    intro i hi ho
    have hi' : i < s.numBufs := List.mem_range.mp hi
    have hv : (s.bufDescTable i).valid = true := by
      cases hval : (s.bufDescTable i).valid with
      | true => rfl
      | false => rw [hfree i hi' hval] at ho; cases ho
    exact ⟨hp i hi' ho, hv, (hidx file _ i).mpr ⟨hi', hv, ho, rfl⟩⟩
  obtain ⟨s', h0, h1, h2, h3, h4, h5, h6, h7, h8, h9⟩ :=
    flushFileLoop_ok file (List.range s.numBufs) s (List.nodup_range _) hall
  refine ⟨s', h0, ?_, ?_, ?_, h6, ?_, ?_, h7, h8, h9⟩
  · intro i hi
    by_cases ho : (s.bufDescTable i).file = some file
    · rw [h1 i (List.mem_range.mpr hi) ho]
      simp [BufDesc.Clear]
    · rw [h2 i (fun h => ho h.2)]
      exact ho
  · intro i hi ho
    rw [h1 i (List.mem_range.mpr hi) ho]
    simp [BufDesc.Clear]
  · intro p
    cases hl : s.hashTable.lookup file p with
    | none => exact h3 file p hl
    | some f =>
      obtain ⟨hf, -, hof, hpf⟩ := (hidx file p f).mp hl
      have := h4 f (List.mem_range.mpr hf) hof
      rwa [hpf] at this
  · intro i ho
    exact h2 i fun h => ho h.2
  · intro g p hg
    exact h5 g p fun i _ _ h => hg h.1

/-- Witness for C9: `flushState` is consistent and its only frame of file 7 is
not pinned. -/
theorem flushFile_unpinned_witness :
    Consistent flushState ∧
    (∀ i, i < flushState.numBufs → (flushState.bufDescTable i).file = some 7 →
      ¬ 0 < (flushState.bufDescTable i).pinCnt) ∧
    ∃ s', flushFile flushState 7 = (.ok (), s') ∧
      (∀ i, i < flushState.numBufs → (s'.bufDescTable i).file ≠ some 7) ∧
      (∀ i, i < flushState.numBufs → (flushState.bufDescTable i).file = some 7 →
        (s'.bufDescTable i).valid = false ∧ (s'.bufDescTable i).pinCnt = 0 ∧
        (s'.bufDescTable i).dirty = false ∧ (s'.bufDescTable i).refbit = false ∧
        (s'.bufDescTable i).file = none) ∧
      (∀ p, s'.hashTable.lookup 7 p = none) ∧
      s'.trace = flushState.trace ++ flushWrites 7 flushState (List.range flushState.numBufs) ∧
      (∀ i, (flushState.bufDescTable i).file ≠ some 7 →
        s'.bufDescTable i = flushState.bufDescTable i) ∧
      (∀ g p, g ≠ 7 → s'.hashTable.lookup g p = flushState.hashTable.lookup g p) ∧
      s'.bufPool = flushState.bufPool ∧ s'.clockHand = flushState.clockHand ∧
      s'.numBufs = flushState.numBufs :=
  ⟨consistent_flushState, by decide,
    flushFile_unpinned flushState 7 consistent_flushState (by decide)⟩

theorem range_split (i n : Nat) (h : i < n) :
    List.range n = List.range i ++ i :: List.range' (i + 1) (n - i - 1) := by
  rw [List.range_eq_range', List.range_eq_range', ← List.range'_succ]
  have hn : n = (n - i - 1 + 1) + i := by omega
  conv_lhs => rw [hn]
  rw [← List.range'_append]
  simp

theorem indexConsistent_pinnedFlushState : IndexConsistent pinnedFlushState := by
  intro file pageNo f
  constructor
  · intro h
    simp only [pinnedFlushState, BufHashTbl.lookup, BufHashTbl.insert, BufHashTbl.empty] at h
    split_ifs at h with h1 h2 h3
    · obtain ⟨rfl, rfl⟩ := h1
      cases h
      simp [pinnedFlushState, demoDesc]
    · obtain ⟨rfl, rfl⟩ := h2
      cases h
      simp [pinnedFlushState, demoDesc]
    · obtain ⟨rfl, rfl⟩ := h3
      cases h
      simp [pinnedFlushState, demoDesc]
  · rintro ⟨hf, -, hfile, hpage⟩
    have hf3 : Nat.lt f 3 := hf
    have : f = 0 ∨ f = 1 ∨ f = 2 := by
      rcases f with _ | _ | _ | f
      · exact Or.inl rfl
      · exact Or.inr (Or.inl rfl)
      · exact Or.inr (Or.inr rfl)
      · exact absurd hf3 (by simp [Nat.lt])
    rcases this with rfl | rfl | rfl <;>
      (simp [pinnedFlushState, demoDesc] at hfile hpage
       subst hfile hpage
       simp [pinnedFlushState, BufHashTbl.lookup, BufHashTbl.insert, BufHashTbl.empty])

/-- Failed flush in a state whose index and frame table agree: let `i` be the
lowest frame of the pool owned by `file` that is pinned or not valid. Then
`flushFile` fails at `i`, with PagePinned if `pinCnt > 0` and with BadBuffer
otherwise; every frame of `file` below `i` is cleared and its index entry
removed; the descriptors from `i` on and the index entries pointing to them are
as they were; and the Page Store has received one write-back for each dirty
frame of `file` below `i` and nothing else. -/
theorem flushFile_fails_at_first_offender (s : BufMgr) (file : File) (i : FrameId)
    (hc : IndexConsistent s) (hi : i < s.numBufs)
    (ho : (s.bufDescTable i).file = some file)
    (hbad : 0 < (s.bufDescTable i).pinCnt ∨ (s.bufDescTable i).valid = false)
    (hmin : ∀ j, j < i → (s.bufDescTable j).file = some file →
      ¬ 0 < (s.bufDescTable j).pinCnt ∧ (s.bufDescTable j).valid = true) :
    ∃ s', flushFile s file =
        (.error (if 0 < (s.bufDescTable i).pinCnt then
            .PagePinned file (s.bufDescTable i).pageNo i
          else .BadBuffer i (s.bufDescTable i).dirty (s.bufDescTable i).valid
            (s.bufDescTable i).refbit), s') ∧
      (∀ j, j < i → (s.bufDescTable j).file = some file →
        s'.bufDescTable j = (s.bufDescTable j).Clear ∧
        s'.hashTable.lookup file (s.bufDescTable j).pageNo = none) ∧
      (∀ j, i ≤ j → s'.bufDescTable j = s.bufDescTable j) ∧
      (∀ j, i ≤ j → ∀ g p, s.hashTable.lookup g p = some j →
        s'.hashTable.lookup g p = some j) ∧
      s'.trace = s.trace ++ flushWrites file s (List.range i) ∧
      s'.bufPool = s.bufPool ∧ s'.clockHand = s.clockHand ∧ s'.numBufs = s.numBufs := by
  have hlt : ∀ j, j ∈ List.range i → j < s.numBufs := fun j hj =>
    Nat.lt_trans (List.mem_range.mp hj) hi
  have hall : ∀ j ∈ List.range i, (s.bufDescTable j).file = some file →
      ¬ 0 < (s.bufDescTable j).pinCnt ∧ (s.bufDescTable j).valid = true ∧
      s.hashTable.lookup file (s.bufDescTable j).pageNo = some j := by
    intro j hj hoj
    obtain ⟨h1, h2⟩ := hmin j (List.mem_range.mp hj) hoj
    exact ⟨h1, h2, (hc file _ j).mpr ⟨hlt j hj, h2, hoj, rfl⟩⟩
  obtain ⟨s', h0, h1, h2, -, h4, h5, h6, h7, h8, h9⟩ :=
    flushFileLoop_ok file (List.range i) s (List.nodup_range _) hall
  have hsame : ∀ j, i ≤ j → s'.bufDescTable j = s.bufDescTable j := fun j hj =>
    h2 j fun h => absurd (List.mem_range.mp h.1) (Nat.not_lt.mpr hj)
  refine ⟨s', ?_, ?_, hsame, ?_, h6, h7, h8, h9⟩
  · unfold flushFile
    rw [range_split i s.numBufs hi, flushFileLoop_append, h0]
    simp only [flushFileLoop, hsame i (Nat.le_refl i), ho, if_true]
    by_cases hp : 0 < (s.bufDescTable i).pinCnt
    · simp only [gt_iff_lt, hp, if_true]
    · have hv : (s.bufDescTable i).valid = false := hbad.resolve_left hp
      simp [hp, hv]
  · intro j hj hoj
    exact ⟨h1 j (List.mem_range.mpr hj) hoj, h4 j (List.mem_range.mpr hj) hoj⟩
  · intro j hj g p hl
    rw [h5 g p, hl]
    rintro k hk hok ⟨rfl, rfl⟩
    obtain ⟨-, hvk⟩ := hmin k (List.mem_range.mp hk) hok
    have hlk := (hc g _ k).mpr ⟨hlt k hk, hvk, hok, rfl⟩
    rw [hl] at hlk
    have hkj : j = k := Option.some.inj hlk
    have hki : k < i := List.mem_range.mp hk
    exact absurd (hkj ▸ hki) (Nat.not_lt.mpr hj)

theorem indexConsistent_badFlushState : IndexConsistent badFlushState := by
  intro file pageNo f
  constructor
  · intro h
    simp [badFlushState, BufHashTbl.lookup, BufHashTbl.empty] at h
  · rintro ⟨-, hv, -⟩
    simp [badFlushState] at hv

/-- Two runs of a failed flush in a consistent state: in `pinnedFlushState`
frame 1 is the lowest pinned frame of file 7 (PagePinned); in `badFlushState`
frame 0 names file 7 without being valid (BadBuffer). -/
theorem flushFile_fails_at_first_offender_witness :
    (∃ s', flushFile pinnedFlushState 7 =
        (.error (if 0 < (pinnedFlushState.bufDescTable 1).pinCnt then
            .PagePinned 7 (pinnedFlushState.bufDescTable 1).pageNo 1
          else .BadBuffer 1 (pinnedFlushState.bufDescTable 1).dirty
            (pinnedFlushState.bufDescTable 1).valid (pinnedFlushState.bufDescTable 1).refbit),
          s') ∧
      (∀ j, j < 1 → (pinnedFlushState.bufDescTable j).file = some 7 →
        s'.bufDescTable j = (pinnedFlushState.bufDescTable j).Clear ∧
        s'.hashTable.lookup 7 (pinnedFlushState.bufDescTable j).pageNo = none) ∧
      (∀ j, 1 ≤ j → s'.bufDescTable j = pinnedFlushState.bufDescTable j) ∧
      (∀ j, 1 ≤ j → ∀ g p, pinnedFlushState.hashTable.lookup g p = some j →
        s'.hashTable.lookup g p = some j) ∧
      s'.trace = pinnedFlushState.trace ++ flushWrites 7 pinnedFlushState (List.range 1) ∧
      s'.bufPool = pinnedFlushState.bufPool ∧ s'.clockHand = pinnedFlushState.clockHand ∧
      s'.numBufs = pinnedFlushState.numBufs) ∧
    (∃ s', flushFile badFlushState 7 =
        (.error (if 0 < (badFlushState.bufDescTable 0).pinCnt then
            .PagePinned 7 (badFlushState.bufDescTable 0).pageNo 0
          else .BadBuffer 0 (badFlushState.bufDescTable 0).dirty
            (badFlushState.bufDescTable 0).valid (badFlushState.bufDescTable 0).refbit),
          s') ∧
      (∀ j, j < 0 → (badFlushState.bufDescTable j).file = some 7 →
        s'.bufDescTable j = (badFlushState.bufDescTable j).Clear ∧
        s'.hashTable.lookup 7 (badFlushState.bufDescTable j).pageNo = none) ∧
      (∀ j, 0 ≤ j → s'.bufDescTable j = badFlushState.bufDescTable j) ∧
      (∀ j, 0 ≤ j → ∀ g p, badFlushState.hashTable.lookup g p = some j →
        s'.hashTable.lookup g p = some j) ∧
      s'.trace = badFlushState.trace ++ flushWrites 7 badFlushState (List.range 0) ∧
      s'.bufPool = badFlushState.bufPool ∧ s'.clockHand = badFlushState.clockHand ∧
      s'.numBufs = badFlushState.numBufs) :=
  ⟨flushFile_fails_at_first_offender pinnedFlushState 7 1 indexConsistent_pinnedFlushState
      (by decide) rfl (Or.inl (by decide)) (by decide),
    flushFile_fails_at_first_offender badFlushState 7 0 indexConsistent_badFlushState
      (by decide) rfl (Or.inr rfl) (by decide)⟩

/-- C10: evaluation of `flushFile` in `staleState`, which is reached from a
fresh pool of two frames by `staleOps` (the last fetch evicts frame 0 and its
read fails). Frame 0 belongs to file 7, is valid and not pinned, and frame 1
is the lowest frame of file 7 that is pinned or not valid; yet `flushFile`
does not fail at frame 1 with PagePinned: the `remove` of line 147 does not
find the entry of frame 0, HashNotFound leaves `flushFile`, and frame 0 is
left as it was, neither cleared nor written back. -/
theorem flushFile_HashNotFound_on_stale_frame :
    runOps 4 failingStore staleOps (BufMgr.new 2) = some staleState ∧
    staleState.numBufs = 2 ∧
    (staleState.bufDescTable 0).file = some 7 ∧ (staleState.bufDescTable 0).valid = true ∧
    (staleState.bufDescTable 0).pinCnt = 0 ∧
    (staleState.bufDescTable 1).file = some 7 ∧ 0 < (staleState.bufDescTable 1).pinCnt ∧
    (flushFile staleState 7).1 = .error (.HashNotFound 7 1) ∧
    (flushFile staleState 7).1 ≠
      .error (.PagePinned 7 (staleState.bufDescTable 1).pageNo 1) ∧
    (flushFile staleState 7).2.bufDescTable 0 = staleState.bufDescTable 0 ∧
    ¬ IndexConsistent staleState := by
  refine ⟨rfl, rfl, rfl, rfl, rfl, rfl, by decide, rfl, ?_, rfl, ?_⟩
  · rw [show (flushFile staleState 7).1 = .error (.HashNotFound 7 1) from rfl]
    intro h
    cases h
  · intro h
    have := (h 7 1 0).mpr ⟨by decide, rfl, rfl, rfl⟩
    revert this
    decide

/-! ## What the clock sweep leaves behind -/

/-- The loop of `allocBuf` changes reference flags only by clearing them. -/
theorem allocBufLoop_refbit (fuel : Nat) :
    ∀ (s : BufMgr) (pin : Nat) (r : Except Error FrameId) (s' : BufMgr),
      allocBufLoop fuel s pin = some (r, s') →
      ∀ i, (s'.bufDescTable i).refbit = true → (s.bufDescTable i).refbit = true := by
  induction fuel with
  | zero => intro s pin r s' h; simp [allocBufLoop] at h
  | succ n ih =>
    intro s pin r s' h i
    simp only [allocBufLoop] at h
    split_ifs at h with hv hr hp hd hf
    · simp only [Option.some.injEq, Prod.mk.injEq] at h
      obtain ⟨-, rfl⟩ := h
      exact id
    · intro hi
      have := ih _ _ _ _ h i hi
      simp only [advanceClock_bufDescTable, setDesc_apply] at this
      split_ifs at this with he
      exact this
    · simp only [Option.some.injEq, Prod.mk.injEq] at h
      obtain ⟨-, rfl⟩ := h
      split <;> [split; skip] <;>
        (simp only [setDesc_apply, call_bufDescTable]; split_ifs with he <;> simp [he])
    · simp only [Option.some.injEq, Prod.mk.injEq] at h
      obtain ⟨-, rfl⟩ := h
      split <;> [split; skip] <;> simp
    · simp only [Option.some.injEq, Prod.mk.injEq] at h
      obtain ⟨-, rfl⟩ := h
      exact id
    · exact ih _ _ _ _ h i

/-- When the loop of `allocBuf` throws, the trace of Page Store calls, the
index and every dirty flag are as they were. -/
theorem allocBufLoop_error_state (fuel : Nat) :
    ∀ (s : BufMgr) (pin : Nat) (e : Error) (s' : BufMgr),
      allocBufLoop fuel s pin = some (.error e, s') →
      s'.trace = s.trace ∧ s'.hashTable = s.hashTable ∧
      ∀ i, (s'.bufDescTable i).dirty = (s.bufDescTable i).dirty := by
  induction fuel with
  | zero => intro s pin e s' h; simp [allocBufLoop] at h
  | succ n ih =>
    intro s pin e s' h
    simp only [allocBufLoop] at h
    split_ifs at h with hv hr hp hd hf
    · simp at h
    · obtain ⟨h1, h2, h3⟩ := ih _ _ _ _ h
      refine ⟨by simpa using h1, by simpa using h2, fun i => ?_⟩
      have := h3 i
      simp only [advanceClock_bufDescTable, setDesc_apply] at this
      split_ifs at this with he
      · subst he; simpa using this
      · exact this
    · simp at h
    · simp at h
    · simp only [Option.some.injEq, Prod.mk.injEq] at h
      obtain ⟨-, rfl⟩ := h
      exact ⟨rfl, rfl, fun _ => rfl⟩
    · obtain ⟨h1, h2, h3⟩ := ih _ _ _ _ h
      exact ⟨by simpa using h1, by simpa using h2, by simpa using h3⟩

theorem remove_lookup (h h1 : BufHashTbl) (file : File) (pageNo : PageId)
    (hr : h.remove file pageNo = some h1) (g : File) (p : PageId) :
    h1.lookup g p = if g = file ∧ p = pageNo then none else h.lookup g p := by
  unfold BufHashTbl.remove at hr
  split at hr
  · injection hr with hr
    subst hr
    rfl
  · cases hr

theorem remove_none_lookup (h : BufHashTbl) (file : File) (pageNo : PageId)
    (hr : h.remove file pageNo = none) : h.lookup file pageNo = none := by
  unfold BufHashTbl.remove at hr
  split at hr
  · cases hr
  · next hnone => exact hnone

/-- Index after the victim branch of `allocBuf` (lines 77-80): the entry of
the page the frame names is gone, whether or not `remove` found it. -/
theorem victim_lookup (s1 : BufMgr) (file : Option File) (pageNo : PageId) (g : File)
    (p : PageId) :
    (match file with
      | some file =>
        match s1.hashTable.remove file pageNo with
        | some h => { s1 with hashTable := h }
        | none => s1
      | none => s1).hashTable.lookup g p =
      if file = some g ∧ pageNo = p then none else s1.hashTable.lookup g p := by
  cases file with
  | none => simp
  | some file =>
    simp only [Option.some.injEq]
    cases hr : s1.hashTable.remove file pageNo with
    | some h =>
      simp only [remove_lookup _ _ _ _ hr g p]
      by_cases hc : g = file ∧ p = pageNo
      · obtain ⟨rfl, rfl⟩ := hc; simp
      · rw [if_neg hc, if_neg]
        rintro ⟨rfl, rfl⟩
        exact hc ⟨rfl, rfl⟩
    | none =>
      simp only
      by_cases hc : file = g ∧ pageNo = p
      · obtain ⟨rfl, rfl⟩ := hc
        simp [remove_none_lookup _ _ _ hr]
      · rw [if_neg hc]

/-- After a successful run of the loop of `allocBuf` that returns frame `f`:
the Page Store has received one write-back, of slot `f`, exactly when `f` was
valid and dirty; no other dirty flag has changed; and the index has lost the
entry of the page `f` named, if `f` was valid, and nothing else. -/
theorem allocBufLoop_ok_state (fuel : Nat) :
    ∀ (s : BufMgr) (pin : Nat) (f : FrameId) (s' : BufMgr),
      allocBufLoop fuel s pin = some (.ok f, s') →
      s'.trace = s.trace ++
        (if (s.bufDescTable f).valid = true ∧ (s.bufDescTable f).dirty = true then
          [StoreCall.writePage (s.bufDescTable f).file (s.bufPool f)] else []) ∧
      (∀ i, i ≠ f → (s'.bufDescTable i).dirty = (s.bufDescTable i).dirty) ∧
      ((s.bufDescTable f).valid = false →
        (s'.bufDescTable f).dirty = (s.bufDescTable f).dirty) ∧
      (∀ g p, s'.hashTable.lookup g p =
        if (s.bufDescTable f).valid = true ∧ (s.bufDescTable f).file = some g ∧
            (s.bufDescTable f).pageNo = p then none
        else s.hashTable.lookup g p) ∧
      ((s.bufDescTable f).valid = true → (s'.bufDescTable f).dirty = false) := by
  induction fuel with
  | zero => intro s pin f s' h; simp [allocBufLoop] at h
  | succ n ih =>
    intro s pin f s' h
    simp only [allocBufLoop] at h
    split_ifs at h with hv hr hp hd hf
    · simp only [Option.some.injEq, Prod.mk.injEq, Except.ok.injEq] at h
      obtain ⟨rfl, rfl⟩ := h
      simp only [Bool.not_eq_true', ] at hv
      simp [hv]
    · obtain ⟨h1, h2, h3, h4, h5⟩ := ih _ _ _ _ h
      have hfld : ∀ i, ((advanceClock (s.setDesc s.clockHand
          { s.bufDescTable s.clockHand with refbit := false })).bufDescTable i).valid =
            (s.bufDescTable i).valid ∧
          ((advanceClock (s.setDesc s.clockHand
          { s.bufDescTable s.clockHand with refbit := false })).bufDescTable i).dirty =
            (s.bufDescTable i).dirty ∧
          ((advanceClock (s.setDesc s.clockHand
          { s.bufDescTable s.clockHand with refbit := false })).bufDescTable i).file =
            (s.bufDescTable i).file ∧
          ((advanceClock (s.setDesc s.clockHand
          { s.bufDescTable s.clockHand with refbit := false })).bufDescTable i).pageNo =
            (s.bufDescTable i).pageNo := by
        intro i
        simp only [advanceClock_bufDescTable, setDesc_apply]
        split_ifs with he
        · subst he; simp
        · simp
      simp only [(hfld _).1, (hfld _).2.1, (hfld _).2.2.1, (hfld _).2.2.2, advanceClock_trace,
        setDesc_trace, advanceClock_bufPool, setDesc_bufPool, advanceClock_hashTable,
        setDesc_hashTable] at h1 h2 h3 h4 h5
      exact ⟨h1, h2, h3, h4, h5⟩
    · simp only [Option.some.injEq, Prod.mk.injEq, Except.ok.injEq] at h
      obtain ⟨rfl, rfl⟩ := h
      have hv' : (s.bufDescTable s.clockHand).valid = true := by simpa using hv
      refine ⟨?_, ?_, ?_, ?_, ?_⟩
      · split <;> [split; skip] <;> simp [hv', hd]
      · intro i hi
        split <;> [split; skip] <;> simp [setDesc_apply, hi]
      · intro hc; rw [hv'] at hc; cases hc
      · intro g p
        rw [victim_lookup]
        simp [hv']
      · intro _
        split <;> [split; skip] <;> simp
    · simp only [Option.some.injEq, Prod.mk.injEq, Except.ok.injEq] at h
      obtain ⟨rfl, rfl⟩ := h
      have hv' : (s.bufDescTable s.clockHand).valid = true := by simpa using hv
      refine ⟨?_, ?_, ?_, ?_, ?_⟩
      · split <;> [split; skip] <;> simp [hv', hd]
      · intro i hi
        split <;> [split; skip] <;> simp
      · intro hc; rw [hv'] at hc; cases hc
      · intro g p
        rw [victim_lookup]
        simp [hv']
      · intro _
        split <;> [split; skip] <;> simpa using hd
    · simp at h
    · obtain ⟨h1, h2, h3, h4, h5⟩ := ih _ _ _ _ h
      exact ⟨by simpa using h1, by simpa using h2, by simpa using h3, by simpa using h4,
        by simpa using h5⟩

/-! ## Disposal, eviction write-back, page creation, termination -/

/-- C11: `disposePage` returns normally and issues exactly one call to the
Page Store, `deletePage(pageNo)`, and no write-back. If the index maps
`(file, pageNo)` to frame `f`, the entry is gone afterwards and frame `f` is
cleared whatever its pin count and dirty flag were, all other frames and index
entries being unchanged; if the page is not in the index, the frame table and
the index are unchanged. -/
theorem disposePage_effect (s : BufMgr) (file : File) (pageNo : PageId) :
    ∃ s', disposePage s file pageNo = (.ok (), s') ∧
      s'.trace = s.trace ++ [.deletePage file pageNo] ∧
      (∀ f, s.hashTable.lookup file pageNo = some f →
        s'.hashTable.lookup file pageNo = none ∧
        (s'.bufDescTable f).valid = false ∧ (s'.bufDescTable f).pinCnt = 0 ∧
        (s'.bufDescTable f).dirty = false ∧ (s'.bufDescTable f).refbit = false ∧
        (∀ i, i ≠ f → s'.bufDescTable i = s.bufDescTable i) ∧
        (∀ g p, ¬ (g = file ∧ p = pageNo) →
          s'.hashTable.lookup g p = s.hashTable.lookup g p)) ∧
      (s.hashTable.lookup file pageNo = none →
        s'.bufDescTable = s.bufDescTable ∧ s'.hashTable = s.hashTable) ∧
      s'.bufPool = s.bufPool ∧ s'.clockHand = s.clockHand ∧ s'.numBufs = s.numBufs := by
  refine ⟨(disposePage s file pageNo).2, rfl, ?_, ?_, ?_, ?_, ?_, ?_⟩
  · simp only [disposePage, call_trace]
    split <;> [split; skip] <;> rfl
  · intro f hl
    have hm : s.hashTable.map file pageNo = some f := hl
    simp only [disposePage, hl, BufHashTbl.remove, hm, call_hashTable, call_bufDescTable,
      setDesc_hashTable, setDesc_same]
    refine ⟨by simp [BufHashTbl.lookup], by simp [BufDesc.Clear], by simp [BufDesc.Clear],
      by simp [BufDesc.Clear], by simp [BufDesc.Clear], fun i hi => ?_, fun g p hgp => ?_⟩
    · rw [setDesc_other _ _ _ _ hi]
    · simp [BufHashTbl.lookup, hgp]
  · intro hl
    simp only [disposePage, hl]
    exact ⟨rfl, rfl⟩
  · simp only [disposePage, call_bufPool]
    split <;> [split; skip] <;> rfl
  · simp only [disposePage, call_clockHand]
    split <;> [split; skip] <;> rfl
  · exact disposePage_numBufs s file pageNo

/-- Witness for C11: page 3 of file 7 sits in frame 1 of `pinnedState` with two
pins; disposing it clears the frame and removes the entry. -/
theorem disposePage_effect_witness :
    pinnedState.hashTable.lookup 7 3 = some 1 ∧
    ∃ s', disposePage pinnedState 7 3 = (.ok (), s') ∧
      s'.trace = pinnedState.trace ++ [.deletePage 7 3] ∧
      s'.hashTable.lookup 7 3 = none ∧ (s'.bufDescTable 1).valid = false ∧
      (s'.bufDescTable 1).pinCnt = 0 := by
  obtain ⟨s', h1, h2, h3, -⟩ := disposePage_effect pinnedState 7 3
  exact ⟨rfl, s', h1, h2, (h3 1 rfl).1, (h3 1 rfl).2.1, (h3 1 rfl).2.2.1⟩

/-- C12: when `allocBuf` returns frame `f`, the Page Store has received exactly
one `writePage`, of the contents of pool slot `f` and directed at the file of
frame `f`, if `f` was valid and dirty on entry, and no call at all otherwise;
the pool is untouched, no other dirty flag has changed and the dirty flag of a
valid `f` is false afterwards. In `readPage` and `allocPage` this write-back
precedes the reuse of the frame. -/
theorem allocBuf_write_back (fuel : Nat) (s s' : BufMgr) (f : FrameId)
    (h : allocBuf fuel s = some (.ok f, s')) :
    s'.trace = s.trace ++
      (if (s.bufDescTable f).valid = true ∧ (s.bufDescTable f).dirty = true then
        [StoreCall.writePage (s.bufDescTable f).file (s.bufPool f)] else []) ∧
    s'.bufPool = s.bufPool ∧
    (∀ i, i ≠ f → (s'.bufDescTable i).dirty = (s.bufDescTable i).dirty) ∧
    ((s.bufDescTable f).valid = true → (s'.bufDescTable f).dirty = false) ∧
    (∀ store file pageNo t, s.hashTable.lookup file pageNo = none →
      readPage fuel store s file pageNo = some (.ok f, t) →
      t.trace = s.trace ++
        (if (s.bufDescTable f).valid = true ∧ (s.bufDescTable f).dirty = true then
          [StoreCall.writePage (s.bufDescTable f).file (s.bufPool f)] else []) ++
        [.readPage file pageNo]) ∧
    (∀ store file pageNo t, allocPage fuel store s file = some (.ok (pageNo, f), t) →
      t.trace = s.trace ++ [.allocatePage file] ++
        (if (s.bufDescTable f).valid = true ∧ (s.bufDescTable f).dirty = true then
          [StoreCall.writePage (s.bufDescTable f).file (s.bufPool f)] else [])) := by
  have hk : ∀ (u u' : BufMgr) (g : FrameId), allocBuf fuel u = some (.ok g, u') →
      u'.trace = u.trace ++
        (if (u.bufDescTable g).valid = true ∧ (u.bufDescTable g).dirty = true then
          [StoreCall.writePage (u.bufDescTable g).file (u.bufPool g)] else []) := by
    intro u u' g hu
    simpa using (allocBufLoop_ok_state fuel _ _ _ _ hu).1
  obtain ⟨-, h2, -, -, h5⟩ := allocBufLoop_ok_state fuel _ _ _ _ h
  obtain ⟨-, hpool, -⟩ := allocBufLoop_frame fuel _ _ _ _ h
  refine ⟨hk s s' f h, by simpa using hpool, by simpa using h2, by simpa using h5, ?_, ?_⟩
  · intro store file pageNo t hl hr
    simp only [readPage, hl, h] at hr
    split at hr
    · simp at hr
    · simp only [Option.some.injEq, Prod.mk.injEq, true_and] at hr
      subst hr
      simp [hk s s' f h]
  · intro store file pageNo t hr
    simp only [allocPage] at hr
    split at hr
    · cases hr
    · simp at hr
    · next g u ha =>
      simp only [Option.some.injEq, Prod.mk.injEq, Except.ok.injEq] at hr
      obtain ⟨⟨-, rfl⟩, rfl⟩ := hr
      simp [hk _ _ _ ha]

/-- Witness for C12: in `evictState` the sweep evicts the dirty frame 1. -/
theorem allocBuf_write_back_witness :
    allocBuf 4 evictState = some (.ok 1, evictPost) ∧
    evictPost.trace = evictState.trace ++
      (if (evictState.bufDescTable 1).valid = true ∧ (evictState.bufDescTable 1).dirty = true
        then [StoreCall.writePage (evictState.bufDescTable 1).file (evictState.bufPool 1)]
        else []) ∧
    evictPost.bufPool = evictState.bufPool ∧
    (∀ i, i ≠ 1 → (evictPost.bufDescTable i).dirty = (evictState.bufDescTable i).dirty) ∧
    ((evictState.bufDescTable 1).valid = true → (evictPost.bufDescTable 1).dirty = false) :=
  ⟨rfl, (allocBuf_write_back 4 evictState evictPost 1 rfl).1,
    (allocBuf_write_back 4 evictState evictPost 1 rfl).2.1,
    (allocBuf_write_back 4 evictState evictPost 1 rfl).2.2.1,
    (allocBuf_write_back 4 evictState evictPost 1 rfl).2.2.2.1⟩

/-- C16: when `allocPage` returns page number `pageNo` and frame `f`, then
`pageNo` is the number of the page the Page Store has just allocated, `f` is
the frame `allocBuf` returned, pool slot `f` holds the new page, the index maps
`(file, pageNo)` to `f`, and the descriptor of `f` has `file = file`,
`pageNo = pageNo`, `valid = true`, `pinCnt = 1`, `refbit = true`,
`dirty = false`. -/
theorem allocPage_effect (fuel : Nat) (store : PageStore) (s s' : BufMgr) (file : File)
    (pageNo : PageId) (f : FrameId)
    (h : allocPage fuel store s file = some (.ok (pageNo, f), s')) :
    pageNo = (store.allocatePage s.trace file).number ∧
    ∃ s1, allocBuf fuel (s.call (.allocatePage file)) = some (.ok f, s1) ∧
      s'.trace = s1.trace ∧
      s'.bufPool f = store.allocatePage s.trace file ∧
      s'.hashTable.lookup file pageNo = some f ∧
      (s'.bufDescTable f).file = some file ∧ (s'.bufDescTable f).pageNo = pageNo ∧
      (s'.bufDescTable f).valid = true ∧ (s'.bufDescTable f).pinCnt = 1 ∧
      (s'.bufDescTable f).refbit = true ∧ (s'.bufDescTable f).dirty = false := by
  simp only [allocPage] at h
  split at h
  · cases h
  · simp at h
  · next g s1 ha =>
    simp only [Option.some.injEq, Prod.mk.injEq, Except.ok.injEq] at h
    obtain ⟨⟨rfl, rfl⟩, rfl⟩ := h
    exact ⟨rfl, s1, ha, by simp, by simp, by simp [BufHashTbl.lookup, BufHashTbl.insert],
      by simp [BufDesc.Set], by simp [BufDesc.Set], by simp [BufDesc.Set],
      by simp [BufDesc.Set], by simp [BufDesc.Set], by simp [BufDesc.Set]⟩

/-- Witness for C16: `allocPage` on `evictState` gets page 0 from `demoStore`
and frame 1 from the sweep. -/
theorem allocPage_effect_witness :
    allocPage 4 demoStore evictState 7 = some (.ok (0, 1), allocPost) ∧
    (0 = (demoStore.allocatePage evictState.trace 7).number ∧
    ∃ s1, allocBuf 4 (evictState.call (.allocatePage 7)) = some (.ok 1, s1) ∧
      allocPost.trace = s1.trace ∧
      allocPost.bufPool 1 = demoStore.allocatePage evictState.trace 7 ∧
      allocPost.hashTable.lookup 7 0 = some 1 ∧
      (allocPost.bufDescTable 1).file = some 7 ∧ (allocPost.bufDescTable 1).pageNo = 0 ∧
      (allocPost.bufDescTable 1).valid = true ∧ (allocPost.bufDescTable 1).pinCnt = 1 ∧
      (allocPost.bufDescTable 1).refbit = true ∧ (allocPost.bufDescTable 1).dirty = false) :=
  ⟨rfl, allocPage_effect 4 demoStore evictState allocPost 7 0 1 rfl⟩

/-- C17: in a state with `0 < numBufs` (a 32-bit value), whatever the flags and
the clock hand are, `allocBuf` leaves its loop after at most `2 * numBufs`
iterations, each of which examines one frame: it returns a frame or throws
BufferExceeded, and more fuel does not change the outcome. -/
theorem allocBuf_terminates_within (s : BufMgr) (hn : 0 < s.numBufs)
    (h32 : s.numBufs < 2 ^ 32) :
    ∃ n r s', n ≤ 2 * s.numBufs ∧ allocBuf n s = some (r, s') ∧
      ((∃ f, r = .ok f) ∨ r = .error .BufferExceeded) ∧
      ∀ fuel, n ≤ fuel → allocBuf fuel s = some (r, s') := by
  obtain ⟨r, s', h⟩ := allocBuf_terminates (2 * s.numBufs) s hn h32 (Nat.le_refl _)
  refine ⟨2 * s.numBufs, r, s', Nat.le_refl _, h, ?_, ?_⟩
  · cases r with
    | ok f => exact Or.inl ⟨f, rfl⟩
    | error e => exact Or.inr (by rw [allocBufLoop_error _ _ _ _ _ h])
  · intro fuel hf
    obtain ⟨k, rfl⟩ := Nat.exists_eq_add_of_le hf
    exact allocBufLoop_mono _ _ _ _ k h

/-- Witness for C17: `evictState` has two frames. -/
theorem allocBuf_terminates_within_witness :
    ∃ n r s', n ≤ 2 * evictState.numBufs ∧ allocBuf n evictState = some (r, s') ∧
      ((∃ f, r = .ok f) ∨ r = .error .BufferExceeded) ∧
      ∀ fuel, n ≤ fuel → allocBuf fuel evictState = some (r, s') :=
  allocBuf_terminates_within evictState (by decide) (by decide)

/-- C18: when `allocBuf` throws BufferExceeded, every frame's `valid`, `file`,
`pageNo`, `pinCnt` and `dirty`, every pool slot, the index and the trace of
Page Store calls are as before the call, and reference flags have only been
cleared; `readPage` of a page that is not in the index then throws
BufferExceeded in that very state. -/
theorem allocBuf_failure_preserves (fuel : Nat) (s s' : BufMgr)
    (h : allocBuf fuel s = some (.error .BufferExceeded, s')) :
    (∀ i, (s'.bufDescTable i).valid = (s.bufDescTable i).valid ∧
      (s'.bufDescTable i).file = (s.bufDescTable i).file ∧
      (s'.bufDescTable i).pageNo = (s.bufDescTable i).pageNo ∧
      (s'.bufDescTable i).pinCnt = (s.bufDescTable i).pinCnt ∧
      (s'.bufDescTable i).dirty = (s.bufDescTable i).dirty ∧
      ((s'.bufDescTable i).refbit = true → (s.bufDescTable i).refbit = true)) ∧
    s'.bufPool = s.bufPool ∧ s'.hashTable = s.hashTable ∧ s'.trace = s.trace ∧
    s'.numBufs = s.numBufs ∧
    (∀ store file pageNo, s.hashTable.lookup file pageNo = none →
      readPage fuel store s file pageNo = some (.error .BufferExceeded, s')) := by
  obtain ⟨hnum, hpool, hfr⟩ := allocBufLoop_frame fuel _ _ _ _ h
  obtain ⟨htr, hht, hd⟩ := allocBufLoop_error_state fuel _ _ _ _ h
  have href := allocBufLoop_refbit fuel _ _ _ _ h
  refine ⟨fun i => ?_, by simpa using hpool, by simpa using hht, by simpa using htr,
    by simpa using hnum, ?_⟩
  · obtain ⟨f1, f2, f3, f4, -⟩ := hfr i
    exact ⟨by simpa using f1, by simpa using f3, by simpa using f4, by simpa using f2,
      by simpa using hd i, by simpa using href i⟩
  · intro store file pageNo hl
    simp only [readPage, hl, h]

/-- Witness for C18: both frames of `pinnedState` are pinned. -/
theorem allocBuf_failure_preserves_witness :
    allocBuf 4 pinnedState = some (.error .BufferExceeded, pinnedPost) ∧
    (∀ i, (pinnedPost.bufDescTable i).valid = (pinnedState.bufDescTable i).valid ∧
      (pinnedPost.bufDescTable i).file = (pinnedState.bufDescTable i).file ∧
      (pinnedPost.bufDescTable i).pageNo = (pinnedState.bufDescTable i).pageNo ∧
      (pinnedPost.bufDescTable i).pinCnt = (pinnedState.bufDescTable i).pinCnt ∧
      (pinnedPost.bufDescTable i).dirty = (pinnedState.bufDescTable i).dirty ∧
      ((pinnedPost.bufDescTable i).refbit = true →
        (pinnedState.bufDescTable i).refbit = true)) ∧
    pinnedPost.bufPool = pinnedState.bufPool ∧ pinnedPost.hashTable = pinnedState.hashTable ∧
    pinnedPost.trace = pinnedState.trace :=
  ⟨rfl, (allocBuf_failure_preserves 4 pinnedState pinnedPost rfl).1,
    (allocBuf_failure_preserves 4 pinnedState pinnedPost rfl).2.1,
    (allocBuf_failure_preserves 4 pinnedState pinnedPost rfl).2.2.1,
    (allocBuf_failure_preserves 4 pinnedState pinnedPost rfl).2.2.2.1⟩

/-! ## The clock hand -/

/-- The loop of `allocBuf` leaves the clock hand inside the pool. -/
theorem allocBufLoop_clockHand_lt (fuel : Nat) :
    ∀ (s : BufMgr) (pin : Nat) (r : Except Error FrameId) (s' : BufMgr),
      s.clockHand < s.numBufs → allocBufLoop fuel s pin = some (r, s') →
      s'.clockHand < s'.numBufs := by
  induction fuel with
  | zero => intro s pin r s' _ h; simp [allocBufLoop] at h
  | succ n ih =>
    intro s pin r s' hc h
    have hn : 0 < s.numBufs := Nat.lt_of_le_of_lt (Nat.zero_le _) hc
    simp only [allocBufLoop] at h
    split_ifs at h with hv hr hp hd hf
    · simp only [Option.some.injEq, Prod.mk.injEq] at h
      obtain ⟨-, rfl⟩ := h
      exact hc
    · exact ih _ _ _ _ (advanceClock_lt (s.setDesc _ _) hn) h
    · simp only [Option.some.injEq, Prod.mk.injEq] at h
      obtain ⟨-, rfl⟩ := h
      split <;> [split; skip] <;> exact hc
    · simp only [Option.some.injEq, Prod.mk.injEq] at h
      obtain ⟨-, rfl⟩ := h
      split <;> [split; skip] <;> exact hc
    · simp only [Option.some.injEq, Prod.mk.injEq] at h
      obtain ⟨-, rfl⟩ := h
      exact hc
    · exact ih _ _ _ _ (advanceClock_lt s hn) h

theorem allocBuf_clockHand_lt (fuel : Nat) (s s' : BufMgr) (r : Except Error FrameId)
    (hn : 0 < s.numBufs) (h : allocBuf fuel s = some (r, s')) : s'.clockHand < s'.numBufs :=
  allocBufLoop_clockHand_lt fuel _ _ _ _ (advanceClock_lt s hn) h

theorem unPinPage_clockHand (s : BufMgr) (file : File) (pageNo : PageId) (dirty : Bool) :
    (unPinPage s file pageNo dirty).2.clockHand = s.clockHand := by
  simp only [unPinPage]
  split
  · rfl
  · split_ifs <;> rfl

theorem disposePage_clockHand (s : BufMgr) (file : File) (pageNo : PageId) :
    (disposePage s file pageNo).2.clockHand = s.clockHand := by
  simp only [disposePage, call_clockHand]
  split
  · split <;> rfl
  · rfl

theorem flushFileLoop_clockHand (file : File) (l : List FrameId) :
    ∀ s : BufMgr, (flushFileLoop file l s).2.clockHand = s.clockHand := by
  induction l with
  | nil => intro s; rfl
  | cons i rest ih =>
    intro s
    simp only [flushFileLoop]
    split_ifs with ho hp hv hd
    · rfl
    · rfl
    · split
      · rfl
      · rw [ih]; rfl
    · split
      · rfl
      · rw [ih]; rfl
    · exact ih s

/-- Every public call keeps the clock hand inside the pool. -/
theorem run_clockHand_lt (fuel : Nat) (store : PageStore) (s s' : BufMgr) (op : Op)
    (hc : s.clockHand < s.numBufs) (h : op.run fuel store s = some s') :
    s'.clockHand < s'.numBufs := by
  have hn : 0 < s.numBufs := Nat.lt_of_le_of_lt (Nat.zero_le _) hc
  cases op with
  | readPage file pageNo =>
    simp only [Op.run, Option.map_eq_some', Prod.exists, exists_eq_right] at h
    obtain ⟨r, h⟩ := h
    simp only [readPage] at h
    split at h
    · simp only [Option.some.injEq, Prod.mk.injEq] at h
      obtain ⟨-, rfl⟩ := h
      exact hc
    · split at h
      · cases h
      · next e s1 ha =>
        simp only [Option.some.injEq, Prod.mk.injEq] at h
        obtain ⟨-, rfl⟩ := h
        exact allocBuf_clockHand_lt fuel s _ _ hn ha
      · next frameNo s1 ha =>
        have h1 := allocBuf_clockHand_lt fuel s _ _ hn ha
        split at h <;>
          (simp only [Option.some.injEq, Prod.mk.injEq] at h
           obtain ⟨-, rfl⟩ := h
           exact h1)
  | unPinPage file pageNo dirty =>
    simp only [Op.run, Option.some.injEq] at h
    subst h
    rw [unPinPage_clockHand, unPinPage_numBufs]
    exact hc
  | allocPage file =>
    simp only [Op.run, Option.map_eq_some', Prod.exists, exists_eq_right] at h
    obtain ⟨r, h⟩ := h
    simp only [allocPage] at h
    split at h
    · cases h
    · next e s1 ha =>
      simp only [Option.some.injEq, Prod.mk.injEq] at h
      obtain ⟨-, rfl⟩ := h
      exact allocBuf_clockHand_lt fuel (s.call (.allocatePage file)) _ _ hn ha
    · next frameNo s1 ha =>
      have h1 := allocBuf_clockHand_lt fuel (s.call (.allocatePage file)) _ _ hn ha
      simp only [Option.some.injEq, Prod.mk.injEq] at h
      obtain ⟨-, rfl⟩ := h
      exact h1
  | disposePage file pageNo =>
    simp only [Op.run, Option.some.injEq] at h
    subst h
    rw [disposePage_clockHand, disposePage_numBufs]
    exact hc
  | flushFile file =>
    simp only [Op.run, Option.some.injEq] at h
    subst h
    simp only [flushFile]
    rw [flushFileLoop_clockHand, flushFileLoop_numBufs]
    exact hc

theorem runOps_clockHand_lt (fuel : Nat) (store : PageStore) (ops : List Op) :
    ∀ s s' : BufMgr, s.clockHand < s.numBufs → runOps fuel store ops s = some s' →
      s'.clockHand < s'.numBufs := by
  induction ops with
  | nil => intro s s' hs h; simp only [runOps, Option.some.injEq] at h; subst h; exact hs
  | cons op ops ih =>
    intro s s' hs h
    simp only [runOps, Option.bind_eq_some] at h
    obtain ⟨s1, h1, h2⟩ := h
    exact ih s1 s' (run_clockHand_lt fuel store s s1 op hs h1) h2

theorem new_clockHand (bufs : Nat) (hb : 0 < bufs) (h32 : bufs < 2 ^ 32) :
    (BufMgr.new bufs).clockHand = bufs - 1 := by
  show (bufs + 2 ^ 32 - 1) % 2 ^ 32 = bufs - 1
  have h : bufs + 2 ^ 32 - 1 = (bufs - 1) + 2 ^ 32 := by omega
  rw [h, Nat.add_mod_right]
  exact Nat.mod_eq_of_lt (by omega)

/-- C20: for a pool of `0 < bufs < 2 ^ 32` frames the clock hand is a frame
number of the pool after construction and after every sequence of public
calls, and every call keeps it so from any state; when `allocBuf` returns a
frame, the clock hand is that frame; and `allocBuf` changes no frame's `valid`,
`file`, `pageNo` or `pinCnt`, changes a dirty flag only on the frame it
returns, and changes reference flags only by clearing them. -/
theorem clockHand_in_range (bufs : Nat) (hb : 0 < bufs) (h32 : bufs < 2 ^ 32) :
    (BufMgr.new bufs).clockHand < (BufMgr.new bufs).numBufs ∧
    (∀ fuel store ops s, runOps fuel store ops (BufMgr.new bufs) = some s →
      s.clockHand < s.numBufs) ∧
    (∀ fuel store (s s' : BufMgr) (op : Op), s.clockHand < s.numBufs →
      op.run fuel store s = some s' → s'.clockHand < s'.numBufs) ∧
    (∀ fuel (s s' : BufMgr) (f : FrameId), 0 < s.numBufs →
      allocBuf fuel s = some (.ok f, s') → s'.clockHand = f ∧ f < s.numBufs) ∧
    (∀ fuel (s s' : BufMgr) (r : Except Error FrameId), allocBuf fuel s = some (r, s') →
      ∀ i, (s'.bufDescTable i).valid = (s.bufDescTable i).valid ∧
        (s'.bufDescTable i).file = (s.bufDescTable i).file ∧
        (s'.bufDescTable i).pageNo = (s.bufDescTable i).pageNo ∧
        (s'.bufDescTable i).pinCnt = (s.bufDescTable i).pinCnt ∧
        ((s'.bufDescTable i).dirty ≠ (s.bufDescTable i).dirty → r = .ok i) ∧
        ((s'.bufDescTable i).refbit = true → (s.bufDescTable i).refbit = true)) := by
  have h0 : (BufMgr.new bufs).clockHand < (BufMgr.new bufs).numBufs := by
    rw [new_clockHand bufs hb h32]
    show bufs - 1 < bufs
    omega
  refine ⟨h0, fun fuel store ops s h => runOps_clockHand_lt fuel store ops _ s h0 h,
    fun fuel store s s' op hc h => run_clockHand_lt fuel store s s' op hc h, ?_, ?_⟩
  · intro fuel s s' f hn h
    obtain ⟨h1, h2, -⟩ := allocBufLoop_ok fuel _ _ _ _ (advanceClock_lt s hn) h
    exact ⟨h2, by simpa using h1⟩
  · intro fuel s s' r h i
    obtain ⟨-, -, hfr⟩ := allocBufLoop_frame fuel _ _ _ _ h
    obtain ⟨f1, f2, f3, f4, -⟩ := hfr i
    have href := allocBufLoop_refbit fuel _ _ _ _ h i
    refine ⟨by simpa using f1, by simpa using f3, by simpa using f4, by simpa using f2, ?_,
      by simpa using href⟩
    intro hd
    cases r with
    | error e =>
      exact absurd (by simpa using (allocBufLoop_error_state fuel _ _ _ _ h).2.2 i) hd
    | ok f =>
      by_cases hif : i = f
      · rw [hif]
      · exact absurd (by simpa using (allocBufLoop_ok_state fuel _ _ _ _ h).2.1 i hif) hd

/-- Witness for C20: a pool of two frames. -/
theorem clockHand_in_range_witness :
    (BufMgr.new 2).clockHand < (BufMgr.new 2).numBufs ∧
    (∀ fuel store ops s, runOps fuel store ops (BufMgr.new 2) = some s →
      s.clockHand < s.numBufs) ∧
    (allocBuf 4 evictState = some (.ok 1, evictPost) ∧ evictPost.clockHand = 1) :=
  ⟨(clockHand_in_range 2 (by decide) (by decide)).1,
    (clockHand_in_range 2 (by decide) (by decide)).2.1,
    rfl, ((clockHand_in_range 2 (by decide) (by decide)).2.2.2.1 4 evictState evictPost 1
      (by decide) rfl).1⟩

/-! ## Consistency of index and frame table -/

theorem indexConsistent_new (bufs : Nat) : IndexConsistent (BufMgr.new bufs) := by
  intro file pageNo f
  constructor
  · intro h
    simp [BufMgr.new, BufHashTbl.lookup, BufHashTbl.empty] at h
  · rintro ⟨-, hv, -⟩
    simp only [BufMgr.new, BufDesc.init] at hv
    split_ifs at hv

/-- Index consistency only looks at the pool size, the index and the `valid`,
`file` and `pageNo` fields. -/
theorem indexConsistent_congr (s t : BufMgr) (hs : IndexConsistent s)
    (hn : t.numBufs = s.numBufs) (hh : t.hashTable = s.hashTable)
    (hd : ∀ i, (t.bufDescTable i).valid = (s.bufDescTable i).valid ∧
      (t.bufDescTable i).file = (s.bufDescTable i).file ∧
      (t.bufDescTable i).pageNo = (s.bufDescTable i).pageNo) : IndexConsistent t := by
  intro file pageNo f
  rw [hh, hn, (hd f).1, (hd f).2.1, (hd f).2.2]
  exact hs file pageNo f

/-- After `allocBuf` has returned frame `f` in a consistent state, index and
frame table agree on all frames but `f`. -/
theorem allocBuf_ok_consistentExcept (fuel : Nat) (s s1 : BufMgr) (f : FrameId)
    (hs : IndexConsistent s) (hn : 0 < s.numBufs)
    (h : allocBuf fuel s = some (.ok f, s1)) : ConsistentExcept s1 f := by
  obtain ⟨hf, -, -⟩ := allocBufLoop_ok fuel _ _ _ _ (advanceClock_lt s hn) h
  obtain ⟨hnum, -, hfr⟩ := allocBufLoop_frame fuel _ _ _ _ h
  obtain ⟨-, -, -, hlk, -⟩ := allocBufLoop_ok_state fuel _ _ _ _ h
  simp only [advanceClock_numBufs, advanceClock_bufDescTable, advanceClock_hashTable]
    at hf hnum hfr hlk
  refine ⟨hnum ▸ hf, fun file pageNo i => ?_⟩
  rw [hlk file pageNo, hnum, (hfr i).1, (hfr i).2.2.1, (hfr i).2.2.2.1]
  constructor
  · intro hl
    split_ifs at hl with hc
    obtain ⟨h1, h2, h3, h4⟩ := (hs file pageNo i).mp hl
    refine ⟨?_, h1, h2, h3, h4⟩
    rintro rfl
    exact hc ⟨h2, h3, h4⟩
  · rintro ⟨hne, h1, h2, h3, h4⟩
    have hl := (hs file pageNo i).mpr ⟨h1, h2, h3, h4⟩
    rw [if_neg, hl]
    rintro ⟨c1, c2, c3⟩
    have hl' := (hs file pageNo f).mpr ⟨hf, c1, c2, c3⟩
    rw [hl] at hl'
    exact hne (Option.some.inj hl')

/-- Refilling frame `f` with a page that is not in the index restores the
agreement of index and frame table. -/
theorem indexConsistent_install (s1 t : BufMgr) (f : FrameId) (file : File) (pageNo : PageId)
    (hs : ConsistentExcept s1 f) (hl : s1.hashTable.lookup file pageNo = none)
    (hn : t.numBufs = s1.numBufs)
    (hh : ∀ g p, t.hashTable.lookup g p =
      if g = file ∧ p = pageNo then some f else s1.hashTable.lookup g p)
    (hf : (t.bufDescTable f).valid = true ∧ (t.bufDescTable f).file = some file ∧
      (t.bufDescTable f).pageNo = pageNo)
    (hd : ∀ i, i ≠ f → (t.bufDescTable i).valid = (s1.bufDescTable i).valid ∧
      (t.bufDescTable i).file = (s1.bufDescTable i).file ∧
      (t.bufDescTable i).pageNo = (s1.bufDescTable i).pageNo) : IndexConsistent t := by
  obtain ⟨hfn, hs⟩ := hs
  intro g p i
  rw [hh g p, hn]
  constructor
  · intro h
    split_ifs at h with hc
    · obtain ⟨rfl, rfl⟩ := hc
      cases h
      exact ⟨hfn, hf⟩
    · obtain ⟨hne, h1, h2, h3, h4⟩ := (hs g p i).mp h
      rw [(hd i hne).1, (hd i hne).2.1, (hd i hne).2.2]
      exact ⟨h1, h2, h3, h4⟩
  · rintro ⟨h1, h2, h3, h4⟩
    by_cases hif : i = f
    · subst hif
      rw [hf.2.1] at h3
      rw [hf.2.2] at h4
      rw [if_pos ⟨(Option.some.inj h3).symm, h4.symm⟩]
    · rw [(hd i hif).1] at h2
      rw [(hd i hif).2.1] at h3
      rw [(hd i hif).2.2] at h4
      have hl' := (hs g p i).mpr ⟨hif, h1, h2, h3, h4⟩
      rw [if_neg, hl']
      rintro ⟨rfl, rfl⟩
      rw [hl] at hl'
      cases hl'

/-- Removing the index entry of a resident page and invalidating its frame
keeps index and frame table in agreement. -/
theorem indexConsistent_evict (s t : BufMgr) (f : FrameId) (file : File) (pageNo : PageId)
    (hs : IndexConsistent s) (hl : s.hashTable.lookup file pageNo = some f)
    (hn : t.numBufs = s.numBufs)
    (hh : ∀ g p, t.hashTable.lookup g p =
      if g = file ∧ p = pageNo then none else s.hashTable.lookup g p)
    (hf : (t.bufDescTable f).valid = false)
    (hd : ∀ i, i ≠ f → (t.bufDescTable i).valid = (s.bufDescTable i).valid ∧
      (t.bufDescTable i).file = (s.bufDescTable i).file ∧
      (t.bufDescTable i).pageNo = (s.bufDescTable i).pageNo) : IndexConsistent t := by
  intro g p i
  rw [hh g p, hn]
  constructor
  · intro h
    split_ifs at h with hc
    obtain ⟨h1, h2, h3, h4⟩ := (hs g p i).mp h
    have hif : i ≠ f := by
      rintro rfl
      obtain ⟨-, -, k3, k4⟩ := (hs file pageNo i).mp hl
      rw [k3] at h3
      rw [k4] at h4
      exact hc ⟨(Option.some.inj h3).symm, h4.symm⟩
    rw [(hd i hif).1, (hd i hif).2.1, (hd i hif).2.2]
    exact ⟨h1, h2, h3, h4⟩
  · rintro ⟨h1, h2, h3, h4⟩
    have hif : i ≠ f := by
      rintro rfl
      rw [hf] at h2
      cases h2
    rw [(hd i hif).1] at h2
    rw [(hd i hif).2.1] at h3
    rw [(hd i hif).2.2] at h4
    have hl' := (hs g p i).mpr ⟨h1, h2, h3, h4⟩
    rw [if_neg, hl']
    rintro ⟨rfl, rfl⟩
    rw [hl] at hl'
    exact hif (Option.some.inj hl').symm

theorem indexConsistent_allocBuf_error (fuel : Nat) (s s' : BufMgr) (e : Error)
    (hs : IndexConsistent s) (h : allocBuf fuel s = some (.error e, s')) :
    IndexConsistent s' := by
  obtain ⟨hnum, -, hfr⟩ := allocBufLoop_frame fuel _ _ _ _ h
  obtain ⟨-, hht, -⟩ := allocBufLoop_error_state fuel _ _ _ _ h
  exact indexConsistent_congr s s' hs (by simpa using hnum) (by simpa using hht) fun i =>
    ⟨by simpa using (hfr i).1, by simpa using (hfr i).2.2.1, by simpa using (hfr i).2.2.2.1⟩

theorem allocBuf_ok_lookup_none (fuel : Nat) (s s1 : BufMgr) (f : FrameId) (file : File)
    (pageNo : PageId) (hl : s.hashTable.lookup file pageNo = none)
    (h : allocBuf fuel s = some (.ok f, s1)) : s1.hashTable.lookup file pageNo = none := by
  obtain ⟨-, -, -, hlk, -⟩ := allocBufLoop_ok_state fuel _ _ _ _ h
  rw [hlk file pageNo]
  split_ifs
  · rfl
  · simpa using hl

theorem indexConsistent_readPage (fuel : Nat) (store : PageStore) (s s' : BufMgr)
    (file : File) (pageNo : PageId) (r : Except Error FrameId) (hs : IndexConsistent s)
    (hn : 0 < s.numBufs) (hstore : ReadsSucceed store)
    (h : readPage fuel store s file pageNo = some (r, s')) : IndexConsistent s' := by
  simp only [readPage] at h
  split at h
  · next f hl =>
    simp only [Option.some.injEq, Prod.mk.injEq] at h
    obtain ⟨-, rfl⟩ := h
    refine indexConsistent_congr s _ hs rfl rfl fun i => ?_
    rw [setDesc_apply]
    split_ifs with he
    · subst he; exact ⟨rfl, rfl, rfl⟩
    · exact ⟨rfl, rfl, rfl⟩
  · next hl =>
    split at h
    · cases h
    · next e s1 ha =>
      simp only [Option.some.injEq, Prod.mk.injEq] at h
      obtain ⟨-, rfl⟩ := h
      exact indexConsistent_allocBuf_error fuel s _ e hs ha
    · next f s1 ha =>
      have hex := allocBuf_ok_consistentExcept fuel s s1 f hs hn ha
      have hl1 := allocBuf_ok_lookup_none fuel s s1 f file pageNo hl ha
      split at h
      · next hread => exact absurd hread (hstore _ _ _)
      · next pg hread =>
        simp only [Option.some.injEq, Prod.mk.injEq] at h
        obtain ⟨-, rfl⟩ := h
        refine indexConsistent_install s1 _ f file pageNo hex hl1 rfl (fun g p => rfl)
          (by simp [BufDesc.Set]) fun i hi => ?_
        rw [setDesc_other _ _ _ _ hi]
        exact ⟨rfl, rfl, rfl⟩

theorem indexConsistent_allocPage (fuel : Nat) (store : PageStore) (s s' : BufMgr)
    (file : File) (r : Except Error (PageId × FrameId)) (hs : IndexConsistent s)
    (hn : 0 < s.numBufs)
    (hfresh : s.hashTable.lookup file (store.allocatePage s.trace file).number = none)
    (h : allocPage fuel store s file = some (r, s')) : IndexConsistent s' := by
  have hs0 : IndexConsistent (s.call (.allocatePage file)) :=
    indexConsistent_congr s _ hs rfl rfl fun i => ⟨rfl, rfl, rfl⟩
  simp only [allocPage] at h
  split at h
  · cases h
  · next e s1 ha =>
    simp only [Option.some.injEq, Prod.mk.injEq] at h
    obtain ⟨-, rfl⟩ := h
    exact indexConsistent_allocBuf_error fuel _ _ e hs0 ha
  · next f s1 ha =>
    have hex := allocBuf_ok_consistentExcept fuel _ s1 f hs0 hn ha
    have hl1 := allocBuf_ok_lookup_none fuel (s.call (.allocatePage file)) s1 f file _
      hfresh ha
    simp only [Option.some.injEq, Prod.mk.injEq] at h
    obtain ⟨-, rfl⟩ := h
    refine indexConsistent_install s1 _ f file _ hex hl1 rfl (fun g p => rfl)
      (by simp [BufDesc.Set]) fun i hi => ?_
    rw [setDesc_other _ _ _ _ hi]
    exact ⟨rfl, rfl, rfl⟩

theorem indexConsistent_unPinPage (s : BufMgr) (file : File) (pageNo : PageId) (dirty : Bool)
    (hs : IndexConsistent s) : IndexConsistent (unPinPage s file pageNo dirty).2 := by
  cases hl : s.hashTable.lookup file pageNo with
  | none => simpa only [unPinPage, hl] using hs
  | some f =>
    by_cases hp : 0 < (s.bufDescTable f).pinCnt
    · rw [unPinPage_eq_of_pinned s file pageNo dirty f hl hp]
      refine indexConsistent_congr s _ hs rfl rfl fun i => ?_
      rw [setDesc_apply]
      split_ifs with he
      · subst he; exact ⟨rfl, rfl, rfl⟩
      · exact ⟨rfl, rfl, rfl⟩
    · rw [unPinPage_eq_of_unpinned s file pageNo dirty f hl hp]
      exact hs

theorem indexConsistent_disposePage (s : BufMgr) (file : File) (pageNo : PageId)
    (hs : IndexConsistent s) : IndexConsistent (disposePage s file pageNo).2 := by
  cases hl : s.hashTable.lookup file pageNo with
  | none =>
    simp only [disposePage, hl]
    exact indexConsistent_congr s _ hs rfl rfl fun i => ⟨rfl, rfl, rfl⟩
  | some f =>
    have hm : s.hashTable.map file pageNo = some f := hl
    simp only [disposePage, hl, BufHashTbl.remove, hm]
    refine indexConsistent_evict s _ f file pageNo hs hl rfl (fun g p => rfl)
      (by simp [BufDesc.Clear]) fun i hi => ?_
    simp only [call_bufDescTable]
    rw [setDesc_other _ _ _ _ hi]
    exact ⟨rfl, rfl, rfl⟩

theorem indexConsistent_flushOne (s : BufMgr) (file : File) (i : FrameId)
    (hs : IndexConsistent s) (hl : s.hashTable.lookup file (s.bufDescTable i).pageNo = some i) :
    IndexConsistent (flushOne file i s) := by
  refine indexConsistent_evict s _ i file _ hs hl rfl (fun g p => flushOne_lookup file i s g p)
    (by rw [flushOne_desc_same]; rfl) fun k hk => ?_
  rw [flushOne_desc_other file i k s hk]
  exact ⟨rfl, rfl, rfl⟩

theorem indexConsistent_flushFileLoop (file : File) (l : List FrameId) :
    ∀ s : BufMgr, IndexConsistent s → (∀ i ∈ l, i < s.numBufs) →
      IndexConsistent (flushFileLoop file l s).2 := by
  induction l with
  | nil => intro s hs _; exact hs
  | cons i rest ih =>
    intro s hs hl
    by_cases ho : (s.bufDescTable i).file = some file
    · by_cases hp : 0 < (s.bufDescTable i).pinCnt
      · simpa only [flushFileLoop, ho, gt_iff_lt, hp, if_true] using hs
      · cases hv : (s.bufDescTable i).valid with
        | false => simpa [flushFileLoop, ho, hp, hv] using hs
        | true =>
          have hli := (hs file _ i).mpr ⟨hl i (List.mem_cons_self _ _), hv, ho, rfl⟩
          rw [flushFileLoop_cons_owned file i i rest s ho hp hv hli]
          exact ih _ (indexConsistent_flushOne s file i hs hli)
            fun j hj => hl j (List.mem_cons_of_mem _ hj)
    · rw [flushFileLoop_cons_skip file i rest s ho]
      exact ih s hs fun j hj => hl j (List.mem_cons_of_mem _ hj)

theorem indexConsistent_run (fuel : Nat) (store : PageStore) (s s' : BufMgr) (op : Op)
    (hs : IndexConsistent s) (hn : 0 < s.numBufs) (hstore : ReadsSucceed store)
    (hfresh : FreshAlloc store s op) (h : op.run fuel store s = some s') :
    IndexConsistent s' := by
  cases op with
  | readPage file pageNo =>
    simp only [Op.run, Option.map_eq_some', Prod.exists, exists_eq_right] at h
    obtain ⟨r, h⟩ := h
    exact indexConsistent_readPage fuel store s s' file pageNo r hs hn hstore h
  | unPinPage file pageNo dirty =>
    simp only [Op.run, Option.some.injEq] at h
    subst h
    exact indexConsistent_unPinPage s file pageNo dirty hs
  | allocPage file =>
    simp only [Op.run, Option.map_eq_some', Prod.exists, exists_eq_right] at h
    obtain ⟨r, h⟩ := h
    exact indexConsistent_allocPage fuel store s s' file r hs hn hfresh h
  | disposePage file pageNo =>
    simp only [Op.run, Option.some.injEq] at h
    subst h
    exact indexConsistent_disposePage s file pageNo hs
  | flushFile file =>
    simp only [Op.run, Option.some.injEq] at h
    subst h
    exact indexConsistent_flushFileLoop file _ s hs fun i hi => List.mem_range.mp hi

theorem reachable_numBufs (fuel : Nat) (store : PageStore) (bufs : Nat) (s : BufMgr)
    (hr : Reachable fuel store bufs s) : s.numBufs = bufs := by
  induction hr with
  | init => rfl
  | step s s' op _ _ hrun ih => rw [run_numBufs fuel store s s' op hrun, ih]

theorem reachable_indexConsistent (fuel : Nat) (store : PageStore) (bufs : Nat) (s : BufMgr)
    (hb : 0 < bufs) (hstore : ReadsSucceed store) (hr : Reachable fuel store bufs s) :
    IndexConsistent s := by
  induction hr with
  | init => exact indexConsistent_new bufs
  | step s s' op hreach hfresh hrun ih =>
    exact indexConsistent_run fuel store s s' op ih
      (by rw [reachable_numBufs fuel store bufs s hreach]; exact hb) hstore hfresh hrun

theorem reachable_runOps (fuel : Nat) (store : PageStore) (bufs : Nat) (ops : List Op) :
    ∀ s s' : BufMgr, Reachable fuel store bufs s → (∀ op ∈ ops, ∀ t, FreshAlloc store t op) →
      runOps fuel store ops s = some s' → Reachable fuel store bufs s' := by
  induction ops with
  | nil => intro s s' hs _ h; simp only [runOps, Option.some.injEq] at h; subst h; exact hs
  | cons op ops ih =>
    intro s s' hs hfresh h
    simp only [runOps, Option.bind_eq_some] at h
    obtain ⟨s1, h1, h2⟩ := h
    exact ih s1 s' (Reachable.step s s1 op hs (hfresh op (List.mem_cons_self _ _) s) h1)
      (fun o ho => hfresh o (List.mem_cons_of_mem _ ho)) h2

theorem readsSucceed_demoStore : ReadsSucceed demoStore := by
  intro t file pageNo
  simp [demoStore]

theorem reachable_doubleCountState : Reachable 4 demoStore 2 doubleCountState := by
  refine reachable_runOps 4 demoStore 2 doubleCountOps _ _ Reachable.init ?_ rfl
  intro op hop t
  simp only [doubleCountOps, List.mem_cons, List.mem_singleton, List.not_mem_nil, or_false]
    at hop
  rcases hop with rfl | rfl | rfl | rfl | rfl <;> trivial

/-- C13: start from a freshly constructed manager with `bufs > 0` frames and
apply any sequence of `readPage`, `unPinPage`, `allocPage`, `disposePage` and
`flushFile` calls, returning or throwing, where the reads of the Page Store
succeed and `allocatePage` hands out page numbers that are not resident. In
every state reached the index maps `(file, pageNo)` to frame `f` exactly when
`f` is a valid frame of the pool whose descriptor names `(file, pageNo)`; so at
most one valid frame names any `(file, pageNo)`. With enough fuel every further
call returns or throws. -/
theorem index_consistency_invariant (fuel : Nat) (store : PageStore) (bufs : Nat)
    (s : BufMgr) (hb : 0 < bufs) (hstore : ReadsSucceed store)
    (hr : Reachable fuel store bufs s) :
    (∀ file pageNo f, s.hashTable.lookup file pageNo = some f ↔
      (f < s.numBufs ∧ (s.bufDescTable f).valid = true ∧
        (s.bufDescTable f).file = some file ∧ (s.bufDescTable f).pageNo = pageNo)) ∧
    (∀ file pageNo i j, i < s.numBufs → j < s.numBufs →
      (s.bufDescTable i).valid = true → (s.bufDescTable i).file = some file →
      (s.bufDescTable i).pageNo = pageNo →
      (s.bufDescTable j).valid = true → (s.bufDescTable j).file = some file →
      (s.bufDescTable j).pageNo = pageNo → i = j) ∧
    (bufs < 2 ^ 32 → 2 * bufs ≤ fuel → ∀ op : Op, ∃ s', op.run fuel store s = some s') := by
  have hs : IndexConsistent s := reachable_indexConsistent fuel store bufs s hb hstore hr
  have hnum := reachable_numBufs fuel store bufs s hr
  refine ⟨hs, ?_, ?_⟩
  · intro file pageNo i j hi hj vi fi pi vj fj pj
    have h1 := (hs file pageNo i).mpr ⟨hi, vi, fi, pi⟩
    have h2 := (hs file pageNo j).mpr ⟨hj, vj, fj, pj⟩
    rw [h1] at h2
    exact Option.some.inj h2
  · intro h32 hf op
    exact run_total fuel store s op (hnum ▸ hb) (hnum ▸ h32) (hnum ▸ hf)

/-- Witness for C13: `doubleCountState` is reached from a fresh pool of two
frames by three fetches and two releases. -/
theorem index_consistency_invariant_witness :
    ReadsSucceed demoStore ∧ Reachable 4 demoStore 2 doubleCountState ∧
    (∀ file pageNo f, doubleCountState.hashTable.lookup file pageNo = some f ↔
      (f < doubleCountState.numBufs ∧ (doubleCountState.bufDescTable f).valid = true ∧
        (doubleCountState.bufDescTable f).file = some file ∧
        (doubleCountState.bufDescTable f).pageNo = pageNo)) :=
  ⟨readsSucceed_demoStore, reachable_doubleCountState,
    (index_consistency_invariant 4 demoStore 2 doubleCountState (by decide)
      readsSucceed_demoStore reachable_doubleCountState).1⟩

/-! ## A fetch that fails after the eviction -/

theorem consistent_preStaleState : Consistent preStaleState := by
  constructor
  · refine reachable_indexConsistent 4 demoStore 2 preStaleState (by decide)
      readsSucceed_demoStore ?_
    refine reachable_runOps 4 demoStore 2
      [.readPage 7 1, .readPage 7 2, .unPinPage 7 1 false] _ _ Reachable.init ?_ rfl
    intro op hop t
    simp only [List.mem_cons, List.mem_singleton, List.not_mem_nil, or_false] at hop
    rcases hop with rfl | rfl | rfl <;> trivial
  · intro i hi hv
    have hi2 : Nat.lt i 2 := hi
    have : i = 0 ∨ i = 1 := by
      rcases i with _ | _ | i
      · exact Or.inl rfl
      · exact Or.inr rfl
      · exact absurd hi2 (by simp [Nat.lt])
    rcases this with rfl | rfl
    · exact absurd hv (by decide)
    · exact absurd hv (by decide)

/-- C14: evaluation of `readPage` in the consistent state `preStaleState`. The
fetch of page 9 misses the index, `allocBuf` evicts frame 0 (page 1, not
pinned) and the read of the Page Store fails. Afterwards frame 0 is still
valid and still names page 1 of file 7, but the index has no entry for that
page: index and frame table no longer agree. -/
theorem readPage_failed_read_breaks_consistency :
    Consistent preStaleState ∧
    preStaleState.hashTable.lookup 7 9 = none ∧
    (allocBuf 4 preStaleState).map Prod.fst = some (.ok 0) ∧
    failingStore.readPage preStaleState.trace 7 9 = none ∧
    readPage 4 failingStore preStaleState 7 9 = some (.error (.InvalidPage 7 9), stalePost) ∧
    (stalePost.bufDescTable 0).valid = true ∧ (stalePost.bufDescTable 0).file = some 7 ∧
    (stalePost.bufDescTable 0).pageNo = 1 ∧ stalePost.hashTable.lookup 7 1 = none ∧
    ¬ IndexConsistent stalePost := by
  refine ⟨consistent_preStaleState, rfl, rfl, rfl, rfl, rfl, rfl, rfl, rfl, ?_⟩
  intro h
  have := (h 7 1 0).mpr ⟨by decide, rfl, rfl, rfl⟩
  revert this
  decide

/-! ## Fetches into frames that are not valid -/

theorem readPage_next_invalid (k : Nat) (store : PageStore) (s : BufMgr) (file : File)
    (pageNo : PageId) (pg : Page) (hl : s.hashTable.lookup file pageNo = none)
    (hv : (s.bufDescTable (advanceClock s).clockHand).valid = false)
    (hread : store.readPage s.trace file pageNo = some pg) :
    readPage (k + 1) store s file pageNo =
      some (.ok (advanceClock s).clockHand, installed s file pageNo pg) := by
  have hv' : ((advanceClock s).bufDescTable (advanceClock s).clockHand).valid = false := hv
  simp only [readPage, hl, allocBuf, allocBufLoop, hv', Bool.not_false, if_true,
    advanceClock_trace, hread, installed]

@[simp] theorem installed_numBufs (s : BufMgr) (file : File) (pageNo : PageId) (pg : Page) :
    (installed s file pageNo pg).numBufs = s.numBufs := rfl
@[simp] theorem installed_clockHand (s : BufMgr) (file : File) (pageNo : PageId) (pg : Page) :
    (installed s file pageNo pg).clockHand = (advanceClock s).clockHand := rfl
@[simp] theorem installed_trace (s : BufMgr) (file : File) (pageNo : PageId) (pg : Page) :
    (installed s file pageNo pg).trace = s.trace ++ [.readPage file pageNo] := rfl
theorem installed_lookup (s : BufMgr) (file : File) (pageNo : PageId) (pg : Page) (g : File)
    (p : PageId) :
    (installed s file pageNo pg).hashTable.lookup g p =
      if g = file ∧ p = pageNo then some (advanceClock s).clockHand
      else s.hashTable.lookup g p := rfl
theorem installed_desc_same (s : BufMgr) (file : File) (pageNo : PageId) (pg : Page) :
    (installed s file pageNo pg).bufDescTable (advanceClock s).clockHand =
      (s.bufDescTable (advanceClock s).clockHand).Set file pageNo := by
  simp [installed]
theorem installed_desc_other (s : BufMgr) (file : File) (pageNo : PageId) (pg : Page)
    (i : FrameId) (h : i ≠ (advanceClock s).clockHand) :
    (installed s file pageNo pg).bufDescTable i = s.bufDescTable i := by
  simp only [installed]
  rw [setDesc_other _ _ _ _ h]
  rfl
theorem installed_pool_same (s : BufMgr) (file : File) (pageNo : PageId) (pg : Page) :
    (installed s file pageNo pg).bufPool (advanceClock s).clockHand = pg := by
  simp [installed]

/-- In a pool of two frames, both valid with their reference flags set, frame
0 not pinned and the clock hand on frame 1, the sweep clears both flags and
returns frame 0 at its third step. -/
theorem allocBuf_second_chance (k : Nat) (s : BufMgr) (hn : s.numBufs = 2)
    (hc : s.clockHand = 1) (v0 : (s.bufDescTable 0).valid = true)
    (r0 : (s.bufDescTable 0).refbit = true) (p0 : (s.bufDescTable 0).pinCnt = 0)
    (v1 : (s.bufDescTable 1).valid = true) (r1 : (s.bufDescTable 1).refbit = true) :
    ∃ s', allocBuf (k + 3) s = some (.ok 0, s') := by
  simp [allocBuf, allocBufLoop, advanceClock, hn, hc, v0, r0, p0, v1, r1, BufMgr.setDesc,
    Function.update]

/-! ## The example scenario of section 8 -/

/-- The miss branch of `readPage` once `allocBuf` has returned frame `f` and
the Page Store has answered the read with `pg`. -/
theorem readPage_miss_eq (fuel : Nat) (store : PageStore) (s s1 : BufMgr) (file : File)
    (pageNo : PageId) (f : FrameId) (pg : Page)
    (hl : s.hashTable.lookup file pageNo = none)
    (ha : allocBuf fuel s = some (.ok f, s1))
    (hr : store.readPage s1.trace file pageNo = some pg) :
    readPage fuel store s file pageNo = some (.ok f,
      ({ (s1.call (.readPage file pageNo)).setPool f pg with
        hashTable := ((s1.call (.readPage file pageNo)).setPool f pg).hashTable.insert
          file pageNo f }).setDesc f ((s1.bufDescTable f).Set file pageNo)) := by
  simp only [readPage, hl, ha, hr]
  rfl

/-- C15: on a fresh pool of two frames, with three distinct pages `A`, `B`,
`C` of one file and a Page Store whose reads succeed, fetch `A`, fetch `B`,
release `A`, release `B`, fetch `C` all return normally. `A` goes to frame 0
and `B` to frame 1, each with pin count 1. After the fetch of `C` page `A` is
no longer in the index and frame 0 holds `C` with pin count 1, while `B` is
still resident in frame 1 and not pinned. The Page Store has received the three
reads and, between the last two, one write-back of the page of `A` exactly
when `A` was released dirty. The pool slots hold what the Page Store answered:
slot 0 the page of `A` until the eviction (this is the page written back) and
the page of `C` afterwards, slot 1 the page of `B` throughout. -/
theorem example_scenario (fuel : Nat) (hfuel : 3 ≤ fuel) (store : PageStore)
    (hstore : ReadsSucceed store) (file : File) (A B C : PageId) (hAB : A ≠ B)
    (hAC : A ≠ C) (hBC : B ≠ C) (dA dB : Bool) :
    ∃ s1 s2 s3 s4 s5 pageA pageB pageC,
      store.readPage [] file A = some pageA ∧
      store.readPage [StoreCall.readPage file A] file B = some pageB ∧
      store.readPage ([StoreCall.readPage file A, StoreCall.readPage file B] ++
        (if dA = true then [StoreCall.writePage (some file) pageA] else [])) file C =
          some pageC ∧
      readPage fuel store (BufMgr.new 2) file A = some (.ok 0, s1) ∧
      (s1.bufDescTable 0).pinCnt = 1 ∧ s1.bufPool 0 = pageA ∧
      readPage fuel store s1 file B = some (.ok 1, s2) ∧
      (s2.bufDescTable 0).pinCnt = 1 ∧ (s2.bufDescTable 1).pinCnt = 1 ∧
      s2.bufPool 0 = pageA ∧ s2.bufPool 1 = pageB ∧
      unPinPage s2 file A dA = (.ok (), s3) ∧
      unPinPage s3 file B dB = (.ok (), s4) ∧
      s4.bufPool 0 = pageA ∧ s4.bufPool 1 = pageB ∧
      readPage fuel store s4 file C = some (.ok 0, s5) ∧
      s5.hashTable.lookup file A = none ∧
      s5.hashTable.lookup file C = some 0 ∧
      (s5.bufDescTable 0).valid = true ∧ (s5.bufDescTable 0).file = some file ∧
      (s5.bufDescTable 0).pageNo = C ∧ (s5.bufDescTable 0).pinCnt = 1 ∧
      s5.bufPool 0 = pageC ∧
      s5.hashTable.lookup file B = some 1 ∧
      (s5.bufDescTable 1).valid = true ∧ (s5.bufDescTable 1).file = some file ∧
      (s5.bufDescTable 1).pageNo = B ∧ (s5.bufDescTable 1).pinCnt = 0 ∧
      s5.bufPool 1 = pageB ∧
      s5.trace = [StoreCall.readPage file A, StoreCall.readPage file B] ++
        (if dA = true then [StoreCall.writePage (some file) pageA] else []) ++
        [StoreCall.readPage file C] := by
  obtain ⟨k, rfl⟩ : ∃ k, fuel = k + 3 := ⟨fuel - 3, by omega⟩
  -- fetch A
  obtain ⟨pa, hpa⟩ := Option.ne_none_iff_exists'.mp (hstore (BufMgr.new 2).trace file A)
  have e1 : readPage (k + 3) store (BufMgr.new 2) file A =
      some (.ok 0, installed (BufMgr.new 2) file A pa) :=
    readPage_next_invalid (k + 2) store (BufMgr.new 2) file A pa rfl rfl hpa
  have d1 : (installed (BufMgr.new 2) file A pa).bufDescTable 0 =
      ((BufMgr.new 2).bufDescTable 0).Set file A :=
    installed_desc_same (BufMgr.new 2) file A pa
  -- fetch B
  have l1 : (installed (BufMgr.new 2) file A pa).hashTable.lookup file B = none := by
    rw [installed_lookup, if_neg (fun h => hAB h.2.symm)]
    rfl
  obtain ⟨pb, hpb⟩ := Option.ne_none_iff_exists'.mp
    (hstore (installed (BufMgr.new 2) file A pa).trace file B)
  have e2 : readPage (k + 3) store (installed (BufMgr.new 2) file A pa) file B =
      some (.ok 1, installed (installed (BufMgr.new 2) file A pa) file B pb) :=
    readPage_next_invalid (k + 2) store _ file B pb l1 rfl hpb
  generalize hs1 : installed (BufMgr.new 2) file A pa = s1 at *
  have c1 : (advanceClock s1).clockHand = 1 := by rw [← hs1]; rfl
  have t1 : s1.trace = [StoreCall.readPage file A] := by rw [← hs1]; rfl
  have p1 : s1.bufPool 0 = pa := by rw [← hs1]; exact installed_pool_same _ _ _ _
  have la1 : s1.hashTable.lookup file A = some 0 := by
    rw [← hs1, installed_lookup, if_pos ⟨rfl, rfl⟩]; rfl
  have d2_0 : (installed s1 file B pb).bufDescTable 0 = s1.bufDescTable 0 :=
    installed_desc_other s1 file B pb 0 (by rw [c1]; decide)
  have d2_1 : (installed s1 file B pb).bufDescTable 1 = (s1.bufDescTable 1).Set file B := by
    have := installed_desc_same s1 file B pb
    rwa [c1] at this
  have la2 : (installed s1 file B pb).hashTable.lookup file A = some 0 := by
    rw [installed_lookup, if_neg (fun h => hAB h.2), la1]
  have lb2 : (installed s1 file B pb).hashTable.lookup file B = some 1 := by
    rw [installed_lookup, if_pos ⟨rfl, rfl⟩, c1]
  have lc2 : (installed s1 file B pb).hashTable.lookup file C = none := by
    rw [installed_lookup, if_neg (fun h => hBC h.2.symm), ← hs1, installed_lookup,
      if_neg (fun h => hAC h.2.symm)]
    rfl
  have t2 : (installed s1 file B pb).trace =
      [StoreCall.readPage file A, StoreCall.readPage file B] := by
    rw [installed_trace, t1]; rfl
  have p2 : (installed s1 file B pb).bufPool 0 = pa := by
    rw [← p1]
    simp only [installed, setDesc_bufPool, BufMgr.setPool, c1]
    exact Function.update_noteq (by decide) _ _
  have p2b : (installed s1 file B pb).bufPool 1 = pb := by
    have := installed_pool_same s1 file B pb
    rwa [c1] at this
  generalize hs2 : installed s1 file B pb = s2 at *
  -- release A
  have pin0 : (s2.bufDescTable 0).pinCnt = 1 := by rw [d2_0, d1]; rfl
  have pin1 : (s2.bufDescTable 1).pinCnt = 1 := by rw [d2_1]; rfl
  have e3 := unPinPage_eq_of_pinned s2 file A dA 0 la2 (by rw [pin0]; decide)
  generalize hs3 : s2.setDesc 0 { s2.bufDescTable 0 with
    pinCnt := (s2.bufDescTable 0).pinCnt - 1,
    dirty := (s2.bufDescTable 0).dirty || dA } = s3 at *
  have d3_0 : s3.bufDescTable 0 = { s2.bufDescTable 0 with
      pinCnt := (s2.bufDescTable 0).pinCnt - 1,
      dirty := (s2.bufDescTable 0).dirty || dA } := by rw [← hs3]; simp
  have d3_1 : s3.bufDescTable 1 = s2.bufDescTable 1 := by
    rw [← hs3]; exact setDesc_other _ _ _ _ (by decide)
  have h3 : s3.hashTable = s2.hashTable ∧ s3.trace = s2.trace ∧ s3.bufPool = s2.bufPool ∧
      s3.numBufs = s2.numBufs ∧ s3.clockHand = s2.clockHand := by
    rw [← hs3]; exact ⟨rfl, rfl, rfl, rfl, rfl⟩
  -- release B
  have lb3 : s3.hashTable.lookup file B = some 1 := by rw [h3.1]; exact lb2
  have e4 := unPinPage_eq_of_pinned s3 file B dB 1 lb3 (by rw [d3_1, pin1]; decide)
  generalize hs4 : s3.setDesc 1 { s3.bufDescTable 1 with
    pinCnt := (s3.bufDescTable 1).pinCnt - 1,
    dirty := (s3.bufDescTable 1).dirty || dB } = s4 at *
  have d4_0 : s4.bufDescTable 0 = s3.bufDescTable 0 := by
    rw [← hs4]; exact setDesc_other _ _ _ _ (by decide)
  have d4_1 : s4.bufDescTable 1 = { s3.bufDescTable 1 with
      pinCnt := (s3.bufDescTable 1).pinCnt - 1,
      dirty := (s3.bufDescTable 1).dirty || dB } := by rw [← hs4]; simp
  have h4 : s4.hashTable = s2.hashTable ∧ s4.trace = s2.trace ∧ s4.bufPool = s2.bufPool ∧
      s4.numBufs = 2 ∧ s4.clockHand = 1 := by
    rw [← hs4, ← hs3, ← hs2, ← hs1]; exact ⟨rfl, rfl, rfl, rfl, rfl⟩
  -- the descriptors before the last fetch
  have f0 : (s4.bufDescTable 0).valid = true ∧ (s4.bufDescTable 0).refbit = true ∧
      (s4.bufDescTable 0).pinCnt = 0 ∧ (s4.bufDescTable 0).file = some file ∧
      (s4.bufDescTable 0).pageNo = A ∧ (s4.bufDescTable 0).dirty = dA := by
    rw [d4_0, d3_0, d2_0, d1]
    simp [BufDesc.Set]
  have f1 : (s4.bufDescTable 1).valid = true ∧ (s4.bufDescTable 1).refbit = true ∧
      (s4.bufDescTable 1).pinCnt = 0 ∧ (s4.bufDescTable 1).file = some file ∧
      (s4.bufDescTable 1).pageNo = B := by
    rw [d4_1, d3_1, d2_1]
    simp [BufDesc.Set]
  -- fetch C
  obtain ⟨t, ht⟩ := allocBuf_second_chance k s4 h4.2.2.2.1 h4.2.2.2.2 f0.1 f0.2.1 f0.2.2.1
    f1.1 f1.2.1
  obtain ⟨pc, hpc⟩ := Option.ne_none_iff_exists'.mp (hstore t.trace file C)
  have lc4 : s4.hashTable.lookup file C = none := by rw [h4.1]; exact lc2
  obtain ⟨ttr, -, -, tlk, -⟩ := allocBufLoop_ok_state (k + 3) _ _ _ _ ht
  obtain ⟨-, tpool, tfr⟩ := allocBufLoop_frame (k + 3) _ _ _ _ ht
  simp only [advanceClock_trace, advanceClock_bufDescTable, advanceClock_bufPool,
    advanceClock_hashTable, f0.1, f0.2.2.2.1, f0.2.2.2.2.1, f0.2.2.2.2.2, true_and,
    Option.some.injEq] at ttr tlk tfr tpool
  have e5 := readPage_miss_eq (k + 3) store s4 t file C 0 pc lc4 ht hpc
  have q0 : s4.bufPool 0 = pa := by rw [h4.2.2.1]; exact p2
  have q1 : s4.bufPool 1 = pb := by rw [h4.2.2.1]; exact p2b
  have htr : t.trace = [StoreCall.readPage file A, StoreCall.readPage file B] ++
      (if dA = true then [StoreCall.writePage (some file) pa] else []) := by
    rw [ttr, h4.2.1, t2, q0]
  have hpb' : store.readPage [StoreCall.readPage file A] file B = some pb := by
    rw [← t1]; exact hpb
  have hpc' : store.readPage ([StoreCall.readPage file A, StoreCall.readPage file B] ++
      (if dA = true then [StoreCall.writePage (some file) pa] else [])) file C = some pc := by
    rw [← htr]; exact hpc
  refine ⟨s1, s2, s3, s4, _, pa, pb, pc, hpa, hpb', hpc', e1, by rw [d1]; rfl, p1, e2, pin0,
    pin1, p2, p2b, e3, e4, q0, q1, e5, ?_, ?_, ?_, ?_, ?_, ?_, ?_, ?_, ?_, ?_, ?_, ?_, ?_, ?_⟩
  · show (if file = file ∧ A = C then some 0 else t.hashTable.lookup file A) = none
    rw [if_neg (fun h => hAC h.2), tlk file A]
    simp
  · show (if file = file ∧ C = C then some 0 else t.hashTable.lookup file C) = some 0
    rw [if_pos ⟨rfl, rfl⟩]
  · simp [BufDesc.Set]
  · simp [BufDesc.Set]
  · simp [BufDesc.Set]
  · simp [BufDesc.Set]
  · show Function.update t.bufPool 0 pc 0 = pc
    exact Function.update_same _ _ _
  · show (if file = file ∧ B = C then some 0 else t.hashTable.lookup file B) = some 1
    rw [if_neg (fun h => hBC h.2), tlk file B, if_neg (fun h => hAB h.2), h4.1]
    exact lb2
  · rw [setDesc_other _ _ _ _ (by decide)]
    show (t.bufDescTable 1).valid = true
    rw [(tfr 1).1]; exact f1.1
  · rw [setDesc_other _ _ _ _ (by decide)]
    show (t.bufDescTable 1).file = some file
    rw [(tfr 1).2.2.1]; exact f1.2.2.2.1
  · rw [setDesc_other _ _ _ _ (by decide)]
    show (t.bufDescTable 1).pageNo = B
    rw [(tfr 1).2.2.2.1]; exact f1.2.2.2.2
  · rw [setDesc_other _ _ _ _ (by decide)]
    show (t.bufDescTable 1).pinCnt = 0
    rw [(tfr 1).2.1]; exact f1.2.2.1
  · show Function.update t.bufPool 0 pc 1 = pb
    rw [Function.update_noteq (by decide), tpool]
    exact q1
  · show t.trace ++ [StoreCall.readPage file C] = _
    rw [htr]

/-- Witness for C15: pages 1, 2, 3 of file 7 on `demoStore`, page 1 released
dirty. -/
theorem example_scenario_witness :
    ∃ s1 s2 s3 s4 s5 pageA pageB pageC,
      demoStore.readPage [] 7 1 = some pageA ∧
      demoStore.readPage [StoreCall.readPage 7 1] 7 2 = some pageB ∧
      demoStore.readPage ([StoreCall.readPage 7 1, StoreCall.readPage 7 2] ++
        (if true = true then [StoreCall.writePage (some 7) pageA] else [])) 7 3 =
          some pageC ∧
      readPage 3 demoStore (BufMgr.new 2) 7 1 = some (.ok 0, s1) ∧
      (s1.bufDescTable 0).pinCnt = 1 ∧ s1.bufPool 0 = pageA ∧
      readPage 3 demoStore s1 7 2 = some (.ok 1, s2) ∧
      (s2.bufDescTable 0).pinCnt = 1 ∧ (s2.bufDescTable 1).pinCnt = 1 ∧
      s2.bufPool 0 = pageA ∧ s2.bufPool 1 = pageB ∧
      unPinPage s2 7 1 true = (.ok (), s3) ∧
      unPinPage s3 7 2 false = (.ok (), s4) ∧
      s4.bufPool 0 = pageA ∧ s4.bufPool 1 = pageB ∧
      readPage 3 demoStore s4 7 3 = some (.ok 0, s5) ∧
      s5.hashTable.lookup 7 1 = none ∧
      s5.hashTable.lookup 7 3 = some 0 ∧
      (s5.bufDescTable 0).valid = true ∧ (s5.bufDescTable 0).file = some 7 ∧
      (s5.bufDescTable 0).pageNo = 3 ∧ (s5.bufDescTable 0).pinCnt = 1 ∧
      s5.bufPool 0 = pageC ∧
      s5.hashTable.lookup 7 2 = some 1 ∧
      (s5.bufDescTable 1).valid = true ∧ (s5.bufDescTable 1).file = some 7 ∧
      (s5.bufDescTable 1).pageNo = 2 ∧ (s5.bufDescTable 1).pinCnt = 0 ∧
      s5.bufPool 1 = pageB ∧
      s5.trace = [StoreCall.readPage 7 1, StoreCall.readPage 7 2] ++
        (if true = true then [StoreCall.writePage (some 7) pageA] else []) ++
        [StoreCall.readPage 7 3] :=
  example_scenario 3 (by decide) demoStore readsSucceed_demoStore 7 1 2 3 (by decide)
    (by decide) (by decide) true false

/-! ## Filling a fresh pool -/

theorem next_hand (N m : Nat) (h32 : N < 2 ^ 32) (hm : m < N) :
    ((m + N - 1) % N + 1) % 2 ^ 32 % N = m := by
  cases m with
  | zero =>
    have h1 : (0 + N - 1) % N = N - 1 := by
      rw [Nat.zero_add]
      exact Nat.mod_eq_of_lt (by omega)
    have h2 : N - 1 + 1 = N := by omega
    rw [h1, h2, Nat.mod_eq_of_lt h32, Nat.mod_self]
  | succ j =>
    have h1 : j + 1 + N - 1 = j + N := by omega
    rw [h1, Nat.add_mod_right, Nat.mod_eq_of_lt (show j < N by omega),
      Nat.mod_eq_of_lt (show j + 1 < 2 ^ 32 by omega), Nat.mod_eq_of_lt hm]

theorem hand_after (N m : Nat) (hm : m < N) : (m + 1 + N - 1) % N = m := by
  have h1 : m + 1 + N - 1 = m + N := by omega
  rw [h1, Nat.add_mod_right, Nat.mod_eq_of_lt hm]

theorem getElem?_snoc {α : Type} (l : List α) (x a : α) (k : Nat)
    (h : (l ++ [x])[k]? = some a) :
    (k < l.length ∧ l[k]? = some a) ∨ (k = l.length ∧ a = x) := by
  rw [List.getElem?_append] at h
  split_ifs at h with hk
  · exact Or.inl ⟨hk, h⟩
  · right
    have h0 : k - l.length = 0 := by
      by_contra hne
      have hnone : ([x] : List α)[k - l.length]? = none := by
        apply List.getElem?_eq_none
        simp only [List.length_singleton]
        omega
      rw [hnone] at h
      cases h
    constructor
    · omega
    · rw [h0] at h
      simpa using h.symm

theorem fillInv_new (N : Nat) (hN : 0 < N) (h32 : N < 2 ^ 32) :
    FillInv N [] (BufMgr.new N) := by
  refine ⟨rfl, ?_, ?_, fun _ _ _ => rfl, ?_, rfl⟩
  · rw [new_clockHand N hN h32]
    show N - 1 = (0 + N - 1) % N
    rw [Nat.mod_eq_of_lt (by omega)]
    omega
  · intro k file pageNo h
    simp at h
  · intro k _
    simp only [BufMgr.new, BufDesc.init]
    split_ifs <;> rfl

/-- A fetch of a page that is not resident, in a pool filled up to frame
`pages.length - 1`, examines one frame, the next one, and fills it. -/
theorem fillInv_fetch (N : Nat) (h32 : N < 2 ^ 32) (pages : List (File × PageId))
    (s : BufMgr) (k : Nat) (store : PageStore) (file : File) (pageNo : PageId) (pg : Page)
    (hs : FillInv N pages s) (hnew : (file, pageNo) ∉ pages) (hlen : pages.length < N)
    (hread : store.readPage s.trace file pageNo = some pg) :
    readPage (k + 1) store s file pageNo =
      some (.ok pages.length, installed s file pageNo pg) ∧
    FillInv N (pages ++ [(file, pageNo)]) (installed s file pageNo pg) := by
  obtain ⟨h1, h2, h3, h4, h5, h6⟩ := hs
  have hc : (advanceClock s).clockHand = pages.length := by
    show (s.clockHand + 1) % 2 ^ 32 % s.numBufs = pages.length
    rw [h1, h2]
    exact next_hand N pages.length h32 hlen
  have hv : (s.bufDescTable (advanceClock s).clockHand).valid = false := by
    rw [hc]; exact h5 _ (Nat.le_refl _)
  have e := readPage_next_invalid k store s file pageNo pg (h4 file pageNo hnew) hv hread
  rw [hc] at e
  refine ⟨e, h1, ?_, ?_, ?_, ?_, ?_⟩
  · rw [installed_clockHand, hc, List.length_append, List.length_singleton]
    exact (hand_after N pages.length hlen).symm
  · intro j g p hj
    rcases getElem?_snoc pages (file, pageNo) (g, p) j hj with ⟨hjl, hjp⟩ | ⟨rfl, hx⟩
    · obtain ⟨a1, a2, a3, a4⟩ := h3 j g p hjp
      have hne : j ≠ (advanceClock s).clockHand := fun h =>
        absurd (h.trans hc) (Nat.ne_of_lt hjl)
      have hmem : (g, p) ∈ pages := List.getElem?_mem hjp
      have hkey : ¬ (g = file ∧ p = pageNo) := by
        rintro ⟨rfl, rfl⟩
        exact hnew hmem
      rw [installed_lookup, if_neg hkey, installed_desc_other s file pageNo pg j hne]
      exact ⟨a1, a2, a3, a4⟩
    · obtain ⟨rfl, rfl⟩ := Prod.mk.inj hx
      have hd := installed_desc_same s g p pg
      rw [hc] at hd
      rw [installed_lookup, if_pos ⟨rfl, rfl⟩, hc, hd]
      exact ⟨rfl, rfl, rfl, rfl⟩
  · intro g p hgp
    have hkey : ¬ (g = file ∧ p = pageNo) := by
      rintro ⟨rfl, rfl⟩
      exact hgp (List.mem_append_right _ (List.mem_singleton_self _))
    rw [installed_lookup, if_neg hkey]
    exact h4 g p fun hm => hgp (List.mem_append_left _ hm)
  · intro j hj
    rw [List.length_append, List.length_singleton] at hj
    have hne : j ≠ (advanceClock s).clockHand := fun h =>
      absurd (h.trans hc) (Nat.ne_of_gt (Nat.lt_of_lt_of_le (Nat.lt_succ_self _) hj))
    rw [installed_desc_other s file pageNo pg j hne]
    exact h5 j (by omega)
  · rw [installed_trace, h6, List.map_append]
    rfl

theorem fillInv_unPinPage (N : Nat) (pages : List (File × PageId)) (s : BufMgr) (file : File)
    (pageNo : PageId) (dirty : Bool) (hs : FillInv N pages s) :
    FillInv N pages (unPinPage s file pageNo dirty).2 := by
  have key : ∀ (f : FrameId) (d : BufDesc), d.valid = (s.bufDescTable f).valid →
      d.file = (s.bufDescTable f).file → d.pageNo = (s.bufDescTable f).pageNo →
      FillInv N pages (s.setDesc f d) := by
    intro f d dv df dp
    obtain ⟨h1, h2, h3, h4, h5, h6⟩ := hs
    refine ⟨h1, h2, ?_, h4, ?_, h6⟩
    · intro j g p hj
      obtain ⟨a1, a2, a3, a4⟩ := h3 j g p hj
      rw [setDesc_apply]
      split_ifs with he
      · subst he; exact ⟨a1, dv ▸ a2, df ▸ a3, dp ▸ a4⟩
      · exact ⟨a1, a2, a3, a4⟩
    · intro j hj
      rw [setDesc_apply]
      split_ifs with he
      · subst he; rw [dv]; exact h5 j hj
      · exact h5 j hj
  cases hl : s.hashTable.lookup file pageNo with
  | none => simpa only [unPinPage, hl] using hs
  | some f =>
    by_cases hp : 0 < (s.bufDescTable f).pinCnt
    · rw [unPinPage_eq_of_pinned s file pageNo dirty f hl hp]
      exact key f _ rfl rfl rfl
    · rw [unPinPage_eq_of_unpinned s file pageNo dirty f hl hp]
      exact hs

theorem fillInv_runOps (N : Nat) (h32 : N < 2 ^ 32) (k : Nat) (store : PageStore)
    (hstore : ReadsSucceed store) (ops : List Op) :
    ∀ (pages : List (File × PageId)) (s : BufMgr), FillInv N pages s →
      (∀ op ∈ ops, FetchOrRelease op) → (pages ++ fetchedPages ops).Nodup →
      (pages ++ fetchedPages ops).length ≤ N →
      ∃ s', runOps (k + 1) store ops s = some s' ∧ FillInv N (pages ++ fetchedPages ops) s' := by
  induction ops with
  | nil =>
    intro pages s hs _ _ _
    exact ⟨s, rfl, by simpa [fetchedPages] using hs⟩
  | cons op rest ih =>
    intro pages s hs hops hnd hlen
    have hrest : ∀ o ∈ rest, FetchOrRelease o := fun o ho => hops o (List.mem_cons_of_mem _ ho)
    cases op with
    | readPage file pageNo =>
      simp only [fetchedPages] at hnd hlen ⊢
      rw [List.append_cons] at hnd hlen ⊢
      have hnd1 : (pages ++ [(file, pageNo)]).Nodup := (List.nodup_append.mp hnd).1
      have hnew : (file, pageNo) ∉ pages := by
        intro hm
        have := (List.nodup_append.mp hnd1).2.2 hm
        exact this (List.mem_singleton_self _)
      have hlt : pages.length < N := by
        simp only [List.length_append, List.length_singleton] at hlen
        omega
      obtain ⟨pg, hpg⟩ := Option.ne_none_iff_exists'.mp (hstore s.trace file pageNo)
      obtain ⟨e, hinv⟩ := fillInv_fetch N h32 pages s k store file pageNo pg hs hnew hlt hpg
      obtain ⟨s', h1, h2⟩ := ih _ _ hinv hrest hnd hlen
      exact ⟨s', by simp only [runOps, Op.run, e, Option.map_some', Option.some_bind, h1], h2⟩
    | unPinPage file pageNo dirty =>
      simp only [fetchedPages] at hnd hlen ⊢
      obtain ⟨s', h1, h2⟩ := ih _ _ (fillInv_unPinPage N pages s file pageNo dirty hs) hrest
        hnd hlen
      exact ⟨s', by simp only [runOps, Op.run, Option.some_bind, h1], h2⟩
    | allocPage file => exact absurd (hops _ (List.mem_cons_self _ _)) (by simp [FetchOrRelease])
    | disposePage file pageNo =>
      exact absurd (hops _ (List.mem_cons_self _ _)) (by simp [FetchOrRelease])
    | flushFile file => exact absurd (hops _ (List.mem_cons_self _ _)) (by simp [FetchOrRelease])

/-- C19: on a freshly constructed manager with `0 < N < 2 ^ 32` frames, run any
sequence of fetches of pairwise distinct pages, at most `N` of them, with
releases anywhere in between, on a Page Store whose reads succeed. Every call
returns or throws with fuel 1, that is, every allocation examines one frame.
Afterwards the `k`-th fetched page sits in frame `k` and is indexed there, the
frames not yet reached are not valid, the index holds nothing else, the only
Page Store calls were the reads of the fetched pages (no write-back), and the
clock hand is on the frame filled last. A further fetch of a page not yet
fetched returns the next frame. -/
theorem fill_order (N : Nat) (hN : 0 < N) (h32 : N < 2 ^ 32) (fuel : Nat) (hfuel : 1 ≤ fuel)
    (store : PageStore) (hstore : ReadsSucceed store) (ops : List Op)
    (hops : ∀ op ∈ ops, FetchOrRelease op) (hnd : (fetchedPages ops).Nodup)
    (hlen : (fetchedPages ops).length ≤ N) :
    ∃ s, runOps fuel store ops (BufMgr.new N) = some s ∧
      (∀ (k : Nat) file pageNo, (fetchedPages ops)[k]? = some (file, pageNo) →
        s.hashTable.lookup file pageNo = some k ∧ (s.bufDescTable k).valid = true ∧
        (s.bufDescTable k).file = some file ∧ (s.bufDescTable k).pageNo = pageNo) ∧
      (∀ k : Nat, (fetchedPages ops).length ≤ k → (s.bufDescTable k).valid = false) ∧
      (∀ file pageNo, (file, pageNo) ∉ fetchedPages ops →
        s.hashTable.lookup file pageNo = none) ∧
      s.trace = (fetchedPages ops).map (fun x => StoreCall.readPage x.1 x.2) ∧
      (0 < (fetchedPages ops).length → s.clockHand = (fetchedPages ops).length - 1) ∧
      (∀ file pageNo, (file, pageNo) ∉ fetchedPages ops → (fetchedPages ops).length < N →
        ∃ s', readPage fuel store s file pageNo =
            some (.ok (fetchedPages ops).length, s') ∧
          s'.clockHand = (fetchedPages ops).length ∧
          s'.trace = s.trace ++ [.readPage file pageNo]) := by
  obtain ⟨k, rfl⟩ : ∃ k, fuel = k + 1 := ⟨fuel - 1, by omega⟩
  obtain ⟨s, hrun, hinv⟩ := fillInv_runOps N h32 k store hstore ops [] (BufMgr.new N)
    (fillInv_new N hN h32) hops (by simpa using hnd) (by simpa using hlen)
  rw [List.nil_append] at hinv
  obtain ⟨h1, h2, h3, h4, h5, h6⟩ := hinv
  refine ⟨s, hrun, h3, h5, h4, h6, ?_, ?_⟩
  · intro hpos
    rw [h2]
    have he : (fetchedPages ops).length + N - 1 = ((fetchedPages ops).length - 1) + N := by
      omega
    rw [he, Nat.add_mod_right]
    exact Nat.mod_eq_of_lt (by omega)
  · intro file pageNo hnew hlt
    obtain ⟨pg, hpg⟩ := Option.ne_none_iff_exists'.mp (hstore s.trace file pageNo)
    obtain ⟨e, hinv'⟩ := fillInv_fetch N h32 (fetchedPages ops) s k store file pageNo pg
      ⟨h1, h2, h3, h4, h5, h6⟩ hnew hlt hpg
    refine ⟨_, e, ?_, installed_trace s file pageNo pg⟩
    rw [hinv'.2.1, List.length_append, List.length_singleton]
    exact hand_after N _ hlt

/-- Witness for C19: a pool of three frames, pages 1 and 2 of file 7, page 1
released dirty before the second fetch. -/
theorem fill_order_witness :
    ∃ s, runOps 1 demoStore fillOps (BufMgr.new 3) = some s ∧
      (∀ (k : Nat) file pageNo, (fetchedPages fillOps)[k]? = some (file, pageNo) →
        s.hashTable.lookup file pageNo = some k ∧ (s.bufDescTable k).valid = true ∧
        (s.bufDescTable k).file = some file ∧ (s.bufDescTable k).pageNo = pageNo) ∧
      (∀ k : Nat, (fetchedPages fillOps).length ≤ k → (s.bufDescTable k).valid = false) ∧
      (∀ file pageNo, (file, pageNo) ∉ fetchedPages fillOps →
        s.hashTable.lookup file pageNo = none) ∧
      s.trace = (fetchedPages fillOps).map (fun x => StoreCall.readPage x.1 x.2) ∧
      (0 < (fetchedPages fillOps).length → s.clockHand = (fetchedPages fillOps).length - 1) ∧
      (∀ file pageNo, (file, pageNo) ∉ fetchedPages fillOps →
        (fetchedPages fillOps).length < 3 →
        ∃ s', readPage 1 demoStore s file pageNo =
            some (.ok (fetchedPages fillOps).length, s') ∧
          s'.clockHand = (fetchedPages fillOps).length ∧
          s'.trace = s.trace ++ [.readPage file pageNo]) :=
  fill_order 3 (by decide) (by decide) 1 (by decide) demoStore readsSucceed_demoStore fillOps
    (by
      intro op hop
      simp only [fillOps, List.mem_cons, List.mem_singleton, List.not_mem_nil, or_false] at hop
      rcases hop with rfl | rfl | rfl <;> trivial)
    (by decide) (by decide)

end badgerdb
